import Mathlib

/-!
# go-leader: lease-based leader election

A shallow embedding of `leader/lib.go`, `leader/redis_compat.go` and
`leader/scripts.go`.

* Go `error` values are modelled by `GoError` (a message, possibly wrapped by
  `fmt.Errorf("...: %w", err)`); a nil error is `none`.
* `time.Duration` is a signed 64-bit count of nanoseconds: an `Int`, with
  `wrapInt64` applied where Go arithmetic can overflow.
* The external store behind `RedisCompatible` is an arbitrary state machine:
  a state type `σ` and one transition function per interface method.
* Stateful code is written in explicit state-passing style.
-/

namespace Leader

/-! ## Go runtime values -/

/-- Go `error` values: `errors.New`-style leaves and `fmt.Errorf("<pfx>%w", err)` wrappers. -/
inductive GoError where
  | new (msg : String)
  | wrap (pfx : String) (inner : GoError)
  deriving DecidableEq, Repr

/-- The `Error()` method: a wrapper prints its prefix followed by the wrapped message. -/
def GoError.Error : GoError → String
  | .new msg => msg
  | .wrap pfx inner => pfx ++ inner.Error

/-- Go `strings.HasPrefix`. -/
def stringsHasPrefix (s pfx : String) : Bool :=
  pfx.data.isPrefixOf s.data

/-- Go `strings.TrimPrefix`: `s` without the leading `pfx`, or `s` itself. -/
def stringsTrimPrefix (s pfx : String) : String :=
  if stringsHasPrefix s pfx then ⟨s.data.drop pfx.data.length⟩ else s

/-- Two's-complement wrap-around of a mathematical integer into `int64`. -/
def wrapInt64 (x : Int) : Int :=
  (x + 2 ^ 63) % 2 ^ 64 - 2 ^ 63

/-- The constant `time.Millisecond`, in nanoseconds. -/
def Millisecond : Int := 1000000

/-- The method `time.Duration.Milliseconds`: integer division truncating towards zero. -/
def Milliseconds (d : Int) : Int :=
  Int.tdiv d 1000000

/-! ## The store interface (`redis_compat.go`) -/

/-- A reply of the store to `EvalSha`, as seen through `Cmd.Result()` (an `interface{}`). -/
inductive RedisValue where
  | int64 (n : Int)
  | str (s : String)
  | null
  deriving DecidableEq, Repr

/-- A positional script argument (`args ...any`). -/
inductive RedisArg where
  | str (s : String)
  | int64 (n : Int)
  deriving DecidableEq, Repr

/-- The interface `RedisCompatible`: the store is a state machine over `σ`, each method a
transition returning the command result (`.error` when the command's error is non-nil). -/
structure RedisCompatible (σ : Type) where
  Get : σ → String → Except GoError String × σ
  EvalSha : σ → String → List String → List RedisArg → Except GoError RedisValue × σ
  ScriptLoad : σ → String → Except GoError String × σ

/-- What `scripts.go` takes from outside the Go sources: the three embedded Lua bodies
(`scripts/*.lua`) and the library digest `crypto/sha1` (bytes to 20 bytes). -/
structure Scripts where
  atomicDeleteScript : String
  atomicRenewScript : String
  atomicSetScript : String
  sha1 : List UInt8 → List UInt8

/-- One lower-case hexadecimal digit. -/
def hexDigit (n : Nat) : Char :=
  "0123456789abcdef".data.getD n '0'

/-- Go `hex.EncodeToString`. -/
def hexEncodeToString (bs : List UInt8) : String :=
  ⟨bs.flatMap (fun b => [hexDigit (b.toNat / 16), hexDigit (b.toNat % 16)])⟩

/-- The function `hashScript`: hex of the SHA-1 digest of the script's bytes. -/
def hashScript (sc : Scripts) (script : String) : String :=
  hexEncodeToString (sc.sha1 (script.data.flatMap String.utf8EncodeChar))

/-- The variable `atomicDeleteSHA`. -/
def atomicDeleteSHA (sc : Scripts) : String := hashScript sc sc.atomicDeleteScript

/-- The variable `atomicRenewSHA`. -/
def atomicRenewSHA (sc : Scripts) : String := hashScript sc sc.atomicRenewScript

/-- The variable `atomicSetSHA`. -/
def atomicSetSHA (sc : Scripts) : String := hashScript sc sc.atomicSetScript

/-- The range loop of `installScripts`: load each body in turn, stop at the first error. -/
def installScriptsLoop {σ : Type} (r : RedisCompatible σ) : List String → σ → Option GoError × σ
  | [], s => (none, s)
  | script :: rest, s =>
    match r.ScriptLoad s script with
    | (.error err, s1) => (some err, s1)
    | (.ok _, s1) => installScriptsLoop r rest s1

/-- The method `redisWrapper.installScripts`: loads the set, renew and delete bodies, in that
order. -/
def installScripts {σ : Type} (r : RedisCompatible σ) (sc : Scripts) (s : σ) :
    Option GoError × σ :=
  installScriptsLoop r [sc.atomicSetScript, sc.atomicRenewScript, sc.atomicDeleteScript] s

/-- The function `hasPrefix`: does the error message, after dropping a leading `"ERR "`, start
with `pfx`? -/
def hasPrefix (err : GoError) (pfx : String) : Bool :=
  stringsHasPrefix (stringsTrimPrefix err.Error "ERR ") pfx

/-- The `for` loop of `recoverScriptFlush`, with its `retry` flag. `fn` is the closure: it acts
on the store and on the variables `α` it captures. -/
def recoverScriptFlushLoop {σ α : Type} (r : RedisCompatible σ) (sc : Scripts)
    (fn : σ → α → Option GoError × σ × α) : Bool → σ → α → Option GoError × σ × α
  | retry, s, a =>
    match fn s a with
    | (some err, s1, a1) =>
      if _h : hasPrefix err "NOSCRIPT" = true ∧ retry = true then
        match installScripts r sc s1 with
        | (some installErr, s2) =>
          (some (GoError.wrap "failed installing scripts: " installErr), s2, a1)
        | (none, s2) => recoverScriptFlushLoop r sc fn false s2 a1
      else (some err, s1, a1)
    | (none, s1, a1) => (none, s1, a1)
termination_by retry => retry.toNat
decreasing_by simp_all

/-- The method `redisWrapper.recoverScriptFlush`: the loop entered with `retry := true`. -/
def recoverScriptFlush {σ α : Type} (r : RedisCompatible σ) (sc : Scripts)
    (fn : σ → α → Option GoError × σ × α) (s : σ) (a : α) : Option GoError × σ × α :=
  recoverScriptFlushLoop r sc fn true s a

/-- The method `redisWrapper.atomicSet`; the captured variable is `status`. -/
def atomicSet {σ : Type} (r : RedisCompatible σ) (sc : Scripts) (s : σ) (key id : String)
    (timeout : Int) : Bool × Option GoError × σ :=
  let out := recoverScriptFlush r sc
    (fun s status =>
      match r.EvalSha s (atomicSetSHA sc) [key] [.str id, .int64 (Milliseconds timeout)] with
      | (.error err, s1) => (some err, s1, status)
      | (.ok (.int64 i), s1) => (none, s1, decide (i = 1))
      | (.ok _, s1) => (none, s1, status))
    s false
  (out.2.2, out.1, out.2.1)

/-- The method `redisWrapper.atomicDelete`; the captured variable is `status`. -/
def atomicDelete {σ : Type} (r : RedisCompatible σ) (sc : Scripts) (s : σ) (key id : String) :
    Bool × Option GoError × σ :=
  let out := recoverScriptFlush r sc
    (fun s status =>
      match r.EvalSha s (atomicDeleteSHA sc) [key] [.str id] with
      | (.error err, s1) => (some err, s1, status)
      | (.ok (.int64 i), s1) => (none, s1, decide (i = 1))
      | (.ok _, s1) => (none, s1, status))
    s false
  (out.2.2, out.1, out.2.1)

/-- The method `redisWrapper.atomicRenew`; the captured variable is `status`. -/
def atomicRenew {σ : Type} (r : RedisCompatible σ) (sc : Scripts) (s : σ) (key id : String)
    (timeout : Int) : Bool × Option GoError × σ :=
  let out := recoverScriptFlush r sc
    (fun s status =>
      match r.EvalSha s (atomicRenewSHA sc) [key] [.str id, .int64 (Milliseconds timeout)] with
      | (.error err, s1) => (some err, s1, status)
      | (.ok (.int64 i), s1) => (none, s1, decide (i = 1))
      | (.ok _, s1) => (none, s1, status))
    s false
  (out.2.2, out.1, out.2.1)

/-! ## The engine (`lib.go`) -/

/-- The two kinds of background task the engine schedules: `i.runElection` and `i.renew`. -/
inductive Task where
  | election
  | renewal
  deriving DecidableEq, Repr

/-- A task handed to the scheduler: its delay, what it runs, and whether its canceller has
been called. -/
structure Timer where
  delay : Int
  task : Task
  cancelled : Bool
  deriving DecidableEq, Repr

/-- A value sent on one of the three channels `promoteCh`, `demoteCh`, `errorCh`. -/
inductive Event where
  | promote (time : Int)
  | demote (time : Int)
  | error (err : GoError)
  deriving DecidableEq, Repr

/-- Is the event a send on `promoteCh`? -/
def Event.isPromote : Event → Bool
  | .promote _ => true
  | _ => false

/-- Is the event a send on `demoteCh`? -/
def Event.isDemote : Event → Bool
  | .demote _ => true
  | _ => false

/-- Is the event a send on `errorCh`? -/
def Event.isError : Event → Bool
  | .error _ => true
  | _ => false

/-- The struct `impl`, without its channels, locks and store handle (those live in `World`).
A canceller (`func()`) is the index of the timer it cancels; `nil` is `none`. -/
structure Impl where
  key : String
  id : String
  ttl : Int
  wait : Int
  jitter : Int
  running : Bool
  leading : Bool
  cancelRenewRun : Option Nat
  cancelElectionRun : Option Nat
  deriving DecidableEq, Repr

/-- Everything an engine method can read or change: the `impl` fields, the state of the store
behind `i.redis`, the sends made so far on the three channels in the order they were made
(a send never drops an event; the wait of a sender on a full channel is not modelled), the
tasks handed to the scheduler, and the goroutines launched with `go`. -/
structure World (σ : Type) where
  i : Impl
  redis : σ
  events : List Event
  timers : List Timer
  goroutines : List Task

/-- What a method reads from its surroundings while it runs: the clock (`time.Now()`) and the
raw outcome of the process-wide random source. -/
structure Ambient where
  now : Int
  draw : Nat
  deriving DecidableEq, Repr

/-- Modelled from the spec: `runAfter`, the scheduling helper (its file is not among the
sources): "submit(delay, task) → cancellation-handle". The task is appended to the
scheduler's list and the returned canceller is its index. -/
def runAfter (timers : List Timer) (d : Int) (task : Task) : Nat × List Timer :=
  (timers.length, timers ++ [{ delay := d, task := task, cancelled := false }])

/-- Modelled from the spec: calling the canceller returned by `runAfter` marks its task
cancelled. -/
def callCanceller : List Timer → Nat → List Timer
  | [], _ => []
  | t :: ts, 0 => { t with cancelled := true } :: ts
  | t :: ts, c + 1 => t :: callCanceller ts c

/-- Go `rand.Intn`: panics (`none`) unless `0 < n`, else a value in `[0, n)` fixed by the
outcome `draw` of the random source. -/
def randIntn (draw : Nat) (n : Int) : Option Int :=
  if n ≤ 0 then none else some ((draw : Int) % n)

/-- The function `randomJitter`; `none` is a panic. -/
def randomJitter (draw : Nat) (valMS : Int) : Option Int :=
  if valMS = 0 then some 0
  else (randIntn draw (Milliseconds valMS)).map (fun n => wrapInt64 (n * Millisecond))

/-- The delay `(i.ttl/2)+randomJitter(i.jitter)` given the jitter drawn: Go division truncates
and the sum is an `int64`. -/
def renewDelay (ttl j : Int) : Int :=
  wrapInt64 (Int.tdiv ttl 2 + j)

/-- The method `impl.renew`, run under `electionLock`; `none` is a panic. -/
def renew {σ : Type} (r : RedisCompatible σ) (sc : Scripts) (amb : Ambient) (w : World σ) :
    Option (World σ) :=
  let w := { w with i := { w.i with cancelRenewRun := none } }
  let (leading, err, s1) := atomicRenew r sc w.redis w.i.key w.i.id w.i.ttl
  let w := { w with redis := s1 }
  match err with
  | some e =>
    let w := { w with events := w.events ++ [Event.error (GoError.wrap "trying to renew lease: " e)] }
    let w := if w.i.leading then
        { w with i := { w.i with leading := false }, events := w.events ++ [Event.demote amb.now] }
      else w
    let (c, ts) := runAfter w.timers w.i.wait Task.election
    some { w with timers := ts, i := { w.i with cancelElectionRun := some c } }
  | none =>
    if leading then
      match randomJitter amb.draw w.i.jitter with
      | none => none
      | some j =>
        let (c, ts) := runAfter w.timers (renewDelay w.i.ttl j) Task.renewal
        some { w with timers := ts, i := { w.i with cancelRenewRun := some c } }
    else
      let w := if w.i.leading then
          { w with i := { w.i with leading := false }, events := w.events ++ [Event.demote amb.now] }
        else w
      let (c, ts) := runAfter w.timers w.i.wait Task.election
      some { w with timers := ts, i := { w.i with cancelElectionRun := some c } }

/-- The method `impl.runElection`, run under `electionLock`; `none` is a panic. -/
def runElection {σ : Type} (r : RedisCompatible σ) (sc : Scripts) (amb : Ambient)
    (w : World σ) : Option (World σ) :=
  let w := { w with i := { w.i with cancelElectionRun := none } }
  let (set, err, s1) := atomicSet r sc w.redis w.i.key w.i.id w.i.ttl
  let w := { w with redis := s1 }
  match err with
  | some e =>
    let w := { w with events := w.events ++ [Event.error (GoError.wrap "trying to run election: " e)] }
    let (c, ts) := runAfter w.timers w.i.wait Task.election
    some { w with timers := ts, i := { w.i with cancelElectionRun := some c } }
  | none =>
    if set then
      let w := { w with i := { w.i with leading := true },
                        events := w.events ++ [Event.promote amb.now] }
      match randomJitter amb.draw w.i.jitter with
      | none => none
      | some j =>
        let (c, ts) := runAfter w.timers (renewDelay w.i.ttl j) Task.renewal
        some { w with timers := ts, i := { w.i with cancelRenewRun := some c } }
    else
      let w := if w.i.leading then { w with events := w.events ++ [Event.demote amb.now] } else w
      let w := { w with i := { w.i with leading := false } }
      let w := match w.i.cancelRenewRun with
        | some c => { w with timers := callCanceller w.timers c,
                             i := { w.i with cancelRenewRun := none } }
        | none => w
      let (c, ts) := runAfter w.timers w.i.wait Task.election
      some { w with timers := ts, i := { w.i with cancelElectionRun := some c } }

/-- The method `impl.voidTimers`. As in the source, the first branch clears `cancelRenewRun`. -/
def voidTimers {σ : Type} (w : World σ) : World σ :=
  let w := match w.i.cancelElectionRun with
    | some c => { w with timers := callCanceller w.timers c,
                         i := { w.i with cancelRenewRun := none } }
    | none => w
  match w.i.cancelRenewRun with
  | some c => { w with timers := callCanceller w.timers c,
                       i := { w.i with cancelRenewRun := none } }
  | none => w

/-- The method `impl.resign`, run under `electionLock`: the returned error and the world. -/
def resign {σ : Type} (r : RedisCompatible σ) (sc : Scripts) (amb : Ambient) (w : World σ) :
    Option GoError × World σ :=
  let w := voidTimers w
  let (leading, err, s1) := atomicDelete r sc w.redis w.i.key w.i.id
  let w := { w with redis := s1 }
  match err with
  | some e => (some e, w)
  | none =>
    let w := { w with i := { w.i with running := false } }
    let w := if leading then { w with events := w.events ++ [Event.demote amb.now] } else w
    (none, { w with i := { w.i with leading := false } })

/-- The method `impl.Start`: `go i.runElection()` adds an election goroutine. -/
def Start {σ : Type} (w : World σ) : World σ :=
  if w.i.running then w
  else { w with i := { w.i with running := true }, goroutines := w.goroutines ++ [Task.election] }

/-- The method `impl.Stop`. -/
def Stop {σ : Type} (r : RedisCompatible σ) (sc : Scripts) (amb : Ambient) (w : World σ) :
    Option GoError × World σ :=
  if !w.i.running then (none, w) else resign r sc amb w

/-- The method `impl.IsLeading`. -/
def IsLeading {σ : Type} (w : World σ) : Bool :=
  w.i.leading

/-- A run of consecutive renewals, one per element of `ambs`: each is the firing of the renewal
task scheduled by the step before. -/
def renewMany {σ : Type} (r : RedisCompatible σ) (sc : Scripts) :
    List Ambient → World σ → Option (World σ)
  | [], w => some w
  | amb :: ambs, w =>
    match renew r sc amb w with
    | none => none
    | some w1 => renewMany r sc ambs w1

/-- Does every `Renew` call of the run `renewMany r sc ambs w` report `stillOwner = true` and
no error? -/
def renewalsSucceed {σ : Type} (r : RedisCompatible σ) (sc : Scripts) :
    List Ambient → World σ → Bool
  | [], _ => true
  | amb :: ambs, w =>
    (atomicRenew r sc w.redis w.i.key w.i.id w.i.ttl).1 &&
    (atomicRenew r sc w.redis w.i.key w.i.id w.i.ttl).2.1.isNone &&
    match renew r sc amb w with
    | none => true
    | some w1 => renewalsSucceed r sc ambs w1

/-! ## Observations on runs -/

/-- Number of promotion events in a list of sends. -/
def promotions (es : List Event) : Nat := es.countP Event.isPromote

/-- Number of demotion events in a list of sends. -/
def demotions (es : List Event) : Nat := es.countP Event.isDemote

/-- Number of error events in a list of sends. -/
def errors (es : List Event) : Nat := es.countP Event.isError

/-- Has the task behind canceller `c` been cancelled? -/
def isCancelled : List Timer → Nat → Bool
  | [], _ => false
  | t :: _, 0 => t.cancelled
  | _ :: ts, c + 1 => isCancelled ts c

/-- A call made on the store. -/
inductive Call where
  | get (key : String)
  | evalSha (sha : String) (keys : List String) (args : List RedisArg)
  | scriptLoad (script : String)
  deriving DecidableEq, Repr

/-- The store `r` with a log: every call made through the interface is appended to the log
and otherwise answered as `r` answers it. -/
def traced {σ : Type} (r : RedisCompatible σ) : RedisCompatible (σ × List Call) where
  Get := fun s key => ((r.Get s.1 key).1, (r.Get s.1 key).2, s.2 ++ [Call.get key])
  EvalSha := fun s sha keys args =>
    ((r.EvalSha s.1 sha keys args).1, (r.EvalSha s.1 sha keys args).2,
      s.2 ++ [Call.evalSha sha keys args])
  ScriptLoad := fun s script =>
    ((r.ScriptLoad s.1 script).1, (r.ScriptLoad s.1 script).2, s.2 ++ [Call.scriptLoad script])

/-- The closure `fn` with an invocation counter next to its captured variables. It runs on a
traced store, whose log it leaves alone: that log then holds the calls of the guard itself. -/
def countInvocations {σ α : Type} (fn : σ → α → Option GoError × σ × α) :
    σ × List Call → α × Nat → Option GoError × (σ × List Call) × (α × Nat) :=
  fun s a => ((fn s.1 a.1).1, ((fn s.1 a.1).2.1, s.2), ((fn s.1 a.1).2.2, a.2 + 1))

/-- The store calls of one complete run of `installScripts`. -/
def installCalls (sc : Scripts) : List Call :=
  [Call.scriptLoad sc.atomicSetScript, Call.scriptLoad sc.atomicRenewScript,
   Call.scriptLoad sc.atomicDeleteScript]

/-- The three atomic operations of `redis_compat.go`. -/
inductive AtomicOp where
  | set
  | renew
  | delete
  deriving DecidableEq, Repr

/-- The script handle an atomic operation passes to `EvalSha`. -/
def AtomicOp.sha (sc : Scripts) : AtomicOp → String
  | .set => atomicSetSHA sc
  | .renew => atomicRenewSHA sc
  | .delete => atomicDeleteSHA sc

/-- The positional arguments an atomic operation passes to `EvalSha`. -/
def AtomicOp.args (id : String) (timeout : Int) : AtomicOp → List RedisArg
  | .set => [RedisArg.str id, RedisArg.int64 (Milliseconds timeout)]
  | .renew => [RedisArg.str id, RedisArg.int64 (Milliseconds timeout)]
  | .delete => [RedisArg.str id]

/-- Run one of `atomicSet`, `atomicRenew`, `atomicDelete` (which takes no timeout). -/
def AtomicOp.run {σ : Type} (r : RedisCompatible σ) (sc : Scripts) (s : σ) (key id : String)
    (timeout : Int) : AtomicOp → Bool × Option GoError × σ
  | .set => atomicSet r sc s key id timeout
  | .renew => atomicRenew r sc s key id timeout
  | .delete => atomicDelete r sc s key id

/-- The closure the three atomic operations hand to the guard, for a given handle, keys and
arguments: one `EvalSha`, whose `int64` reply sets the captured `status`. -/
def evalShaStatus {σ : Type} (r : RedisCompatible σ) (sha : String) (keys : List String)
    (args : List RedisArg) : σ → Bool → Option GoError × σ × Bool :=
  fun s status =>
    match r.EvalSha s sha keys args with
    | (.error err, s1) => (some err, s1, status)
    | (.ok (.int64 i), s1) => (none, s1, decide (i = 1))
    | (.ok _, s1) => (none, s1, status)

/-- The status an atomic operation reads off a successful reply: `i == 1` for an `int64`,
and the initial `false` for anything else. -/
def replyStatus : RedisValue → Bool
  | .int64 i => decide (i = 1)
  | _ => false

/-! ## A scripted store, for concrete runs -/

/-- State of the scripted store: the replies it will give to the coming `EvalSha` and
`ScriptLoad` calls, and the script bodies it was asked to load. -/
structure Replay where
  evals : List (Except GoError RedisValue)
  loads : List (Option GoError)
  loaded : List String

/-- A store that answers from its script: each call consumes the next reply (a call past the
end of the script gets a nil reply, resp. a successful load). -/
def replayStore : RedisCompatible Replay where
  Get := fun s _ => (.ok "", s)
  EvalSha := fun s _ _ _ =>
    match s.evals with
    | [] => (.ok .null, s)
    | v :: rest => (v, { s with evals := rest })
  ScriptLoad := fun s body =>
    match s.loads with
    | [] => (.ok "", { s with loaded := s.loaded ++ [body] })
    | none :: rest => (.ok "", { s with loads := rest, loaded := s.loaded ++ [body] })
    | some e :: rest => (.error e, { s with loads := rest, loaded := s.loaded ++ [body] })

/-- Script bodies and a stand-in digest for concrete runs. -/
def demoScripts : Scripts where
  atomicDeleteScript := "delete"
  atomicRenewScript := "renew"
  atomicSetScript := "set"
  sha1 := fun bs => bs.take 20

/-- An engine as `NewLeader` builds it from `TTL = 1s`, `Wait = 2s`, `JitterMS = 50`. -/
def demoImpl : Impl where
  key := "leader:test1"
  id := "me"
  ttl := 1000000000
  wait := 2000000000
  jitter := 50000000
  running := true
  leading := false
  cancelRenewRun := none
  cancelElectionRun := none

/-- A world around `demoImpl` whose store will give the replies `evals`. -/
def demoWorld (i : Impl) (evals : List (Except GoError RedisValue)) : World Replay where
  i := i
  redis := { evals := evals, loads := [], loaded := [] }
  events := []
  timers := []
  goroutines := []

/-- The engine `i` as a leader with its first renewal pending. -/
def demoLeader (i : Impl) (evals : List (Except GoError RedisValue)) : World Replay :=
  { demoWorld { i with leading := true, cancelRenewRun := some 0 } evals with
    events := [Event.promote 0]
    timers := [{ delay := 500000000, task := Task.renewal, cancelled := false }] }

/-- Is the call an `EvalSha`, that is, one execution of an atomic operation? -/
def Call.isEvalSha : Call → Bool
  | .evalSha _ _ _ => true
  | _ => false

/-! ## Identity and key derivation (`lib.go`) -/

/-- Rotate a 32-bit word left by `n` bits. -/
def rotl32 (x n : Nat) : Nat :=
  ((x <<< n) ||| (x >>> (32 - n))) % 2 ^ 32

/-- The four bytes of a 32-bit word, most significant first. -/
def wordBytes (x : Nat) : List UInt8 :=
  [UInt8.ofNat (x / 2 ^ 24 % 256), UInt8.ofNat (x / 2 ^ 16 % 256),
   UInt8.ofNat (x / 2 ^ 8 % 256), UInt8.ofNat (x % 256)]

/-- The big-endian value of a list of bytes. -/
def bytesValue (bs : List UInt8) : Nat :=
  bs.foldl (fun acc b => acc * 256 + b.toNat) 0

/-- SHA-1 padding: a one bit, zeros up to 56 modulo 64, then the bit length on 8 bytes. -/
def sha1Pad (msg : List UInt8) : List UInt8 :=
  msg ++ [0x80] ++ List.replicate ((119 - msg.length % 64) % 64) 0 ++
    wordBytes (msg.length * 8 / 2 ^ 32 % 2 ^ 32) ++ wordBytes (msg.length * 8 % 2 ^ 32)

/-- Cut a list into consecutive pieces of `n` elements (at most `fuel` pieces). -/
def chunks {α : Type} (n : Nat) : Nat → List α → List (List α)
  | 0, _ => []
  | _ + 1, [] => []
  | fuel + 1, x :: xs => (x :: xs).take n :: chunks n fuel ((x :: xs).drop n)

/-- The 80-word message schedule of one 64-byte block. -/
def sha1Schedule (block : List UInt8) : List Nat :=
  (List.range 64).foldl
    (fun w t =>
      w ++ [rotl32 (w.getD (t + 13) 0 ^^^ w.getD (t + 8) 0 ^^^ w.getD (t + 2) 0 ^^^ w.getD t 0) 1])
    ((chunks 4 16 block).map bytesValue)

/-- The chaining value of SHA-1: five 32-bit words. -/
structure Sha1State where
  h0 : Nat
  h1 : Nat
  h2 : Nat
  h3 : Nat
  h4 : Nat

/-- One of the 80 rounds, for round number `tw.1` and schedule word `tw.2`. -/
def sha1Round (st : Sha1State) (tw : Nat × Nat) : Sha1State :=
  let t := tw.1
  let f :=
    if t < 20 then (st.h1 &&& st.h2) ||| ((st.h1 ^^^ 0xFFFFFFFF) &&& st.h3)
    else if t < 40 then st.h1 ^^^ st.h2 ^^^ st.h3
    else if t < 60 then (st.h1 &&& st.h2) ||| (st.h1 &&& st.h3) ||| (st.h2 &&& st.h3)
    else st.h1 ^^^ st.h2 ^^^ st.h3
  let k :=
    if t < 20 then 0x5A827999 else if t < 40 then 0x6ED9EBA1
    else if t < 60 then 0x8F1BBCDC else 0xCA62C1D6
  { h0 := (rotl32 st.h0 5 + f + st.h4 + k + tw.2) % 2 ^ 32
    h1 := st.h0
    h2 := rotl32 st.h1 30
    h3 := st.h2
    h4 := st.h3 }

/-- The compression of one 64-byte block into the chaining value. -/
def sha1Block (st : Sha1State) (block : List UInt8) : Sha1State :=
  let out := ((List.range 80).zip (sha1Schedule block)).foldl sha1Round st
  { h0 := (st.h0 + out.h0) % 2 ^ 32
    h1 := (st.h1 + out.h1) % 2 ^ 32
    h2 := (st.h2 + out.h2) % 2 ^ 32
    h3 := (st.h3 + out.h3) % 2 ^ 32
    h4 := (st.h4 + out.h4) % 2 ^ 32 }

/-- The library digest `crypto/sha1` as `makeKey` uses it: `sha1.New()`, `Write(msg)`,
`Sum(nil)` (FIPS 180-1). -/
def sha1Sum (msg : List UInt8) : List UInt8 :=
  let st := (chunks 64 (msg.length / 64 + 2) (sha1Pad msg)).foldl sha1Block
    { h0 := 0x67452301, h1 := 0xEFCDAB89, h2 := 0x98BADCFE, h3 := 0x10325476,
      h4 := 0xC3D2E1F0 }
  wordBytes st.h0 ++ wordBytes st.h1 ++ wordBytes st.h2 ++ wordBytes st.h3 ++ wordBytes st.h4

/-- The alphabet of `base32.StdEncoding`. -/
def base32Alphabet : List Char := "ABCDEFGHIJKLMNOPQRSTUVWXYZ234567".data

/-- The character of `base32.StdEncoding` for the low five bits of `n`. -/
def base32Char (n : Nat) : Char :=
  base32Alphabet.getD (n % 32) 'A'

/-- The eight characters for a group of one to five bytes: the bits, five at a time, of the
group filled up with zero bytes; a short group ends in `=` padding. -/
def base32Group (bs : List UInt8) : List Char :=
  let v := bytesValue (bs ++ List.replicate (5 - bs.length) 0)
  let chars := (List.range 8).map (fun k => base32Char (v / 2 ^ (35 - 5 * k)))
  let n := match bs.length with
    | 1 => 2
    | 2 => 4
    | 3 => 5
    | 4 => 7
    | _ => 8
  chars.take n ++ List.replicate (8 - n) '='

/-- The characters of `base32.StdEncoding.EncodeToString`. -/
def base32Encode : List UInt8 → List Char
  | [] => []
  | b0 :: b1 :: b2 :: b3 :: b4 :: rest => base32Group [b0, b1, b2, b3, b4] ++ base32Encode rest
  | [b0] => base32Group [b0]
  | [b0, b1] => base32Group [b0, b1]
  | [b0, b1, b2] => base32Group [b0, b1, b2]
  | [b0, b1, b2, b3] => base32Group [b0, b1, b2, b3]

/-- The bytes of a Go string (`[]byte(s)`). -/
def stringBytes (s : String) : List UInt8 :=
  s.data.flatMap String.utf8EncodeChar

/-- The function `makeKey`. -/
def makeKey (input : String) : String :=
  "leader:" ++ String.mk (base32Encode (sha1Sum (stringBytes input)))

/-- The function `clientID`, given the 16 bytes read from the time-seeded random source. -/
def clientID (randomBytes : List UInt8) : String :=
  String.mk (base32Encode randomBytes)

/-- The struct `Opts`, without its store handle `Redis` (passed separately). -/
structure Opts where
  TTL : Int
  Wait : Int
  JitterMS : Int
  Key : String
  deriving DecidableEq, Repr

/-- The function `NewLeader`, on a store in state `s`; the three returned channels are the
empty event log. `none` is a panic. -/
def NewLeader {σ : Type} (opts : Opts) (randomBytes : List UInt8) (s : σ) : Option (World σ) :=
  if opts.TTL = 0 then none
  else if opts.Wait = 0 then none
  else some {
    i := {
      key := makeKey opts.Key
      id := clientID randomBytes
      ttl := opts.TTL
      wait := opts.Wait
      jitter := wrapInt64 (opts.JitterMS * Millisecond)
      running := false
      leading := false
      cancelRenewRun := none
      cancelElectionRun := none }
    redis := s
    events := []
    timers := []
    goroutines := [] }

/-- A world on the scripted store that also logs its calls. -/
def demoTraced (i : Impl) (evals : List (Except GoError RedisValue)) :
    World (Replay × List Call) where
  i := i
  redis := ({ evals := evals, loads := [], loaded := [] }, [])
  events := []
  timers := []
  goroutines := []

/-- The test's engine after `Start` and a first election attempt that found the lease taken:
a candidate with its retry scheduled (timer 0). The store will answer two more executions. -/
def staleCandidate : World (Replay × List Call) where
  i := { demoImpl with running := true, cancelElectionRun := some 0 }
  redis := ({ evals := [.ok (.int64 0), .ok (.int64 1)], loads := [], loaded := [] },
    [Call.evalSha (atomicSetSHA demoScripts) ["leader:test1"]
      [RedisArg.str "me", RedisArg.int64 1000]])
  events := []
  timers := [{ delay := 2000000000, task := Task.election, cancelled := false }]
  goroutines := [Task.election]

/-- The engine `staleCandidate` after a successful `Stop`: not running, timer 0 cancelled. -/
def staleStopped : World (Replay × List Call) where
  i := { demoImpl with running := false, cancelElectionRun := some 0 }
  redis := ({ evals := [.ok (.int64 1)], loads := [], loaded := [] },
    [Call.evalSha (atomicSetSHA demoScripts) ["leader:test1"]
      [RedisArg.str "me", RedisArg.int64 1000],
     Call.evalSha (atomicDeleteSHA demoScripts) ["leader:test1"] [RedisArg.str "me"]])
  events := []
  timers := [{ delay := 2000000000, task := Task.election, cancelled := true }]
  goroutines := [Task.election]

/-! ## Reachable states -/

/-- How far the single use of an engine has come: constructed and not started; started, with
the election attempt launched by `Start` still to run; or past that first attempt. -/
inductive Phase where
  | fresh
  | launched
  | started
  deriving DecidableEq, Repr

/-- The states an engine reaches from `NewLeader` by `Start`, election attempts, renewals and
`Stop`, for arbitrary store outcomes. The engine is used once: `Start` takes effect on the
fresh engine and is otherwise called on a running one (where it does nothing). The attempt
launched by `Start` runs once, at any later moment; a scheduled election or renewal runs only
while its reference is set. `okStop` says in which states `Stop` may be called. -/
inductive Reach {σ : Type} (r : RedisCompatible σ) (sc : Scripts)
    (okStop : World σ → Prop) : Phase → World σ → Prop where
  | init (opts : Opts) (randomBytes : List UInt8) (s : σ) (w : World σ) :
      NewLeader opts randomBytes s = some w → Reach r sc okStop Phase.fresh w
  | start (w : World σ) :
      Reach r sc okStop Phase.fresh w → Reach r sc okStop Phase.launched (Start w)
  | startAgain (ph : Phase) (w : World σ) :
      Reach r sc okStop ph w → w.i.running = true → Reach r sc okStop ph (Start w)
  | firstElection (amb : Ambient) (w w1 : World σ) :
      Reach r sc okStop Phase.launched w → runElection r sc amb w = some w1 →
      Reach r sc okStop Phase.started w1
  | election (ph : Phase) (amb : Ambient) (c : Nat) (w w1 : World σ) :
      Reach r sc okStop ph w → w.i.cancelElectionRun = some c →
      runElection r sc amb w = some w1 → Reach r sc okStop ph w1
  | renewal (ph : Phase) (amb : Ambient) (c : Nat) (w w1 : World σ) :
      Reach r sc okStop ph w → w.i.cancelRenewRun = some c →
      renew r sc amb w = some w1 → Reach r sc okStop ph w1
  | stop (ph : Phase) (amb : Ambient) (w : World σ) :
      Reach r sc okStop ph w → okStop w → Reach r sc okStop ph (Stop r sc amb w).2

/-- At most one of the two task references is set, a renewal is pending only while `leading`
is true, and an election is pending only while `leading` is false. -/
def TasksExclusive {σ : Type} (w : World σ) : Prop :=
  (w.i.cancelElectionRun = none ∨ w.i.cancelRenewRun = none) ∧
  (w.i.cancelRenewRun ≠ none → w.i.leading = true) ∧
  (w.i.cancelElectionRun ≠ none → w.i.leading = false)

/-- Promotions sent so far minus demotions sent so far: 1 when `leading`, 0 when not. -/
def Alternates {σ : Type} (w : World σ) : Prop :=
  promotions w.events = demotions w.events + (if w.i.leading then 1 else 0)

/-- The answer `Stop` would get from the store in state `w` agrees with the engine: if the
engine is running and `atomicDelete` succeeds, `wasOwner` is the `leading` flag. -/
def ReleaseAgrees {σ : Type} (r : RedisCompatible σ) (sc : Scripts) (w : World σ) : Prop :=
  w.i.running = true →
  (atomicDelete r sc w.redis w.i.key w.i.id).2.1 = none →
  (atomicDelete r sc w.redis w.i.key w.i.id).1 = w.i.leading

/-- The configuration of the test: `TTL = 1s`, `Wait = 2s`, `JitterMS = 50`, `Key = "test1"`. -/
def demoOpts : Opts where
  TTL := 1000000000
  Wait := 2000000000
  JitterMS := 50
  Key := "test1"

/-- The engine `NewLeader` builds from `demoOpts` with random bytes `0, 1, ..., 15`, on a
scripted store that will give the replies `evals`. -/
def demoFresh (evals : List (Except GoError RedisValue)) : World Replay where
  i := {
    key := "leader:WRCKYBTBH7ENMN4VX2NNBPVPKUARSNVM"
    id := "AAAQEAYEAUDAOCAJBIFQYDIOB4======"
    ttl := 1000000000
    wait := 2000000000
    jitter := 50000000
    running := false
    leading := false
    cancelRenewRun := none
    cancelElectionRun := none }
  redis := { evals := evals, loads := [], loaded := [] }
  events := []
  timers := []
  goroutines := []

/-- The engine `demoFresh` after `Start` and a first election attempt (at time 1, draw 7) that
acquired the lease: a leader with its first renewal scheduled. -/
def demoElected (evals : List (Except GoError RedisValue)) : World Replay where
  i := {
    key := "leader:WRCKYBTBH7ENMN4VX2NNBPVPKUARSNVM"
    id := "AAAQEAYEAUDAOCAJBIFQYDIOB4======"
    ttl := 1000000000
    wait := 2000000000
    jitter := 50000000
    running := true
    leading := true
    cancelRenewRun := some 0
    cancelElectionRun := none }
  redis := { evals := evals, loads := [], loaded := [] }
  events := [Event.promote 1]
  timers := [{ delay := 507000000, task := Task.renewal, cancelled := false }]
  goroutines := [Task.election]

/-! ## A store with leases, for mutual exclusion -/

/-- The store's `Acquire` "creates the lease only when none exists", for a notion `held s key`
of "a lease record exists for `key` in state `s`": executing the set script where a record
exists does not report 1 and leaves a record; an execution that reports 1 leaves a record;
and loading a script does not remove one. -/
structure AcquireGate {σ : Type} (r : RedisCompatible σ) (sc : Scripts)
    (held : σ → String → Prop) : Prop where
  taken : ∀ (s : σ) (key : String) (args : List RedisArg), held s key →
    (r.EvalSha s (atomicSetSHA sc) [key] args).1 ≠ Except.ok (RedisValue.int64 1) ∧
    held (r.EvalSha s (atomicSetSHA sc) [key] args).2 key
  created : ∀ (s : σ) (key : String) (args : List RedisArg),
    (r.EvalSha s (atomicSetSHA sc) [key] args).1 = Except.ok (RedisValue.int64 1) →
    held (r.EvalSha s (atomicSetSHA sc) [key] args).2 key
  loaded : ∀ (s : σ) (key body : String), held s key → held (r.ScriptLoad s body).2 key

/-- State of the lease store: the handles in its script cache and the lease records, as
pairs of key and owner. -/
structure LeaseStore where
  scripts : List String
  leases : List (String × String)
  deriving DecidableEq, Repr

/-- Modelled from the spec: the three Lua bodies `scripts/atomic_set.lua`,
`scripts/atomic_renew.lua` and `scripts/atomic_delete.lua` (not among the sources), as §4.1
describes Acquire, Renew and Release, run by a store that knows a script only once it is
loaded. Expiry, which needs time, is left out. -/
def leaseStore (sc : Scripts) : RedisCompatible LeaseStore where
  Get := fun s key =>
    match s.leases.lookup key with
    | some owner => (.ok owner, s)
    | none => (.error (.new "redis: nil"), s)
  EvalSha := fun s sha keys args =>
    if s.scripts.contains sha then
      match keys, args with
      | [key], RedisArg.str id :: _ =>
        if sha = atomicSetSHA sc then
          match s.leases.lookup key with
          | none => (.ok (.int64 1), { s with leases := (key, id) :: s.leases })
          | some _ => (.ok (.int64 0), s)
        else if sha = atomicRenewSHA sc then
          if s.leases.lookup key = some id then (.ok (.int64 1), s) else (.ok (.int64 0), s)
        else if sha = atomicDeleteSHA sc then
          if s.leases.lookup key = some id then
            (.ok (.int64 1), { s with leases := s.leases.filter (fun kv => kv.1 != key) })
          else (.ok (.int64 0), s)
        else (.ok .null, s)
      | _, _ => (.error (.new "ERR wrong number of arguments"), s)
    else (.error (.new "NOSCRIPT No matching script. Please use EVAL."), s)
  ScriptLoad := fun s body =>
    (.ok (hashScript sc body), { s with scripts := hashScript sc body :: s.scripts })

/-- A lease record exists for `key`. -/
def LeaseStore.held (s : LeaseStore) (key : String) : Prop :=
  (s.leases.lookup key).isSome = true

/-- Instance A of two engines on the key of `"test1"`: started, its first election attempt
still to run, on a lease store that is empty and knows no script. -/
def racerA : World LeaseStore where
  i := { demoImpl with key := "leader:WRCKYBTBH7ENMN4VX2NNBPVPKUARSNVM", id := "instance-a" }
  redis := { scripts := [], leases := [] }
  events := []
  timers := []
  goroutines := [Task.election]

/-- Instance B, on the same key and the same store. -/
def racerB : World LeaseStore where
  i := { demoImpl with key := "leader:WRCKYBTBH7ENMN4VX2NNBPVPKUARSNVM", id := "instance-b" }
  redis := { scripts := [], leases := [] }
  events := []
  timers := []
  goroutines := [Task.election]

/-- An order of the store commands of the two attempts: A's `EvalSha`, B's `EvalSha`, A's
three `ScriptLoad`, B's three `ScriptLoad`, B's second `EvalSha`, A's second `EvalSha`
(leaving the loop of `installScripts` is a turn of its own). -/
def racerSchedule : List Bool :=
  [true, false, true, true, true, false, false, false, false, false, true, true]

/-- The lease store after the race `racerSchedule`: both instances have loaded the three
scripts and the lease is B's. -/
def racerStore : LeaseStore where
  scripts := [atomicDeleteSHA demoScripts, atomicRenewSHA demoScripts,
              atomicSetSHA demoScripts, atomicDeleteSHA demoScripts,
              atomicRenewSHA demoScripts, atomicSetSHA demoScripts]
  leases := [("leader:WRCKYBTBH7ENMN4VX2NNBPVPKUARSNVM", "instance-b")]

/-- Instance A after its first election attempt (at time 1) in that race: still a candidate,
retry scheduled. -/
def racerAWaiting : World LeaseStore where
  i := { demoImpl with key := "leader:WRCKYBTBH7ENMN4VX2NNBPVPKUARSNVM", id := "instance-a",
                       cancelElectionRun := some 0 }
  redis := racerStore
  events := []
  timers := [{ delay := 2000000000, task := Task.election, cancelled := false }]
  goroutines := [Task.election]

/-- Instance B after its first election attempt (at time 2, draw 3) in that race: leader,
first renewal scheduled. -/
def racerBElected : World LeaseStore where
  i := { demoImpl with key := "leader:WRCKYBTBH7ENMN4VX2NNBPVPKUARSNVM", id := "instance-b",
                       leading := true, cancelRenewRun := some 0 }
  redis := racerStore
  events := [Event.promote 2]
  timers := [{ delay := 503000000, task := Task.renewal, cancelled := false }]
  goroutines := [Task.election]

/-! ## Election attempts, one store command at a time -/

/-- Where a call of `atomicSet` stands between two store commands: about to run its closure
(one `EvalSha`) under the guard's `retry` flag, inside `installScripts` with the bodies still
to load, or returned with its two results. `status` is the captured variable. -/
inductive SetPc where
  | evalSha (retry : Bool) (status : Bool)
  | scriptLoad (rest : List String) (status : Bool)
  | returned (status : Bool) (err : Option GoError)
  deriving DecidableEq, Repr

/-- The captured variable `status` at a point of the call. -/
def SetPc.status : SetPc → Bool
  | .evalSha _ status => status
  | .scriptLoad _ status => status
  | .returned status _ => status

/-- An upper bound on the steps the call still takes. -/
def SetPc.remaining : SetPc → Nat
  | .evalSha true _ => 6
  | .evalSha false _ => 1
  | .scriptLoad rest _ => rest.length + 2
  | .returned _ _ => 0

/-- One step of `atomicSet`, the code between two store commands: the closure's `EvalSha` and
the guard's test of its error (`recoverScriptFlush`), or one `ScriptLoad` of the range loop of
`installScripts`; leaving that loop for the retry, and staying returned, call nothing. -/
def atomicSetStep {σ : Type} (r : RedisCompatible σ) (sc : Scripts) (key id : String)
    (timeout : Int) (s : σ) : SetPc → σ × SetPc
  | .evalSha retry status =>
    match r.EvalSha s (atomicSetSHA sc) [key] [.str id, .int64 (Milliseconds timeout)] with
    | (.error err, s1) =>
      if hasPrefix err "NOSCRIPT" = true ∧ retry = true then
        (s1, .scriptLoad [sc.atomicSetScript, sc.atomicRenewScript, sc.atomicDeleteScript]
          status)
      else (s1, .returned status (some err))
    | (.ok (.int64 i), s1) => (s1, .returned (decide (i = 1)) none)
    | (.ok _, s1) => (s1, .returned status none)
  | .scriptLoad [] status => (s, .evalSha false status)
  | .scriptLoad (script :: rest) status =>
    match r.ScriptLoad s script with
    | (.error err, s1) =>
      (s1, .returned status (some (GoError.wrap "failed installing scripts: " err)))
    | (.ok _, s1) => (s1, .scriptLoad rest status)
  | .returned status err => (s, .returned status err)

/-- Two engine instances in their election attempts on one store: the store, and where the
`atomicSet` call of each instance stands. -/
structure Race (σ : Type) where
  store : σ
  a : SetPc
  b : SetPc

/-- The store serves the commands of the two instances one at a time: on `turn = true`
instance A takes its next step, on `turn = false` instance B. -/
def raceStep {σ : Type} (r : RedisCompatible σ) (sc : Scripts) (iA iB : Impl) (ρ : Race σ)
    (turn : Bool) : Race σ :=
  if turn then
    { ρ with store := (atomicSetStep r sc iA.key iA.id iA.ttl ρ.store ρ.a).1,
             a := (atomicSetStep r sc iA.key iA.id iA.ttl ρ.store ρ.a).2 }
  else
    { ρ with store := (atomicSetStep r sc iB.key iB.id iB.ttl ρ.store ρ.b).1,
             b := (atomicSetStep r sc iB.key iB.id iB.ttl ρ.store ρ.b).2 }

/-- The race from `ρ` under a schedule, the order in which the instances take their steps. -/
def raceFrom {σ : Type} (r : RedisCompatible σ) (sc : Scripts) (iA iB : Impl) :
    Race σ → List Bool → Race σ
  | ρ, [] => ρ
  | ρ, turn :: rest => raceFrom r sc iA iB (raceStep r sc iA iB ρ turn) rest

/-- The election attempts of two instances, both at the start of their `atomicSet` call, on a
store in state `s`, interleaved by `sched`. -/
def race {σ : Type} (r : RedisCompatible σ) (sc : Scripts) (iA iB : Impl) (s : σ)
    (sched : List Bool) : Race σ :=
  raceFrom r sc iA iB
    { store := s, a := SetPc.evalSha true false, b := SetPc.evalSha true false } sched

/-- The method `impl.runElection` around its `atomicSet` call: what it does given the two
results `(set, err)` of the call and the state `s1` the call left the store in. -/
def runElectionGiven {σ : Type} (amb : Ambient) (w : World σ) (set : Bool)
    (err : Option GoError) (s1 : σ) : Option (World σ) :=
  let w := { w with i := { w.i with cancelElectionRun := none } }
  let w := { w with redis := s1 }
  match err with
  | some e =>
    let w := { w with events := w.events ++ [Event.error (GoError.wrap "trying to run election: " e)] }
    let (c, ts) := runAfter w.timers w.i.wait Task.election
    some { w with timers := ts, i := { w.i with cancelElectionRun := some c } }
  | none =>
    if set then
      let w := { w with i := { w.i with leading := true },
                        events := w.events ++ [Event.promote amb.now] }
      match randomJitter amb.draw w.i.jitter with
      | none => none
      | some j =>
        let (c, ts) := runAfter w.timers (renewDelay w.i.ttl j) Task.renewal
        some { w with timers := ts, i := { w.i with cancelRenewRun := some c } }
    else
      let w := if w.i.leading then { w with events := w.events ++ [Event.demote amb.now] } else w
      let w := { w with i := { w.i with leading := false } }
      let w := match w.i.cancelRenewRun with
        | some c => { w with timers := callCanceller w.timers c,
                             i := { w.i with cancelRenewRun := none } }
        | none => w
      let (c, ts) := runAfter w.timers w.i.wait Task.election
      some { w with timers := ts, i := { w.i with cancelElectionRun := some c } }

/-- The election attempt of engine `w` once its `atomicSet` call stands at `pc` and the store
is in state `s`: the engine after the attempt when the call has returned and the attempt does
not panic, `none` while the call is still under way. -/
def electionOutcome {σ : Type} (amb : Ambient) (w : World σ) (s : σ) : SetPc → Option (World σ)
  | .returned set err => runElectionGiven amb w set err s
  | _ => none

/-! ## The script guard, unrolled -/

theorem recoverScriptFlushLoop_false {σ α : Type} (r : RedisCompatible σ) (sc : Scripts)
    (fn : σ → α → Option GoError × σ × α) (s : σ) (a : α) :
    recoverScriptFlushLoop r sc fn false s a = fn s a := by
  rw [recoverScriptFlushLoop]
  rcases h : fn s a with ⟨_ | err, s1, a1⟩ <;> simp

theorem recoverScriptFlush_unroll {σ α : Type} (r : RedisCompatible σ) (sc : Scripts)
    (fn : σ → α → Option GoError × σ × α) (s : σ) (a : α) :
    recoverScriptFlush r sc fn s a =
      match fn s a with
      | (some err, s1, a1) =>
        if hasPrefix err "NOSCRIPT" then
          match installScripts r sc s1 with
          | (some installErr, s2) =>
            (some (GoError.wrap "failed installing scripts: " installErr), s2, a1)
          | (none, s2) => fn s2 a1
        else (some err, s1, a1)
      | (none, s1, a1) => (none, s1, a1) := by
  rw [recoverScriptFlush, recoverScriptFlushLoop]
  rcases h : fn s a with ⟨_ | err, s1, a1⟩
  · simp
  · by_cases hp : hasPrefix err "NOSCRIPT" = true
    · simp only [hp, and_self, dite_true, ite_true]
      rcases h2 : installScripts r sc s1 with ⟨_ | ie, s2⟩
      · simp [recoverScriptFlushLoop_false]
      · simp
    · simp [hp]

/-! ## Timers and jitter -/

theorem length_callCanceller (ts : List Timer) (c : Nat) :
    (callCanceller ts c).length = ts.length := by
  induction ts generalizing c with
  | nil => rfl
  | cons t ts ih => cases c <;> simp [callCanceller, ih]

theorem isCancelled_callCanceller (ts : List Timer) (c : Nat) (h : c < ts.length) :
    isCancelled (callCanceller ts c) c = true := by
  induction ts generalizing c with
  | nil => simp at h
  | cons t ts ih =>
    cases c with
    | zero => rfl
    | succ c => exact ih c (by simpa using h)

theorem isCancelled_append (ts extra : List Timer) (c : Nat) (h : c < ts.length) :
    isCancelled (ts ++ extra) c = isCancelled ts c := by
  induction ts generalizing c with
  | nil => simp at h
  | cons t ts ih =>
    cases c with
    | zero => rfl
    | succ c => exact ih c (by simpa using h)

theorem randomJitter_returns (draw : Nat) (valMS : Int)
    (h : valMS = 0 ∨ 1000000 ≤ valMS) : ∃ j, randomJitter draw valMS = some j := by
  unfold randomJitter randIntn Milliseconds
  by_cases h0 : valMS = 0
  · exact ⟨0, by simp [h0]⟩
  · have h1 : 1000000 ≤ valMS := by omega
    have h2 : ¬ Int.tdiv valMS 1000000 ≤ 0 := by
      rw [Int.tdiv_eq_ediv (by omega) (by norm_num)]
      omega
    simp [h0, h2]

theorem randomJitter_panics (draw : Nat) (valMS : Int)
    (h0 : valMS ≠ 0) (h : valMS < 1000000) : randomJitter draw valMS = none := by
  unfold randomJitter randIntn Milliseconds
  have h2 : Int.tdiv valMS 1000000 ≤ 0 := by
    by_cases hn : 0 ≤ valMS
    · rw [Int.tdiv_eq_ediv hn (by norm_num)]
      omega
    · have h1 : valMS = -(-valMS) := by omega
      rw [h1, Int.neg_tdiv]
      have := Int.tdiv_nonneg (show 0 ≤ -valMS by omega) (show (0 : Int) ≤ 1000000 by norm_num)
      omega
  simp [h0, h2]

/-! ## Election attempts -/

/-- C1 (amended): for every engine state whose jitter bound is zero or at least one
millisecond, an election attempt that gets `acquired = true` and no error from `atomicSet`
returns; afterwards `leading` is true, exactly one event was sent, a promotion, and exactly one
task was scheduled: a renewal after `ttl/2 + j`, with `j` the jitter drawn; its canceller is
stored in `cancelRenewRun` and `cancelElectionRun` is nil. -/
theorem runElection_acquired {σ : Type} (r : RedisCompatible σ) (sc : Scripts) (amb : Ambient)
    (w : World σ) (s1 : σ)
    (hjit : w.i.jitter = 0 ∨ 1000000 ≤ w.i.jitter)
    (hset : atomicSet r sc w.redis w.i.key w.i.id w.i.ttl = (true, none, s1)) :
    ∃ j w1, randomJitter amb.draw w.i.jitter = some j ∧
      runElection r sc amb w = some w1 ∧
      w1.i.leading = true ∧
      w1.events = w.events ++ [Event.promote amb.now] ∧
      w1.timers = w.timers ++ [{ delay := renewDelay w.i.ttl j, task := Task.renewal,
                                 cancelled := false }] ∧
      w1.i.cancelRenewRun = some w.timers.length ∧
      w1.i.cancelElectionRun = none := by
  obtain ⟨j, hj⟩ := randomJitter_returns amb.draw w.i.jitter hjit
  simp only [runElection, hset, hj, runAfter]
  exact ⟨j, _, rfl, rfl, rfl, rfl, rfl, rfl, rfl⟩

/-- Witness for C1: the engine of the test (`TTL = 1s`, `JitterMS = 50`) wins its first
election. -/
theorem runElection_acquired_witness :
    ∃ j w1, randomJitter 7 (50000000 : Int) = some j ∧
      runElection replayStore demoScripts { now := 0, draw := 7 }
        (demoWorld demoImpl [.ok (.int64 1)]) = some w1 ∧
      w1.i.leading = true ∧
      w1.events = [Event.promote 0] ∧
      w1.timers = [{ delay := renewDelay 1000000000 j, task := Task.renewal,
                     cancelled := false }] ∧
      w1.i.cancelRenewRun = some 0 ∧
      w1.i.cancelElectionRun = none :=
  runElection_acquired replayStore demoScripts { now := 0, draw := 7 }
    (demoWorld demoImpl [.ok (.int64 1)]) { evals := [], loads := [], loaded := [] }
    (Or.inr (by decide))
    (by rw [atomicSet, recoverScriptFlush_unroll]; rfl)

/-- Counterexample to C1 as stated: with `JitterMS = -1` the election attempt gets
`acquired = true` and no error, and then panics in `randomJitter`: there is no resulting
state and no task is scheduled. -/
theorem negative_jitter_election_panics :
    (atomicSet replayStore demoScripts
        (demoWorld { demoImpl with jitter := -1000000 } [.ok (.int64 1)]).redis
        "leader:test1" "me" 1000000000).1 = true ∧
    (atomicSet replayStore demoScripts
        (demoWorld { demoImpl with jitter := -1000000 } [.ok (.int64 1)]).redis
        "leader:test1" "me" 1000000000).2.1 = none ∧
    runElection replayStore demoScripts { now := 0, draw := 7 }
        (demoWorld { demoImpl with jitter := -1000000 } [.ok (.int64 1)]) = none := by
  refine ⟨?_, ?_, ?_⟩
  · rw [atomicSet, recoverScriptFlush_unroll]; rfl
  · rw [atomicSet, recoverScriptFlush_unroll]; rfl
  · rw [runElection, atomicSet, recoverScriptFlush_unroll]; rfl

/-- C2: for every engine state, an election attempt that gets `acquired = false` and no error
returns; afterwards `leading` is false; the only event sent is a demotion, and it is sent
exactly when `leading` was true before; the canceller of a pending renewal task has been
called and `cancelRenewRun` is nil; and the one task scheduled is the next election attempt,
after `wait`. -/
theorem runElection_not_acquired {σ : Type} (r : RedisCompatible σ) (sc : Scripts)
    (amb : Ambient) (w : World σ) (s1 : σ)
    (hset : atomicSet r sc w.redis w.i.key w.i.id w.i.ttl = (false, none, s1)) :
    ∃ w1, runElection r sc amb w = some w1 ∧
      w1.i.leading = false ∧
      w1.events = w.events ++ (if w.i.leading then [Event.demote amb.now] else []) ∧
      w1.i.cancelRenewRun = none ∧
      w1.timers =
        (match w.i.cancelRenewRun with
          | some c => callCanceller w.timers c
          | none => w.timers) ++
        [{ delay := w.i.wait, task := Task.election, cancelled := false }] ∧
      (∀ c, w.i.cancelRenewRun = some c → c < w.timers.length →
        isCancelled w1.timers c = true) ∧
      w1.i.cancelElectionRun = some w.timers.length := by
  simp only [runElection, hset, runAfter]
  rcases hl : w.i.leading <;> rcases hc : w.i.cancelRenewRun with _ | c <;>
    simp [length_callCanceller] <;>
    intro hlt <;>
    rw [isCancelled_append _ _ _ (by simpa [length_callCanceller] using hlt)] <;>
    exact isCancelled_callCanceller _ _ hlt

/-- Witness for C2: a leader with a pending renewal task loses an election. -/
theorem runElection_not_acquired_witness :
    ∃ w1, runElection replayStore demoScripts { now := 5, draw := 0 }
        { demoWorld { demoImpl with leading := true, cancelRenewRun := some 0 }
            [.ok (.int64 0)] with
          timers := [{ delay := 500000000, task := Task.renewal, cancelled := false }] }
        = some w1 ∧
      w1.i.leading = false ∧
      w1.events = [Event.demote 5] ∧
      w1.i.cancelRenewRun = none ∧
      w1.timers = [{ delay := 500000000, task := Task.renewal, cancelled := true },
                   { delay := 2000000000, task := Task.election, cancelled := false }] ∧
      (∀ c, some 0 = some c → c < 1 → isCancelled w1.timers c = true) ∧
      w1.i.cancelElectionRun = some 1 :=
  runElection_not_acquired replayStore demoScripts { now := 5, draw := 0 }
    { demoWorld { demoImpl with leading := true, cancelRenewRun := some 0 }
        [.ok (.int64 0)] with
      timers := [{ delay := 500000000, task := Task.renewal, cancelled := false }] }
    { evals := [], loads := [], loaded := [] }
    (by rw [atomicSet, recoverScriptFlush_unroll]; rfl)

/-- C3 (amended): for every engine state, an election attempt whose `atomicSet` fails with a
store error returns; exactly one event was sent, an error event wrapping that error;
`leading` is left as it was (an instance that was Candidate remains Candidate); and the one
task scheduled is the next election attempt, after `wait`. -/
theorem runElection_store_error {σ : Type} (r : RedisCompatible σ) (sc : Scripts)
    (amb : Ambient) (w : World σ) (set : Bool) (e : GoError) (s1 : σ)
    (hset : atomicSet r sc w.redis w.i.key w.i.id w.i.ttl = (set, some e, s1)) :
    ∃ w1, runElection r sc amb w = some w1 ∧
      w1.events = w.events ++ [Event.error (GoError.wrap "trying to run election: " e)] ∧
      w1.i.leading = w.i.leading ∧
      (w.i.leading = false → w1.i.leading = false) ∧
      w1.timers = w.timers ++ [{ delay := w.i.wait, task := Task.election,
                                 cancelled := false }] ∧
      w1.i.cancelElectionRun = some w.timers.length ∧
      w1.i.cancelRenewRun = w.i.cancelRenewRun := by
  simp only [runElection, hset, runAfter]
  exact ⟨_, rfl, rfl, rfl, fun h => h, rfl, rfl, rfl⟩

/-- Witness for C3: a candidate whose store is down. -/
theorem runElection_store_error_witness :
    ∃ w1, runElection replayStore demoScripts { now := 5, draw := 0 }
        (demoWorld demoImpl [.error (.new "faulty client is faulty")]) = some w1 ∧
      w1.events = [Event.error (GoError.wrap "trying to run election: "
                      (.new "faulty client is faulty"))] ∧
      w1.i.leading = false ∧
      (false = false → w1.i.leading = false) ∧
      w1.timers = [{ delay := 2000000000, task := Task.election, cancelled := false }] ∧
      w1.i.cancelElectionRun = some 0 ∧
      w1.i.cancelRenewRun = none :=
  runElection_store_error replayStore demoScripts { now := 5, draw := 0 }
    (demoWorld demoImpl [.error (.new "faulty client is faulty")]) false
    (.new "faulty client is faulty") { evals := [], loads := [], loaded := [] }
    (by rw [atomicSet, recoverScriptFlush_unroll]; rfl)

/-- Counterexample to C3 as stated: an election attempt made while `leading` is true whose
`atomicSet` fails sends the error event and leaves `leading` true. -/
theorem failed_election_keeps_leading :
    (atomicSet replayStore demoScripts
        (demoWorld { demoImpl with leading := true }
          [.error (.new "faulty client is faulty")]).redis
        "leader:test1" "me" 1000000000).2.1 = some (.new "faulty client is faulty") ∧
    (runElection replayStore demoScripts { now := 5, draw := 0 }
        (demoWorld { demoImpl with leading := true }
          [.error (.new "faulty client is faulty")])).map (fun w1 => w1.i.leading)
      = some true := by
  refine ⟨?_, ?_⟩
  · rw [atomicSet, recoverScriptFlush_unroll]; rfl
  · rw [runElection, atomicSet, recoverScriptFlush_unroll]; rfl

/-! ## Renewals -/

/-- C4: for every engine state, a renewal whose `atomicRenew` fails with a store error
returns; it sent exactly one error event (wrapping that error) first and then a demotion
exactly when `leading` was true; afterwards `leading` is false, no renewal is pending
(`cancelRenewRun` is nil) and the one task scheduled is an election attempt, after `wait`. -/
theorem renew_store_error {σ : Type} (r : RedisCompatible σ) (sc : Scripts)
    (amb : Ambient) (w : World σ) (still : Bool) (e : GoError) (s1 : σ)
    (hren : atomicRenew r sc w.redis w.i.key w.i.id w.i.ttl = (still, some e, s1)) :
    ∃ w1, renew r sc amb w = some w1 ∧
      w1.events = w.events ++ [Event.error (GoError.wrap "trying to renew lease: " e)] ++
        (if w.i.leading then [Event.demote amb.now] else []) ∧
      w1.i.leading = false ∧
      w1.i.cancelRenewRun = none ∧
      w1.timers = w.timers ++ [{ delay := w.i.wait, task := Task.election,
                                 cancelled := false }] ∧
      w1.i.cancelElectionRun = some w.timers.length := by
  simp only [renew, hren, runAfter]
  rcases hl : w.i.leading <;> simp [hl]

/-- Witness for C4: the leader of the test once its store is made to fail. -/
theorem renew_store_error_witness :
    ∃ w1, renew replayStore demoScripts { now := 9, draw := 0 }
        (demoWorld { demoImpl with leading := true, cancelRenewRun := some 0 }
          [.error (.new "faulty client is faulty")]) = some w1 ∧
      w1.events = [Event.error (GoError.wrap "trying to renew lease: "
                      (.new "faulty client is faulty"))] ++ [Event.demote 9] ∧
      w1.i.leading = false ∧
      w1.i.cancelRenewRun = none ∧
      w1.timers = [{ delay := 2000000000, task := Task.election, cancelled := false }] ∧
      w1.i.cancelElectionRun = some 0 :=
  renew_store_error replayStore demoScripts { now := 9, draw := 0 }
    (demoWorld { demoImpl with leading := true, cancelRenewRun := some 0 }
      [.error (.new "faulty client is faulty")]) false
    (.new "faulty client is faulty") { evals := [], loads := [], loaded := [] }
    (by rw [atomicRenew, recoverScriptFlush_unroll]; rfl)

/-- C6: for every engine state, a renewal whose `atomicRenew` reports `stillOwner = false` and
no error returns; the only event sent is a demotion, and it is sent exactly when `leading`
was true; afterwards `leading` is false, no renewal is pending (`cancelRenewRun` is nil) and
the one task scheduled is an election attempt, after `wait`. -/
theorem renew_lost_lease {σ : Type} (r : RedisCompatible σ) (sc : Scripts)
    (amb : Ambient) (w : World σ) (s1 : σ)
    (hren : atomicRenew r sc w.redis w.i.key w.i.id w.i.ttl = (false, none, s1)) :
    ∃ w1, renew r sc amb w = some w1 ∧
      w1.events = w.events ++ (if w.i.leading then [Event.demote amb.now] else []) ∧
      w1.i.leading = false ∧
      w1.i.cancelRenewRun = none ∧
      w1.timers = w.timers ++ [{ delay := w.i.wait, task := Task.election,
                                 cancelled := false }] ∧
      w1.i.cancelElectionRun = some w.timers.length := by
  simp only [renew, hren, runAfter]
  rcases hl : w.i.leading <;> simp [hl]

/-- Witness for C6: a leader whose lease was taken over. -/
theorem renew_lost_lease_witness :
    ∃ w1, renew replayStore demoScripts { now := 9, draw := 0 }
        (demoWorld { demoImpl with leading := true, cancelRenewRun := some 0 }
          [.ok (.int64 0)]) = some w1 ∧
      w1.events = [Event.demote 9] ∧
      w1.i.leading = false ∧
      w1.i.cancelRenewRun = none ∧
      w1.timers = [{ delay := 2000000000, task := Task.election, cancelled := false }] ∧
      w1.i.cancelElectionRun = some 0 :=
  renew_lost_lease replayStore demoScripts { now := 9, draw := 0 }
    (demoWorld { demoImpl with leading := true, cancelRenewRun := some 0 }
      [.ok (.int64 0)]) { evals := [], loads := [], loaded := [] }
    (by rw [atomicRenew, recoverScriptFlush_unroll]; rfl)

theorem renew_confirmed_step {σ : Type} (r : RedisCompatible σ) (sc : Scripts)
    (amb : Ambient) (w : World σ) (s1 : σ)
    (hjit : w.i.jitter = 0 ∨ 1000000 ≤ w.i.jitter)
    (hren : atomicRenew r sc w.redis w.i.key w.i.id w.i.ttl = (true, none, s1)) :
    ∃ j w1, randomJitter amb.draw w.i.jitter = some j ∧
      renew r sc amb w = some w1 ∧
      w1.events = w.events ∧
      w1.i.leading = w.i.leading ∧
      w1.timers = w.timers ++ [{ delay := renewDelay w.i.ttl j, task := Task.renewal,
                                 cancelled := false }] ∧
      w1.i.cancelRenewRun = some w.timers.length ∧
      w1.i.cancelElectionRun = w.i.cancelElectionRun ∧
      w1.i.jitter = w.i.jitter := by
  obtain ⟨j, hj⟩ := randomJitter_returns amb.draw w.i.jitter hjit
  simp only [renew, hren, hj, runAfter]
  exact ⟨j, _, rfl, rfl, rfl, rfl, rfl, rfl, rfl, rfl⟩

theorem renewMany_confirmed {σ : Type} (r : RedisCompatible σ) (sc : Scripts)
    (ambs : List Ambient) (w : World σ)
    (hjit : w.i.jitter = 0 ∨ 1000000 ≤ w.i.jitter)
    (hok : renewalsSucceed r sc ambs w = true) :
    ∃ w1, renewMany r sc ambs w = some w1 ∧
      w1.i.leading = w.i.leading ∧
      w1.events = w.events ∧
      w1.i.cancelElectionRun = w.i.cancelElectionRun ∧
      w1.timers.length = w.timers.length + ambs.length := by
  induction ambs generalizing w with
  | nil => exact ⟨w, rfl, rfl, rfl, rfl, rfl⟩
  | cons amb ambs ih =>
    simp only [renewalsSucceed, Bool.and_eq_true, Option.isNone_iff_eq_none] at hok
    obtain ⟨⟨h1, h2⟩, h3⟩ := hok
    have hren : atomicRenew r sc w.redis w.i.key w.i.id w.i.ttl
        = (true, none, (atomicRenew r sc w.redis w.i.key w.i.id w.i.ttl).2.2) := by
      ext <;> simp [h1, h2]
    obtain ⟨j, w1, -, hrun, hev, hl, ht, -, hce, hj⟩ :=
      renew_confirmed_step r sc amb w _ hjit hren
    rw [hrun] at h3
    obtain ⟨w2, hrun2, hl2, hev2, hce2, ht2⟩ := ih w1 (by rw [hj]; exact hjit) h3
    refine ⟨w2, ?_, ?_, ?_, ?_, ?_⟩
    · simp [renewMany, hrun, hrun2]
    · rw [hl2, hl]
    · rw [hev2, hev]
    · rw [hce2, hce]
    · rw [ht2, ht]; simp; omega

/-- C5 (amended): for every engine state with `leading = true` whose jitter bound is zero or
at least one millisecond: a renewal whose `atomicRenew` reports `stillOwner = true` and no
error returns, sends no event, leaves `leading` true, schedules no election and schedules
exactly one task, the next renewal after `ttl/2 + j` with `j` the jitter drawn; and over any
run of such renewals `IsLeading` stays true and no event (so no demotion) is sent. -/
theorem renew_still_owner {σ : Type} (r : RedisCompatible σ) (sc : Scripts) (w : World σ)
    (hlead : w.i.leading = true)
    (hjit : w.i.jitter = 0 ∨ 1000000 ≤ w.i.jitter) :
    (∀ amb s1, atomicRenew r sc w.redis w.i.key w.i.id w.i.ttl = (true, none, s1) →
      ∃ j w1, randomJitter amb.draw w.i.jitter = some j ∧
        renew r sc amb w = some w1 ∧
        w1.events = w.events ∧
        IsLeading w1 = true ∧
        w1.timers = w.timers ++ [{ delay := renewDelay w.i.ttl j, task := Task.renewal,
                                   cancelled := false }] ∧
        w1.i.cancelRenewRun = some w.timers.length ∧
        w1.i.cancelElectionRun = w.i.cancelElectionRun) ∧
    (∀ ambs, renewalsSucceed r sc ambs w = true →
      ∃ w1, renewMany r sc ambs w = some w1 ∧
        IsLeading w1 = true ∧
        w1.events = w.events ∧
        demotions w1.events = demotions w.events ∧
        w1.i.cancelElectionRun = w.i.cancelElectionRun) := by
  constructor
  · intro amb s1 hren
    obtain ⟨j, w1, hj, hrun, hev, hl, ht, hcr, hce, -⟩ :=
      renew_confirmed_step r sc amb w s1 hjit hren
    exact ⟨j, w1, hj, hrun, hev, by rw [IsLeading, hl, hlead], ht, hcr, hce⟩
  · intro ambs hok
    obtain ⟨w1, hrun, hl, hev, hce, -⟩ := renewMany_confirmed r sc ambs w hjit hok
    exact ⟨w1, hrun, by rw [IsLeading, hl, hlead], hev, by rw [hev], hce⟩

/-- Witness for C5: the leader of the test renews three times on a store that confirms the
lease each time. -/
theorem renew_still_owner_witness :
    ∃ w1, renewMany replayStore demoScripts
        [{ now := 1, draw := 3 }, { now := 2, draw := 44 }, { now := 3, draw := 1234567 }]
        (demoLeader demoImpl [.ok (.int64 1), .ok (.int64 1), .ok (.int64 1)]) = some w1 ∧
      IsLeading w1 = true ∧
      w1.events = [Event.promote 0] ∧
      demotions w1.events = 0 ∧
      w1.i.cancelElectionRun = none :=
  (renew_still_owner replayStore demoScripts
      (demoLeader demoImpl [.ok (.int64 1), .ok (.int64 1), .ok (.int64 1)]) rfl
      (Or.inr (by decide))).2
    [{ now := 1, draw := 3 }, { now := 2, draw := 44 }, { now := 3, draw := 1234567 }]
    (by simp only [renewalsSucceed, renew, atomicRenew, recoverScriptFlush_unroll]; rfl)

/-- Counterexample to C5 as stated: with `JitterMS = -1` a leader whose `atomicRenew` reports
`stillOwner = true` and no error panics in `randomJitter`: there is no resulting state and
no next renewal is scheduled. -/
theorem negative_jitter_renewal_panics :
    (demoLeader { demoImpl with jitter := -1000000 } [.ok (.int64 1)]).i.leading = true ∧
    (atomicRenew replayStore demoScripts
        (demoLeader { demoImpl with jitter := -1000000 } [.ok (.int64 1)]).redis
        "leader:test1" "me" 1000000000).1 = true ∧
    (atomicRenew replayStore demoScripts
        (demoLeader { demoImpl with jitter := -1000000 } [.ok (.int64 1)]).redis
        "leader:test1" "me" 1000000000).2.1 = none ∧
    renew replayStore demoScripts { now := 1, draw := 3 }
        (demoLeader { demoImpl with jitter := -1000000 } [.ok (.int64 1)]) = none := by
  refine ⟨rfl, ?_, ?_, ?_⟩
  · rw [atomicRenew, recoverScriptFlush_unroll]; rfl
  · rw [atomicRenew, recoverScriptFlush_unroll]; rfl
  · rw [renew, atomicRenew, recoverScriptFlush_unroll]; rfl

/-! ## The script guard -/

theorem installScriptsLoop_traced {σ : Type} (r : RedisCompatible σ) (bodies : List String)
    (s : σ) (log : List Call) :
    ∃ n, n ≤ bodies.length ∧
      (installScriptsLoop (traced r) bodies (s, log)).2.2
        = log ++ (bodies.take n).map Call.scriptLoad ∧
      ((installScriptsLoop (traced r) bodies (s, log)).1 = none → n = bodies.length) ∧
      (bodies ≠ [] → 0 < n) ∧
      (installScriptsLoop (traced r) bodies (s, log)).1 = (installScriptsLoop r bodies s).1 ∧
      (installScriptsLoop (traced r) bodies (s, log)).2.1 = (installScriptsLoop r bodies s).2 := by
  induction bodies generalizing s log with
  | nil =>
    exact ⟨0, le_refl _, by simp [installScriptsLoop], fun _ => rfl, fun h => absurd rfl h,
      rfl, rfl⟩
  | cons b bs ih =>
    rcases h : r.ScriptLoad s b with ⟨_ | _, s1⟩
    · refine ⟨1, by simp, ?_, ?_, ?_, ?_, ?_⟩ <;> simp [installScriptsLoop, traced, h]
    · obtain ⟨n, hn, hlog, hnone, -, herr, hst⟩ := ih s1 (log ++ [Call.scriptLoad b])
      refine ⟨n + 1, by simpa using hn, ?_, ?_, fun _ => Nat.succ_pos n, ?_, ?_⟩
      · simpa [installScriptsLoop, traced, h] using hlog
      · simpa [installScriptsLoop, traced, h] using hnone
      · simpa [installScriptsLoop, traced, h] using herr
      · simpa [installScriptsLoop, traced, h] using hst

theorem installScripts_traced {σ : Type} (r : RedisCompatible σ) (sc : Scripts)
    (s : σ) (log : List Call) :
    ∃ n, 0 < n ∧ n ≤ 3 ∧
      installScripts (traced r) sc (s, log)
        = ((installScripts r sc s).1, (installScripts r sc s).2,
            log ++ (installCalls sc).take n) ∧
      ((installScripts r sc s).1 = none → n = 3) := by
  obtain ⟨n, hn, hlog, hnone, hpos, herr, hst⟩ := installScriptsLoop_traced r
    [sc.atomicSetScript, sc.atomicRenewScript, sc.atomicDeleteScript] s log
  have hmap : installCalls sc
      = [sc.atomicSetScript, sc.atomicRenewScript, sc.atomicDeleteScript].map
          Call.scriptLoad := rfl
  refine ⟨n, hpos (by simp), by simpa using hn, ?_, ?_⟩
  · rw [hmap, ← List.map_take]
    simp only [installScripts]
    ext1
    · exact herr
    · ext1
      · exact hst
      · exact hlog
  · intro h
    rw [installScripts, ← herr] at h
    simpa using hnone h

theorem installScripts_traced_log {σ : Type} (r : RedisCompatible σ) (sc : Scripts)
    (s : σ) :
    (installScripts (traced r) sc (s, [])).2.2 <+: installCalls sc ∧
    ((installScripts (traced r) sc (s, [])).1 = none →
      (installScripts (traced r) sc (s, [])).2.2 = installCalls sc) := by
  obtain ⟨n, hn, hlog, hnone, -, -, -⟩ := installScriptsLoop_traced r
    [sc.atomicSetScript, sc.atomicRenewScript, sc.atomicDeleteScript] s []
  constructor
  · rw [installScripts, hlog]
    have hmap : installCalls sc
        = [sc.atomicSetScript, sc.atomicRenewScript, sc.atomicDeleteScript].map
            Call.scriptLoad := rfl
    rw [List.nil_append, hmap, List.map_take]
    exact List.take_prefix _ _
  · intro h
    rw [installScripts] at h
    have := hnone h
    rw [installScripts, hlog, this]
    simp [installCalls]

/-- C7: for every closure `fn` and every store, run `recoverScriptFlush` on the traced store
with `fn` counting its invocations. `fn` is invoked at most twice and the guard's own store
calls are a prefix of one `installScripts` run (so `installScripts` runs at most once).
If the first invocation returns nil or an error that is not `NOSCRIPT`, that result is
returned unchanged after exactly one invocation and no store call of the guard. If it fails
with `NOSCRIPT`, `installScripts` runs: when it fails, its error is returned wrapped, with no
second invocation; when it succeeds, `fn` is invoked a second time and that result, whatever
it is, is returned unchanged. -/
theorem recoverScriptFlush_single_retry {σ α : Type} (r : RedisCompatible σ) (sc : Scripts)
    (fn : σ → α → Option GoError × σ × α) (s : σ) (a : α) :
    (recoverScriptFlush (traced r) sc (countInvocations fn) (s, []) (a, 0)).2.2.2 ≤ 2 ∧
    (recoverScriptFlush (traced r) sc (countInvocations fn) (s, []) (a, 0)).2.1.2
      <+: installCalls sc ∧
    match (fn s a).1 with
    | none =>
      recoverScriptFlush (traced r) sc (countInvocations fn) (s, []) (a, 0)
        = (none, ((fn s a).2.1, []), ((fn s a).2.2, 1))
    | some err =>
      if hasPrefix err "NOSCRIPT" then
        match (installScripts (traced r) sc ((fn s a).2.1, [])).1 with
        | some installErr =>
          recoverScriptFlush (traced r) sc (countInvocations fn) (s, []) (a, 0)
            = (some (GoError.wrap "failed installing scripts: " installErr),
               (installScripts (traced r) sc ((fn s a).2.1, [])).2, ((fn s a).2.2, 1))
        | none =>
          recoverScriptFlush (traced r) sc (countInvocations fn) (s, []) (a, 0)
            = ((fn (installScripts (traced r) sc ((fn s a).2.1, [])).2.1 (fn s a).2.2).1,
               ((fn (installScripts (traced r) sc ((fn s a).2.1, [])).2.1 (fn s a).2.2).2.1,
                installCalls sc),
               ((fn (installScripts (traced r) sc ((fn s a).2.1, [])).2.1 (fn s a).2.2).2.2, 2))
      else
        recoverScriptFlush (traced r) sc (countInvocations fn) (s, []) (a, 0)
          = (some err, ((fn s a).2.1, []), ((fn s a).2.2, 1)) := by
  rw [recoverScriptFlush_unroll]
  rcases h1 : fn s a with ⟨_ | err, s1, a1⟩
  · simp [countInvocations, h1]
  · by_cases hp : hasPrefix err "NOSCRIPT" = true
    · have hlog := installScripts_traced_log r sc s1
      rcases h2 : installScripts (traced r) sc (s1, []) with ⟨_ | ie, s2, log2⟩
      · rw [h2] at hlog
        have hl : log2 = installCalls sc := hlog.2 rfl
        subst hl
        simp [countInvocations, h1, hp, h2]
      · rw [h2] at hlog
        simp [countInvocations, h1, hp, h2, hlog.1]
    · simp [countInvocations, h1, hp]

theorem AtomicOp.run_eq {σ : Type} (r : RedisCompatible σ) (sc : Scripts) (s : σ)
    (key id : String) (timeout : Int) (op : AtomicOp) :
    op.run r sc s key id timeout =
      ((recoverScriptFlush r sc
          (evalShaStatus r (op.sha sc) [key] (op.args id timeout)) s false).2.2,
       (recoverScriptFlush r sc
          (evalShaStatus r (op.sha sc) [key] (op.args id timeout)) s false).1,
       (recoverScriptFlush r sc
          (evalShaStatus r (op.sha sc) [key] (op.args id timeout)) s false).2.1) := by
  cases op <;> rfl

theorem evalShaStatus_traced {σ : Type} (r : RedisCompatible σ) (sha : String)
    (keys : List String) (args : List RedisArg) (s : σ) (log : List Call) (status : Bool) :
    evalShaStatus (traced r) sha keys args (s, log) status =
      (match (r.EvalSha s sha keys args).1 with
        | .error err => some err
        | .ok _ => none,
       ((r.EvalSha s sha keys args).2, log ++ [Call.evalSha sha keys args]),
       match (r.EvalSha s sha keys args).1 with
        | .error _ => status
        | .ok (.int64 i) => decide (i = 1)
        | .ok _ => status) := by
  simp only [evalShaStatus, traced]
  rcases r.EvalSha s sha keys args with ⟨e | v, s1⟩
  · rfl
  · cases v <;> rfl

theorem guarded_first_ok {σ : Type} (r : RedisCompatible σ) (sc : Scripts) (s s1 : σ)
    (sha : String) (keys : List String) (args : List RedisArg) (v : RedisValue)
    (h1 : r.EvalSha s sha keys args = (.ok v, s1)) :
    recoverScriptFlush (traced r) sc (evalShaStatus (traced r) sha keys args) (s, []) false
      = (none, (s1, [Call.evalSha sha keys args]), replyStatus v) := by
  rw [recoverScriptFlush_unroll, evalShaStatus_traced, h1]
  cases v <;> rfl

theorem guarded_other_error {σ : Type} (r : RedisCompatible σ) (sc : Scripts) (s s1 : σ)
    (sha : String) (keys : List String) (args : List RedisArg) (e : GoError)
    (h1 : r.EvalSha s sha keys args = (.error e, s1))
    (hp : hasPrefix e "NOSCRIPT" = false) :
    recoverScriptFlush (traced r) sc (evalShaStatus (traced r) sha keys args) (s, []) false
      = (some e, (s1, [Call.evalSha sha keys args]), false) := by
  rw [recoverScriptFlush_unroll, evalShaStatus_traced, h1]
  simp [hp]

theorem guarded_install_fails {σ : Type} (r : RedisCompatible σ) (sc : Scripts) (s s1 s2 : σ)
    (sha : String) (keys : List String) (args : List RedisArg) (e installErr : GoError)
    (h1 : r.EvalSha s sha keys args = (.error e, s1))
    (hp : hasPrefix e "NOSCRIPT" = true)
    (h2 : installScripts r sc s1 = (some installErr, s2)) :
    ∃ n, 0 < n ∧ n ≤ 3 ∧
      recoverScriptFlush (traced r) sc (evalShaStatus (traced r) sha keys args) (s, []) false
        = (some (GoError.wrap "failed installing scripts: " installErr),
           (s2, Call.evalSha sha keys args :: (installCalls sc).take n), false) := by
  obtain ⟨n, hpos, hn, hinst, -⟩ :=
    installScripts_traced r sc s1 [Call.evalSha sha keys args]
  refine ⟨n, hpos, hn, ?_⟩
  rw [recoverScriptFlush_unroll, evalShaStatus_traced, h1]
  simp only [hp, if_true, List.nil_append, hinst, h2]
  rfl

theorem guarded_retry {σ : Type} (r : RedisCompatible σ) (sc : Scripts) (s s1 s2 : σ)
    (sha : String) (keys : List String) (args : List RedisArg) (e : GoError)
    (h1 : r.EvalSha s sha keys args = (.error e, s1))
    (hp : hasPrefix e "NOSCRIPT" = true)
    (h2 : installScripts r sc s1 = (none, s2)) :
    recoverScriptFlush (traced r) sc (evalShaStatus (traced r) sha keys args) (s, []) false
      = (match (r.EvalSha s2 sha keys args).1 with
          | .error e2 => some e2
          | .ok _ => none,
         ((r.EvalSha s2 sha keys args).2,
          Call.evalSha sha keys args :: installCalls sc ++ [Call.evalSha sha keys args]),
         match (r.EvalSha s2 sha keys args).1 with
          | .error _ => false
          | .ok v => replyStatus v) := by
  obtain ⟨n, -, -, hinst, hall⟩ :=
    installScripts_traced r sc s1 [Call.evalSha sha keys args]
  have hn3 : n = 3 := hall (by rw [h2])
  subst hn3
  rw [recoverScriptFlush_unroll, evalShaStatus_traced, h1]
  simp only [hp, if_true, List.nil_append, hinst, h2, evalShaStatus_traced]
  rcases h3 : r.EvalSha s2 sha keys args with ⟨e2 | v2, s3⟩
  · simp [installCalls]
  · cases v2 <;> simp [installCalls, replyStatus]

/-- C8: for each of `atomicSet`, `atomicRenew` and `atomicDelete`, run on a traced store, the
result and the complete list of store calls are fixed by the outcomes of those calls.
If the first `EvalSha` succeeds, it is the only store call (no script is loaded) and its
status is returned with no error. If it fails with an error other than `NOSCRIPT`, that error
is returned and nothing else is called. If it fails with `NOSCRIPT`, the guard calls
`ScriptLoad` on the set body, then the renew body, then the delete body: the first load that
fails ends the operation, which returns that load's error wrapped and status false, with no
further load and no second `EvalSha`; when all three loads succeed, `EvalSha` is called once
more, and the operation returns no error and the status of that retried execution when it
succeeds, and its error when it fails. So after `NOSCRIPT` the operation returns no error
exactly when the three loads and the retried execution all succeed. -/
theorem atomicOp_script_recovery {σ : Type} (r : RedisCompatible σ) (sc : Scripts) (s : σ)
    (key id : String) (timeout : Int) (op : AtomicOp) :
    match r.EvalSha s (op.sha sc) [key] (op.args id timeout) with
    | (.ok v, s1) =>
      op.run (traced r) sc (s, []) key id timeout
        = (replyStatus v, none, s1, [Call.evalSha (op.sha sc) [key] (op.args id timeout)])
    | (.error e, s1) =>
      if hasPrefix e "NOSCRIPT" then
        match r.ScriptLoad s1 sc.atomicSetScript with
        | (.error loadErr, s2) =>
          op.run (traced r) sc (s, []) key id timeout
            = (false, some (GoError.wrap "failed installing scripts: " loadErr), s2,
               [Call.evalSha (op.sha sc) [key] (op.args id timeout),
                Call.scriptLoad sc.atomicSetScript])
        | (.ok _, s2) =>
          match r.ScriptLoad s2 sc.atomicRenewScript with
          | (.error loadErr, s3) =>
            op.run (traced r) sc (s, []) key id timeout
              = (false, some (GoError.wrap "failed installing scripts: " loadErr), s3,
                 [Call.evalSha (op.sha sc) [key] (op.args id timeout),
                  Call.scriptLoad sc.atomicSetScript, Call.scriptLoad sc.atomicRenewScript])
          | (.ok _, s3) =>
            match r.ScriptLoad s3 sc.atomicDeleteScript with
            | (.error loadErr, s4) =>
              op.run (traced r) sc (s, []) key id timeout
                = (false, some (GoError.wrap "failed installing scripts: " loadErr), s4,
                   [Call.evalSha (op.sha sc) [key] (op.args id timeout),
                    Call.scriptLoad sc.atomicSetScript, Call.scriptLoad sc.atomicRenewScript,
                    Call.scriptLoad sc.atomicDeleteScript])
            | (.ok _, s4) =>
              match r.EvalSha s4 (op.sha sc) [key] (op.args id timeout) with
              | (.ok v, s5) =>
                op.run (traced r) sc (s, []) key id timeout
                  = (replyStatus v, none, s5,
                     [Call.evalSha (op.sha sc) [key] (op.args id timeout),
                      Call.scriptLoad sc.atomicSetScript, Call.scriptLoad sc.atomicRenewScript,
                      Call.scriptLoad sc.atomicDeleteScript,
                      Call.evalSha (op.sha sc) [key] (op.args id timeout)])
              | (.error e2, s5) =>
                op.run (traced r) sc (s, []) key id timeout
                  = (false, some e2, s5,
                     [Call.evalSha (op.sha sc) [key] (op.args id timeout),
                      Call.scriptLoad sc.atomicSetScript, Call.scriptLoad sc.atomicRenewScript,
                      Call.scriptLoad sc.atomicDeleteScript,
                      Call.evalSha (op.sha sc) [key] (op.args id timeout)])
      else
        op.run (traced r) sc (s, []) key id timeout
          = (false, some e, s1, [Call.evalSha (op.sha sc) [key] (op.args id timeout)]) := by
  rw [AtomicOp.run_eq]
  rcases h1 : r.EvalSha s (op.sha sc) [key] (op.args id timeout) with ⟨e | v, s1⟩
  · by_cases hp : hasPrefix e "NOSCRIPT" = true
    · simp only [hp, if_true]
      rw [recoverScriptFlush_unroll, evalShaStatus_traced, h1]
      rcases hA : r.ScriptLoad s1 sc.atomicSetScript with ⟨la | _, s2⟩
      · simp [hp, installScripts, installScriptsLoop, traced, hA]
      · rcases hB : r.ScriptLoad s2 sc.atomicRenewScript with ⟨lb | _, s3⟩
        · simp [hp, installScripts, installScriptsLoop, traced, hA, hB]
        · rcases hC : r.ScriptLoad s3 sc.atomicDeleteScript with ⟨lc | _, s4⟩
          · simp [hp, installScripts, installScriptsLoop, traced, hA, hB, hC]
          · rcases h3 : r.EvalSha s4 (op.sha sc) [key] (op.args id timeout) with ⟨e2 | v2, s5⟩
            · simp [hp, installScripts, installScriptsLoop, traced, hA, hB, hC, evalShaStatus,
                h3]
            · cases v2 <;>
                simp [hp, installScripts, installScriptsLoop, traced, hA, hB, hC, evalShaStatus,
                  h3, replyStatus]
    · have hp2 : hasPrefix e "NOSCRIPT" = false := by simpa using hp
      simp [hp2, guarded_other_error r sc s s1 _ _ _ e h1 hp2]
  · simp [guarded_first_ok r sc s s1 _ _ _ v h1]

/-- A run of C8 on the scripted store: the first `atomicSet` meets `NOSCRIPT`, loads the three
bodies and succeeds on the retry; the next `atomicSet` succeeds at once and loads nothing
more. -/
theorem atomicSet_after_flush :
    atomicSet replayStore demoScripts
        { evals := [.error (.new "NOSCRIPT No matching script. Please use EVAL."),
                    .ok (.int64 1), .ok (.int64 0)],
          loads := [], loaded := [] }
        "leader:test1" "me" 1000000000
      = (true, none, { evals := [.ok (.int64 0)], loads := [],
                       loaded := ["set", "renew", "delete"] }) ∧
    atomicSet replayStore demoScripts
        { evals := [.ok (.int64 0)], loads := [], loaded := ["set", "renew", "delete"] }
        "leader:test1" "me" 1000000000
      = (false, none, { evals := [], loads := [], loaded := ["set", "renew", "delete"] }) := by
  constructor <;> (rw [atomicSet, recoverScriptFlush_unroll]; rfl)

/-! ## Resignation -/

theorem voidTimers_frame {σ : Type} (w : World σ) :
    (voidTimers w).redis = w.redis ∧ (voidTimers w).events = w.events ∧
    (voidTimers w).i.key = w.i.key ∧ (voidTimers w).i.id = w.i.id ∧
    (voidTimers w).i.running = w.i.running ∧ (voidTimers w).i.leading = w.i.leading := by
  unfold voidTimers
  rcases w.i.cancelElectionRun with _ | c <;> rcases h : w.i.cancelRenewRun with _ | c2 <;>
    simp [h]

theorem resign_released {σ : Type} (r : RedisCompatible σ) (sc : Scripts) (amb : Ambient)
    (w : World σ) (wasOwner : Bool) (s1 : σ)
    (hdel : atomicDelete r sc w.redis w.i.key w.i.id = (wasOwner, none, s1)) :
    (resign r sc amb w).1 = none ∧
    (resign r sc amb w).2.events =
      w.events ++ (if wasOwner then [Event.demote amb.now] else []) ∧
    (resign r sc amb w).2.i.leading = false ∧
    (resign r sc amb w).2.i.running = false ∧
    (resign r sc amb w).2.redis = s1 := by
  obtain ⟨h1, h2, h3, h4, -, -⟩ := voidTimers_frame w
  simp only [resign, h1, h3, h4, hdel]
  cases wasOwner <;> simp [h2]

/-- C9 (amended): for every running engine state, when the `atomicDelete` call of `Stop`
succeeds, `Stop` returns nil, sends exactly one demotion event if `atomicDelete` reported
`wasOwner = true` and no event otherwise, and leaves `leading = false` and
`running = false`. -/
theorem Stop_released {σ : Type} (r : RedisCompatible σ) (sc : Scripts) (amb : Ambient)
    (w : World σ) (wasOwner : Bool) (s1 : σ)
    (hrun : w.i.running = true)
    (hdel : atomicDelete r sc w.redis w.i.key w.i.id = (wasOwner, none, s1)) :
    (Stop r sc amb w).1 = none ∧
    (Stop r sc amb w).2.events =
      w.events ++ (if wasOwner then [Event.demote amb.now] else []) ∧
    (Stop r sc amb w).2.i.leading = false ∧
    (Stop r sc amb w).2.i.running = false := by
  obtain ⟨h1, h2, h3, h4, -⟩ := resign_released r sc amb w wasOwner s1 hdel
  simp only [Stop, hrun, Bool.not_true, Bool.false_eq_true, if_false]
  exact ⟨h1, h2, h3, h4⟩

/-- Witness for C9: a leader that still owns its lease stops. -/
theorem Stop_released_witness :
    (Stop replayStore demoScripts { now := 4, draw := 0 }
        (demoLeader demoImpl [.ok (.int64 1)])).1 = none ∧
    (Stop replayStore demoScripts { now := 4, draw := 0 }
        (demoLeader demoImpl [.ok (.int64 1)])).2.events =
      [Event.promote 0] ++ (if true then [Event.demote 4] else []) ∧
    (Stop replayStore demoScripts { now := 4, draw := 0 }
        (demoLeader demoImpl [.ok (.int64 1)])).2.i.leading = false ∧
    (Stop replayStore demoScripts { now := 4, draw := 0 }
        (demoLeader demoImpl [.ok (.int64 1)])).2.i.running = false :=
  Stop_released replayStore demoScripts { now := 4, draw := 0 }
    (demoLeader demoImpl [.ok (.int64 1)]) true { evals := [], loads := [], loaded := [] }
    rfl (by rw [atomicDelete, recoverScriptFlush_unroll]; rfl)

/-- Counterexample to C9 as stated: a running instance with `leading = true` whose lease is
gone from the store (`atomicDelete` reports `wasOwner = false`, no error) stops without
sending any demotion event; and a running instance with `leading = false` whose record is
still in the store (`wasOwner = true`) sends one. -/
theorem Stop_demotion_follows_release :
    (demoLeader demoImpl [.ok (.int64 0)]).i.running = true ∧
    (demoLeader demoImpl [.ok (.int64 0)]).i.leading = true ∧
    (Stop replayStore demoScripts { now := 4, draw := 0 }
        (demoLeader demoImpl [.ok (.int64 0)])).1 = none ∧
    demotions (Stop replayStore demoScripts { now := 4, draw := 0 }
        (demoLeader demoImpl [.ok (.int64 0)])).2.events = 0 ∧
    (demoWorld demoImpl [.ok (.int64 1)]).i.running = true ∧
    (demoWorld demoImpl [.ok (.int64 1)]).i.leading = false ∧
    (Stop replayStore demoScripts { now := 4, draw := 0 }
        (demoWorld demoImpl [.ok (.int64 1)])).1 = none ∧
    demotions (Stop replayStore demoScripts { now := 4, draw := 0 }
        (demoWorld demoImpl [.ok (.int64 1)])).2.events = 1 := by
  refine ⟨rfl, rfl, ?_, ?_, rfl, rfl, ?_, ?_⟩ <;>
    (rw [Stop, resign, atomicDelete, recoverScriptFlush_unroll]; rfl)

theorem Stop_not_running {σ : Type} (r : RedisCompatible σ) (sc : Scripts) (amb : Ambient)
    (w : World σ) (hrun : w.i.running = false) : Stop r sc amb w = (none, w) := by
  simp [Stop, hrun]

/-- C10: for every engine state and every store whose `atomicDelete` succeeds on it, two
`Stop` calls in succession both return nil and together send at most one demotion event; the
engine is not running after the first and the second changes nothing. And `Stop` on any
engine that is not running returns nil and leaves the whole world as it was: no event, no
state change, no store call (the store, whatever it records, is unchanged). -/
theorem Stop_twice {σ : Type} (r : RedisCompatible σ) (sc : Scripts) (amb1 amb2 : Ambient)
    (w : World σ)
    (hdel : (atomicDelete r sc w.redis w.i.key w.i.id).2.1 = none) :
    (Stop r sc amb1 w).1 = none ∧
    (Stop r sc amb2 (Stop r sc amb1 w).2).1 = none ∧
    demotions (Stop r sc amb2 (Stop r sc amb1 w).2).2.events ≤ demotions w.events + 1 ∧
    (Stop r sc amb1 w).2.i.running = false ∧
    Stop r sc amb2 (Stop r sc amb1 w).2 = (none, (Stop r sc amb1 w).2) ∧
    ∀ (amb : Ambient) (w0 : World σ), w0.i.running = false →
      Stop r sc amb w0 = (none, w0) := by
  have key : (Stop r sc amb1 w).1 = none ∧ (Stop r sc amb1 w).2.i.running = false ∧
      demotions (Stop r sc amb1 w).2.events ≤ demotions w.events + 1 := by
    rcases hrun : w.i.running with _ | _
    · rw [Stop_not_running r sc amb1 w hrun]
      exact ⟨rfl, hrun, Nat.le_succ _⟩
    · have hd : atomicDelete r sc w.redis w.i.key w.i.id
          = ((atomicDelete r sc w.redis w.i.key w.i.id).1, none,
             (atomicDelete r sc w.redis w.i.key w.i.id).2.2) := by
        ext <;> simp [hdel]
      obtain ⟨h1, h2, -, h4, -⟩ := resign_released r sc amb1 w _ _ hd
      have hs : Stop r sc amb1 w = resign r sc amb1 w := by simp [Stop, hrun]
      rw [hs]
      refine ⟨h1, h4, ?_⟩
      rw [h2]
      cases (atomicDelete r sc w.redis w.i.key w.i.id).1 <;>
        simp [demotions, List.countP_append, Event.isDemote]
  obtain ⟨h1, h2, h3⟩ := key
  have h4 := Stop_not_running r sc amb2 (Stop r sc amb1 w).2 h2
  refine ⟨h1, ?_, ?_, h2, h4, fun amb w0 h => Stop_not_running r sc amb w0 h⟩
  · rw [h4]
  · rw [h4]; exact h3

/-- Witness for C10: a leader that still owns its lease is stopped twice; one demotion in
all. -/
theorem Stop_twice_witness :
    (Stop replayStore demoScripts { now := 4, draw := 0 }
        (demoLeader demoImpl [.ok (.int64 1)])).1 = none ∧
    (Stop replayStore demoScripts { now := 5, draw := 0 }
        (Stop replayStore demoScripts { now := 4, draw := 0 }
          (demoLeader demoImpl [.ok (.int64 1)])).2).1 = none ∧
    demotions (Stop replayStore demoScripts { now := 5, draw := 0 }
        (Stop replayStore demoScripts { now := 4, draw := 0 }
          (demoLeader demoImpl [.ok (.int64 1)])).2).2.events
      ≤ demotions (demoLeader demoImpl [.ok (.int64 1)]).events + 1 ∧
    (Stop replayStore demoScripts { now := 4, draw := 0 }
        (demoLeader demoImpl [.ok (.int64 1)])).2.i.running = false ∧
    Stop replayStore demoScripts { now := 5, draw := 0 }
        (Stop replayStore demoScripts { now := 4, draw := 0 }
          (demoLeader demoImpl [.ok (.int64 1)])).2
      = (none, (Stop replayStore demoScripts { now := 4, draw := 0 }
          (demoLeader demoImpl [.ok (.int64 1)])).2) ∧
    ∀ (amb : Ambient) (w0 : World Replay), w0.i.running = false →
      Stop replayStore demoScripts amb w0 = (none, w0) :=
  Stop_twice replayStore demoScripts { now := 4, draw := 0 } { now := 5, draw := 0 }
    (demoLeader demoImpl [.ok (.int64 1)])
    (by rw [atomicDelete, recoverScriptFlush_unroll]; rfl)

/-- A run of C7 on the scripted store: the retried execution meets `NOSCRIPT` again; that
error is returned as it is, after one reinstall and no third execution. -/
theorem atomicSet_second_noscript :
    atomicSet replayStore demoScripts
        { evals := [.error (.new "NOSCRIPT No matching script. Please use EVAL."),
                    .error (.new "ERR NOSCRIPT No matching script"), .ok (.int64 1)],
          loads := [], loaded := [] }
        "leader:test1" "me" 1000000000
      = (false, some (.new "ERR NOSCRIPT No matching script"),
         { evals := [.ok (.int64 1)], loads := [], loaded := ["set", "renew", "delete"] }) := by
  rw [atomicSet, recoverScriptFlush_unroll]; rfl

/-! ## Resignation that fails -/

theorem filter_isEvalSha_installCalls (sc : Scripts) (n : Nat) :
    ((installCalls sc).take n).filter Call.isEvalSha = [] := by
  rcases n with _ | _ | _ | _ | n <;> simp [installCalls, Call.isEvalSha]

theorem guarded_executions {σ : Type} (r : RedisCompatible σ) (sc : Scripts) (s : σ)
    (sha : String) (keys : List String) (args : List RedisArg) :
    ((recoverScriptFlush (traced r) sc (evalShaStatus (traced r) sha keys args)
        (s, []) false).2.1.2.filter Call.isEvalSha).length ≤ 2 ∧
    ∀ c ∈ (recoverScriptFlush (traced r) sc (evalShaStatus (traced r) sha keys args)
        (s, []) false).2.1.2, c.isEvalSha = true → c = Call.evalSha sha keys args := by
  have hinst : ∀ n c, c ∈ (installCalls sc).take n → c.isEvalSha = true → False := by
    intro n c hc hev
    have hmem : c ∈ ((installCalls sc).take n).filter Call.isEvalSha :=
      List.mem_filter.mpr ⟨hc, hev⟩
    rw [filter_isEvalSha_installCalls] at hmem
    exact absurd hmem (List.not_mem_nil c)
  rcases h1 : r.EvalSha s sha keys args with ⟨e | v, s1⟩
  · by_cases hp : hasPrefix e "NOSCRIPT" = true
    · rcases h2 : installScripts r sc s1 with ⟨_ | installErr, s2⟩
      · rw [guarded_retry r sc s s1 s2 sha keys args e h1 hp h2]
        have h3 := filter_isEvalSha_installCalls sc 3
        have h4 : (installCalls sc).take 3 = installCalls sc := rfl
        rw [h4] at h3
        refine ⟨by simp [List.filter_cons, List.filter_append, h3, Call.isEvalSha], ?_⟩
        intro c hc hev
        simp only [List.mem_cons, List.mem_append, List.mem_singleton] at hc
        rcases hc with (hc | hc) | hc | hc
        · exact hc
        · exact absurd (hinst 3 c (by rw [h4]; exact hc) hev) id
        · exact hc
        · exact absurd hc (List.not_mem_nil c)
      · obtain ⟨n, -, -, h⟩ :=
          guarded_install_fails r sc s s1 s2 sha keys args e installErr h1 hp h2
        rw [h]
        refine ⟨by simp [List.filter_cons, filter_isEvalSha_installCalls, Call.isEvalSha], ?_⟩
        intro c hc hev
        simp only [List.mem_cons] at hc
        rcases hc with hc | hc
        · exact hc
        · exact absurd (hinst n c hc hev) id
    · have hp2 : hasPrefix e "NOSCRIPT" = false := by simpa using hp
      rw [guarded_other_error r sc s s1 sha keys args e h1 hp2]
      exact ⟨by simp [Call.isEvalSha], by simp⟩
  · rw [guarded_first_ok r sc s s1 sha keys args v h1]
    exact ⟨by simp [Call.isEvalSha], by simp⟩

theorem resign_failed {σ : Type} (r : RedisCompatible σ) (sc : Scripts) (amb : Ambient)
    (w : World σ) (wasOwner : Bool) (e : GoError) (s1 : σ)
    (hdel : atomicDelete r sc w.redis w.i.key w.i.id = (wasOwner, some e, s1)) :
    (resign r sc amb w).1 = some e ∧
    (resign r sc amb w).2.events = w.events ∧
    (resign r sc amb w).2.i.leading = w.i.leading ∧
    (resign r sc amb w).2.i.running = w.i.running ∧
    (resign r sc amb w).2.redis = s1 := by
  obtain ⟨h1, h2, h3, h4, h5, h6⟩ := voidTimers_frame w
  refine ⟨?_, ?_, ?_, ?_, ?_⟩ <;> simp [resign, h1, h2, h3, h4, h5, h6, hdel]

/-- C11: for every running engine state, on a store that logs its calls: when the
`atomicDelete` call of `Stop` fails with error `e`, `Stop` returns `e`; no event is sent; the
`leading` and `running` flags are as before; the store is left as that one `atomicDelete`
left it, and the calls `Stop` made hold at most two executions of the delete script (the
first, and the guard's one retry after `NOSCRIPT`) and no other `EvalSha`. -/
theorem Stop_release_fails {σ : Type} (r : RedisCompatible σ) (sc : Scripts) (amb : Ambient)
    (w : World (σ × List Call)) (wasOwner : Bool) (e : GoError) (s1 : σ × List Call)
    (hrun : w.i.running = true) (hlog : w.redis.2 = [])
    (hdel : atomicDelete (traced r) sc w.redis w.i.key w.i.id = (wasOwner, some e, s1)) :
    (Stop (traced r) sc amb w).1 = some e ∧
    (Stop (traced r) sc amb w).2.events = w.events ∧
    (Stop (traced r) sc amb w).2.i.leading = w.i.leading ∧
    (Stop (traced r) sc amb w).2.i.running = true ∧
    (Stop (traced r) sc amb w).2.redis = s1 ∧
    (s1.2.filter Call.isEvalSha).length ≤ 2 ∧
    ∀ c ∈ s1.2, c.isEvalSha = true →
      c = Call.evalSha (atomicDeleteSHA sc) [w.i.key] [RedisArg.str w.i.id] := by
  obtain ⟨h1, h2, h3, h4, h5⟩ := resign_failed (traced r) sc amb w wasOwner e s1 hdel
  have hs : Stop (traced r) sc amb w = resign (traced r) sc amb w := by simp [Stop, hrun]
  have hw : w.redis = (w.redis.1, []) := by rw [← hlog]
  have hcalls := guarded_executions r sc w.redis.1 (atomicDeleteSHA sc) [w.i.key]
    [RedisArg.str w.i.id]
  have hlogeq : s1.2 = (recoverScriptFlush (traced r) sc
      (evalShaStatus (traced r) (atomicDeleteSHA sc) [w.i.key] [RedisArg.str w.i.id])
      (w.redis.1, []) false).2.1.2 := by
    have hrun2 := AtomicOp.run_eq (traced r) sc w.redis w.i.key w.i.id 0 AtomicOp.delete
    rw [hw] at hrun2
    have hd2 : atomicDelete (traced r) sc (w.redis.1, []) w.i.key w.i.id
        = (wasOwner, some e, s1) := by rw [← hw]; exact hdel
    have heq : AtomicOp.run (traced r) sc (w.redis.1, []) w.i.key w.i.id 0 AtomicOp.delete
        = atomicDelete (traced r) sc (w.redis.1, []) w.i.key w.i.id := rfl
    rw [heq, hd2] at hrun2
    have := congrArg (fun x => x.2.2.2) hrun2
    simpa [AtomicOp.sha, AtomicOp.args] using this
  rw [hs, h4, hrun]
  refine ⟨h1, h2, h3, rfl, h5, ?_, ?_⟩
  · rw [hlogeq]; exact hcalls.1
  · rw [hlogeq]; exact hcalls.2

/-- Witness for C11: a leader stops while its store is down. -/
theorem Stop_release_fails_witness :
    (Stop (traced replayStore) demoScripts { now := 4, draw := 0 }
        { demoLeader demoImpl [] with
          redis := ({ evals := [.error (.new "faulty client is faulty")], loads := [],
                      loaded := [] }, []) }).1
      = some (.new "faulty client is faulty") ∧
    (Stop (traced replayStore) demoScripts { now := 4, draw := 0 }
        { demoLeader demoImpl [] with
          redis := ({ evals := [.error (.new "faulty client is faulty")], loads := [],
                      loaded := [] }, []) }).2.events = [Event.promote 0] ∧
    (Stop (traced replayStore) demoScripts { now := 4, draw := 0 }
        { demoLeader demoImpl [] with
          redis := ({ evals := [.error (.new "faulty client is faulty")], loads := [],
                      loaded := [] }, []) }).2.i.leading = true ∧
    (Stop (traced replayStore) demoScripts { now := 4, draw := 0 }
        { demoLeader demoImpl [] with
          redis := ({ evals := [.error (.new "faulty client is faulty")], loads := [],
                      loaded := [] }, []) }).2.i.running = true ∧
    (Stop (traced replayStore) demoScripts { now := 4, draw := 0 }
        { demoLeader demoImpl [] with
          redis := ({ evals := [.error (.new "faulty client is faulty")], loads := [],
                      loaded := [] }, []) }).2.redis
      = ({ evals := [], loads := [], loaded := [] },
         [Call.evalSha (atomicDeleteSHA demoScripts) ["leader:test1"] [RedisArg.str "me"]]) ∧
    (([Call.evalSha (atomicDeleteSHA demoScripts) ["leader:test1"]
        [RedisArg.str "me"]]).filter Call.isEvalSha).length ≤ 2 ∧
    ∀ c ∈ [Call.evalSha (atomicDeleteSHA demoScripts) ["leader:test1"] [RedisArg.str "me"]],
      c.isEvalSha = true →
      c = Call.evalSha (atomicDeleteSHA demoScripts) ["leader:test1"] [RedisArg.str "me"] :=
  Stop_release_fails replayStore demoScripts { now := 4, draw := 0 }
    { demoLeader demoImpl [] with
      redis := ({ evals := [.error (.new "faulty client is faulty")], loads := [],
                  loaded := [] }, []) }
    false (.new "faulty client is faulty")
    ({ evals := [], loads := [], loaded := [] },
     [Call.evalSha (atomicDeleteSHA demoScripts) ["leader:test1"] [RedisArg.str "me"]])
    rfl rfl (by rw [atomicDelete, recoverScriptFlush_unroll]; rfl)

/-! ## Key derivation -/

theorem sha1Sum_length (msg : List UInt8) : (sha1Sum msg).length = 20 := by
  simp [sha1Sum, wordBytes]

theorem base32Char_ne_pad (n : Nat) : base32Char n ≠ '=' := by
  have h : ∀ k, k < 32 → base32Alphabet.getD k 'A' ≠ '=' := by decide
  exact h (n % 32) (Nat.mod_lt n (by norm_num))

theorem base32Group_full (b0 b1 b2 b3 b4 : UInt8) :
    (base32Group [b0, b1, b2, b3, b4]).length = 8 ∧
    '=' ∉ base32Group [b0, b1, b2, b3, b4] := by
  constructor
  · simp [base32Group]
  · intro hmem
    simp only [base32Group, List.length_cons, List.length_nil, List.mem_append,
      List.replicate, Nat.sub_self] at hmem
    rcases hmem with hmem | hmem
    · obtain ⟨c, hc, heq⟩ := List.mem_map.mp (List.mem_of_mem_take hmem)
      exact base32Char_ne_pad _ heq
    · simp at hmem

theorem base32Encode_full (n : Nat) :
    ∀ bs : List UInt8, bs.length = 5 * n →
      (base32Encode bs).length = 8 * n ∧ '=' ∉ base32Encode bs := by
  induction n with
  | zero =>
    intro bs h
    have : bs = [] := List.length_eq_zero.mp (by simpa using h)
    subst this
    exact ⟨rfl, by simp [base32Encode]⟩
  | succ n ih =>
    intro bs h
    match bs, h with
    | b0 :: b1 :: b2 :: b3 :: b4 :: rest, h =>
      have hrest : rest.length = 5 * n := by
        simp only [List.length_cons] at h
        omega
      obtain ⟨hl, hp⟩ := ih rest hrest
      obtain ⟨hgl, hgp⟩ := base32Group_full b0 b1 b2 b3 b4
      rw [base32Encode]
      refine ⟨by rw [List.length_append, hgl, hl]; omega, ?_⟩
      intro hmem
      rcases List.mem_append.mp hmem with hmem | hmem
      · exact hgp hmem
      · exact hp hmem
    | [], h => simp at h
    | [_], h => simp at h; omega
    | [_, _], h => simp at h; omega
    | [_, _, _], h => simp at h; omega
    | [_, _, _, _], h => simp at h; omega

/-- C14: for every name, `makeKey name` is `"leader:"` followed by the standard base32
encoding of the SHA-1 digest of the name's bytes, and that digest has 20 bytes; so the key
begins with `"leader:"`, is 39 characters long, holds no `=` padding, and equal names give
equal keys. -/
theorem makeKey_derivation (name : String) :
    makeKey name = "leader:" ++ String.mk (base32Encode (sha1Sum (stringBytes name))) ∧
    (sha1Sum (stringBytes name)).length = 20 ∧
    stringsHasPrefix (makeKey name) "leader:" = true ∧
    (makeKey name).length = 39 ∧
    '=' ∉ (makeKey name).data ∧
    ∀ other : String, other = name → makeKey other = makeKey name := by
  obtain ⟨hl, hp⟩ := base32Encode_full 4 (sha1Sum (stringBytes name)) (sha1Sum_length _)
  refine ⟨rfl, sha1Sum_length _, ?_, ?_, ?_, fun other h => by rw [h]⟩
  · simp [stringsHasPrefix, makeKey, String.data_append]
  · simp [makeKey, String.length, String.data_append, hl]
  · intro hmem
    simp only [makeKey, String.data_append, List.mem_append] at hmem
    rcases hmem with hmem | hmem
    · revert hmem
      decide
    · exact hp hmem

set_option maxRecDepth 100000 in
/-- The key of the test's name, as Go computes it; this also checks `sha1Sum` and
`base32Encode` on a known value. -/
theorem makeKey_test1 : makeKey "test1" = "leader:WRCKYBTBH7ENMN4VX2NNBPVPKUARSNVM" := by
  rfl

set_option maxRecDepth 100000 in
/-- The FIPS 180-1 test vector: the digest of `"abc"`. -/
theorem sha1Sum_abc :
    sha1Sum (stringBytes "abc") =
      [0xa9, 0x99, 0x3e, 0x36, 0x47, 0x06, 0x81, 0x6a, 0xba, 0x3e,
       0x25, 0x71, 0x78, 0x50, 0xc2, 0x6c, 0x9c, 0xd0, 0xd8, 0x9d] := by
  rfl

/-! ## Construction and start -/

theorem wrapInt64_of_fits (x : Int) (hlo : -2 ^ 63 ≤ x) (hhi : x < 2 ^ 63) :
    wrapInt64 x = x := by
  unfold wrapInt64
  have h : (x + 2 ^ 63) % 2 ^ 64 = x + 2 ^ 63 :=
    Int.emod_eq_of_lt (by omega) (by omega)
  omega

/-- C12 (amended): `NewLeader` panics on every configuration whose `TTL` is zero and on every
one whose `Wait` is zero; on every other configuration (so whenever `TTL > 0` and `Wait > 0`)
it returns an engine that is not running and not leading, with no pending task and no event,
whose `ttl` and `wait` are the configured ones, whose key is `makeKey opts.Key`, and whose
`jitter` is the `int64` product `time.Duration(JitterMS) * time.Millisecond`. That product is
`JitterMS` milliseconds when `-9223372036854 ≤ JitterMS ≤ 9223372036854`; outside that range
it has wrapped around and is a different duration. -/
theorem NewLeader_construction {σ : Type} (opts : Opts) (randomBytes : List UInt8) (s : σ) :
    NewLeader { opts with TTL := 0 } randomBytes s = none ∧
    NewLeader { opts with Wait := 0 } randomBytes s = none ∧
    NewLeader opts randomBytes s =
      (if opts.TTL = 0 ∨ opts.Wait = 0 then none
       else some {
         i := {
           key := makeKey opts.Key
           id := clientID randomBytes
           ttl := opts.TTL
           wait := opts.Wait
           jitter := wrapInt64 (opts.JitterMS * Millisecond)
           running := false
           leading := false
           cancelRenewRun := none
           cancelElectionRun := none }
         redis := s
         events := []
         timers := []
         goroutines := [] }) ∧
    ((NewLeader opts randomBytes s).isSome = true ↔ opts.TTL ≠ 0 ∧ opts.Wait ≠ 0) ∧
    (∀ w : World σ, NewLeader opts randomBytes s = some w →
      w.i.running = false ∧ w.i.leading = false ∧ w.i.ttl = opts.TTL ∧ w.i.wait = opts.Wait ∧
      w.i.key = makeKey opts.Key ∧
      (-9223372036854 ≤ opts.JitterMS → opts.JitterMS ≤ 9223372036854 →
        w.i.jitter = opts.JitterMS * 1000000) ∧
      (opts.JitterMS < -9223372036854 ∨ 9223372036854 < opts.JitterMS →
        w.i.jitter ≠ opts.JitterMS * 1000000)) := by
  have hnew : NewLeader opts randomBytes s =
      (if opts.TTL = 0 ∨ opts.Wait = 0 then none
       else some {
         i := {
           key := makeKey opts.Key
           id := clientID randomBytes
           ttl := opts.TTL
           wait := opts.Wait
           jitter := wrapInt64 (opts.JitterMS * Millisecond)
           running := false
           leading := false
           cancelRenewRun := none
           cancelElectionRun := none }
         redis := s
         events := []
         timers := []
         goroutines := [] }) := by
    by_cases h : opts.TTL = 0 <;> by_cases h2 : opts.Wait = 0 <;> simp [NewLeader, h, h2]
  refine ⟨by simp [NewLeader], ?_, hnew, ?_, ?_⟩
  · by_cases h : opts.TTL = 0 <;> simp [NewLeader, h]
  · by_cases h : opts.TTL = 0 <;> by_cases h2 : opts.Wait = 0 <;> simp [NewLeader, h, h2]
  · intro w hw
    rw [hnew] at hw
    split at hw
    · exact absurd hw (by simp)
    · have hw2 := (Option.some.inj hw).symm
      subst hw2
      refine ⟨rfl, rfl, rfl, rfl, rfl, ?_, ?_⟩
      · intro hlo hhi
        have h1 : -2 ^ 63 ≤ opts.JitterMS * 1000000 := by omega
        have h2 : opts.JitterMS * 1000000 < 2 ^ 63 := by omega
        exact wrapInt64_of_fits _ h1 h2
      · intro hout heq
        have hrange : -2 ^ 63 ≤ wrapInt64 (opts.JitterMS * Millisecond) ∧
            wrapInt64 (opts.JitterMS * Millisecond) < 2 ^ 63 := by
          unfold wrapInt64
          have hm := Int.emod_nonneg (opts.JitterMS * Millisecond + 2 ^ 63)
            (by norm_num : (2 : Int) ^ 64 ≠ 0)
          have hm2 := Int.emod_lt_of_pos (opts.JitterMS * Millisecond + 2 ^ 63)
            (by norm_num : (0 : Int) < 2 ^ 64)
          constructor <;> omega
        have heq2 : wrapInt64 (opts.JitterMS * Millisecond) = opts.JitterMS * 1000000 := heq
        rw [heq2] at hrange
        omega

/-- Witness for C12: the configuration of the test (`JitterMS = 50`) gives an engine with a
jitter of 50 milliseconds. -/
theorem NewLeader_construction_witness :
    NewLeader demoOpts [] () = some {
      i := {
        key := makeKey demoOpts.Key
        id := clientID []
        ttl := 1000000000
        wait := 2000000000
        jitter := wrapInt64 (50 * Millisecond)
        running := false
        leading := false
        cancelRenewRun := none
        cancelElectionRun := none }
      redis := ()
      events := []
      timers := []
      goroutines := [] } ∧
    wrapInt64 (50 * Millisecond) = 50 * 1000000 :=
  ⟨rfl, ((NewLeader_construction demoOpts [] ()).2.2.2.2 _ rfl).2.2.2.2.2.1
    (by decide) (by decide)⟩

/-- Counterexample to C12 as stated: `TTL = 1s`, `Wait = 2s` (both positive) and
`JitterMS = 9223372036855`. `NewLeader` returns an engine, and its jitter is
-9223372036854551616ns, which is not 9223372036855 milliseconds (and is negative). -/
theorem NewLeader_jitter_overflows :
    (0 : Int) < ({ demoOpts with JitterMS := 9223372036855 } : Opts).TTL ∧
    (0 : Int) < ({ demoOpts with JitterMS := 9223372036855 } : Opts).Wait ∧
    (NewLeader { demoOpts with JitterMS := 9223372036855 } [] ()).map (fun w => w.i.jitter)
      = some (-9223372036854551616) ∧
    (-9223372036854551616 : Int) ≠ 9223372036855 * Millisecond := by
  refine ⟨by decide, by decide, by decide, by decide⟩

/-- The engine of the test: `TTL = 1s`, `Wait = 2s`, `JitterMS = 50`, `Key = "test1"`. -/
theorem NewLeader_test :
    (NewLeader { TTL := 1000000000, Wait := 2000000000, JitterMS := 50, Key := "test1" }
        [] ()).map (fun w => (w.i.ttl, w.i.wait, w.i.jitter, w.i.running, w.i.leading))
      = some (1000000000, 2000000000, 50000000, false, false) := by
  decide

/-- C13: `Start` on an engine that is not running sets `running`, launches exactly one
election attempt and changes nothing else (`leading` stays as it was: false on a fresh or
stopped engine); `Start` on a running engine changes nothing and launches nothing, so a second
`Start` right after the first is a no-op. -/
theorem Start_once {σ : Type} (w : World σ) :
    Start { w with i := { w.i with running := false } }
      = { w with i := { w.i with running := true },
                 goroutines := w.goroutines ++ [Task.election] } ∧
    (Start { w with i := { w.i with running := false } }).i.running = true ∧
    (Start { w with i := { w.i with running := false } }).i.leading = w.i.leading ∧
    (Start { w with i := { w.i with running := false, leading := false } }).i.leading
      = false ∧
    (Start { w with i := { w.i with running := false } }).goroutines
      = w.goroutines ++ [Task.election] ∧
    Start { w with i := { w.i with running := true } }
      = { w with i := { w.i with running := true } } ∧
    Start (Start { w with i := { w.i with running := false } })
      = Start { w with i := { w.i with running := false } } := by
  refine ⟨?_, ?_, ?_, ?_, ?_, ?_, ?_⟩ <;> simp [Start]

/-! ## Tasks that run after resignation -/

theorem atomicSet_traced_first_call {σ : Type} (r : RedisCompatible σ) (sc : Scripts) (s : σ)
    (key id : String) (timeout : Int) :
    (atomicSet (traced r) sc (s, []) key id timeout).2.2.2.head?
      = some (Call.evalSha (atomicSetSHA sc) [key]
          [RedisArg.str id, RedisArg.int64 (Milliseconds timeout)]) := by
  have hrun := AtomicOp.run_eq (traced r) sc (s, []) key id timeout AtomicOp.set
  have heq : AtomicOp.run (traced r) sc (s, []) key id timeout AtomicOp.set
      = atomicSet (traced r) sc (s, []) key id timeout := rfl
  rw [heq] at hrun
  rw [hrun]
  simp only [AtomicOp.sha, AtomicOp.args]
  rcases h1 : r.EvalSha s (atomicSetSHA sc) [key]
      [RedisArg.str id, RedisArg.int64 (Milliseconds timeout)] with ⟨e | v, s1⟩
  · by_cases hp : hasPrefix e "NOSCRIPT" = true
    · rcases h2 : installScripts r sc s1 with ⟨_ | installErr, s2⟩
      · rw [guarded_retry r sc s s1 s2 _ _ _ e h1 hp h2]; rfl
      · obtain ⟨n, -, -, h⟩ := guarded_install_fails r sc s s1 s2 _ _ _ e installErr h1 hp h2
        rw [h]; rfl
    · have hp2 : hasPrefix e "NOSCRIPT" = false := by simpa using hp
      rw [guarded_other_error r sc s s1 _ _ _ e h1 hp2]; rfl
  · rw [guarded_first_ok r sc s s1 _ _ _ v h1]; rfl

theorem atomicRenew_traced_first_call {σ : Type} (r : RedisCompatible σ) (sc : Scripts)
    (s : σ) (key id : String) (timeout : Int) :
    (atomicRenew (traced r) sc (s, []) key id timeout).2.2.2.head?
      = some (Call.evalSha (atomicRenewSHA sc) [key]
          [RedisArg.str id, RedisArg.int64 (Milliseconds timeout)]) := by
  have hrun := AtomicOp.run_eq (traced r) sc (s, []) key id timeout AtomicOp.renew
  have heq : AtomicOp.run (traced r) sc (s, []) key id timeout AtomicOp.renew
      = atomicRenew (traced r) sc (s, []) key id timeout := rfl
  rw [heq] at hrun
  rw [hrun]
  simp only [AtomicOp.sha, AtomicOp.args]
  rcases h1 : r.EvalSha s (atomicRenewSHA sc) [key]
      [RedisArg.str id, RedisArg.int64 (Milliseconds timeout)] with ⟨e | v, s1⟩
  · by_cases hp : hasPrefix e "NOSCRIPT" = true
    · rcases h2 : installScripts r sc s1 with ⟨_ | installErr, s2⟩
      · rw [guarded_retry r sc s s1 s2 _ _ _ e h1 hp h2]; rfl
      · obtain ⟨n, -, -, h⟩ := guarded_install_fails r sc s s1 s2 _ _ _ e installErr h1 hp h2
        rw [h]; rfl
    · have hp2 : hasPrefix e "NOSCRIPT" = false := by simpa using hp
      rw [guarded_other_error r sc s s1 _ _ _ e h1 hp2]; rfl
  · rw [guarded_first_ok r sc s s1 _ _ _ v h1]; rfl

theorem runElection_ignores_running {σ : Type} (r : RedisCompatible σ) (sc : Scripts)
    (amb : Ambient) (w : World σ) (b : Bool) :
    runElection r sc amb { w with i := { w.i with running := b } }
      = (runElection r sc amb w).map
          (fun w1 => { w1 with i := { w1.i with running := b } }) := by
  simp only [runElection]
  rcases atomicSet r sc w.redis w.i.key w.i.id w.i.ttl with ⟨set, _ | e, s1⟩
  · cases set
    · rcases w.i.leading <;> rcases w.i.cancelRenewRun with _ | c <;> simp [runAfter]
    · simp only [if_true]
      rcases randomJitter amb.draw w.i.jitter with _ | j <;> simp [runAfter]
  · simp [runAfter]

theorem renew_ignores_running {σ : Type} (r : RedisCompatible σ) (sc : Scripts)
    (amb : Ambient) (w : World σ) (b : Bool) :
    renew r sc amb { w with i := { w.i with running := b } }
      = (renew r sc amb w).map
          (fun w1 => { w1 with i := { w1.i with running := b } }) := by
  simp only [renew]
  rcases atomicRenew r sc w.redis w.i.key w.i.id w.i.ttl with ⟨still, _ | e, s1⟩
  · cases still
    · rcases w.i.leading <;> simp [runAfter]
    · simp only [if_true]
      rcases randomJitter amb.draw w.i.jitter with _ | j <;> simp [runAfter]
  · rcases w.i.leading <;> simp [runAfter]

theorem guarded_first_call {σ : Type} (r : RedisCompatible σ) (sc : Scripts) (s : σ)
    (log : List Call) (sha : String) (keys : List String) (args : List RedisArg) :
    ∃ rest,
      (recoverScriptFlush (traced r) sc (evalShaStatus (traced r) sha keys args)
        (s, log) false).2.1.2 = log ++ Call.evalSha sha keys args :: rest := by
  rw [recoverScriptFlush_unroll, evalShaStatus_traced]
  rcases h1 : r.EvalSha s sha keys args with ⟨e | v, s1⟩
  · by_cases hp : hasPrefix e "NOSCRIPT" = true
    · obtain ⟨n, -, -, hinst, -⟩ :=
        installScripts_traced r sc s1 (log ++ [Call.evalSha sha keys args])
      simp only [hp, if_true, hinst]
      rcases installScripts r sc s1 with ⟨_ | installErr, s2⟩
      · exact ⟨(installCalls sc).take n ++ [Call.evalSha sha keys args], by
          simp [evalShaStatus_traced]⟩
      · exact ⟨(installCalls sc).take n, by simp⟩
    · exact ⟨[], by simp [hp]⟩
  · exact ⟨[], by cases v <;> simp⟩

theorem atomicSet_traced_log {σ : Type} (r : RedisCompatible σ) (sc : Scripts)
    (s : σ × List Call) (key id : String) (timeout : Int) :
    ∃ rest, (atomicSet (traced r) sc s key id timeout).2.2.2
      = s.2 ++ Call.evalSha (atomicSetSHA sc) [key]
          [RedisArg.str id, RedisArg.int64 (Milliseconds timeout)] :: rest :=
  guarded_first_call r sc s.1 s.2 (atomicSetSHA sc) [key]
    [RedisArg.str id, RedisArg.int64 (Milliseconds timeout)]

theorem atomicRenew_traced_log {σ : Type} (r : RedisCompatible σ) (sc : Scripts)
    (s : σ × List Call) (key id : String) (timeout : Int) :
    ∃ rest, (atomicRenew (traced r) sc s key id timeout).2.2.2
      = s.2 ++ Call.evalSha (atomicRenewSHA sc) [key]
          [RedisArg.str id, RedisArg.int64 (Milliseconds timeout)] :: rest :=
  guarded_first_call r sc s.1 s.2 (atomicRenewSHA sc) [key]
    [RedisArg.str id, RedisArg.int64 (Milliseconds timeout)]

theorem runElection_calls_store {σ : Type} (r : RedisCompatible σ) (sc : Scripts)
    (amb : Ambient) (w w1 : World (σ × List Call))
    (h : runElection (traced r) sc amb w = some w1) :
    w1.i.running = w.i.running ∧
    w1.timers.length = w.timers.length + 1 ∧
    (w1.i.cancelElectionRun = some w.timers.length ∨
      w1.i.cancelRenewRun = some w.timers.length) ∧
    ∃ rest, w1.redis.2 = w.redis.2 ++ Call.evalSha (atomicSetSHA sc) [w.i.key]
      [RedisArg.str w.i.id, RedisArg.int64 (Milliseconds w.i.ttl)] :: rest := by
  obtain ⟨rest, hlog⟩ := atomicSet_traced_log r sc w.redis w.i.key w.i.id w.i.ttl
  simp only [runElection] at h
  rcases hset : atomicSet (traced r) sc w.redis w.i.key w.i.id w.i.ttl with ⟨set, _ | e, s1⟩
  · rw [hset] at h hlog
    cases set
    · rcases hl : w.i.leading <;> rcases hc : w.i.cancelRenewRun with _ | c <;>
        simp [hl, hc, runAfter] at h <;> subst h <;>
        exact ⟨rfl, by simp [length_callCanceller], by simp [length_callCanceller],
          rest, hlog⟩
    · simp only [if_true] at h
      rcases hj : randomJitter amb.draw w.i.jitter with _ | j
      · simp [hj] at h
      · simp [hj, runAfter] at h
        subst h
        exact ⟨rfl, by simp, by simp, rest, hlog⟩
  · rw [hset] at h hlog
    simp [runAfter] at h
    subst h
    exact ⟨rfl, by simp, by simp, rest, hlog⟩

theorem renew_calls_store {σ : Type} (r : RedisCompatible σ) (sc : Scripts)
    (amb : Ambient) (w w1 : World (σ × List Call))
    (h : renew (traced r) sc amb w = some w1) :
    w1.i.running = w.i.running ∧
    (w.i.leading = false → w1.i.leading = false) ∧
    w1.timers.length = w.timers.length + 1 ∧
    (w1.i.cancelElectionRun = some w.timers.length ∨
      w1.i.cancelRenewRun = some w.timers.length) ∧
    ∃ rest, w1.redis.2 = w.redis.2 ++ Call.evalSha (atomicRenewSHA sc) [w.i.key]
      [RedisArg.str w.i.id, RedisArg.int64 (Milliseconds w.i.ttl)] :: rest := by
  obtain ⟨rest, hlog⟩ := atomicRenew_traced_log r sc w.redis w.i.key w.i.id w.i.ttl
  simp only [renew] at h
  rcases hren : atomicRenew (traced r) sc w.redis w.i.key w.i.id w.i.ttl with
    ⟨still, _ | e, s1⟩
  · rw [hren] at h hlog
    cases still
    · rcases hl : w.i.leading <;> simp [hl, runAfter] at h <;> subst h <;>
        exact ⟨rfl, by simp, by simp, by simp, rest, hlog⟩
    · simp only [if_true] at h
      rcases hj : randomJitter amb.draw w.i.jitter with _ | j
      · simp [hj] at h
      · simp [hj, runAfter] at h
        subst h
        exact ⟨rfl, by simp, by simp, by simp, rest, hlog⟩
  · rw [hren] at h hlog
    rcases hl : w.i.leading <;> simp [hl, runAfter] at h <;> subst h <;>
      exact ⟨rfl, by simp, by simp, by simp, rest, hlog⟩

theorem Stop_succeeded {σ : Type} (r : RedisCompatible σ) (sc : Scripts) (amb : Ambient)
    (w w1 : World σ) (hrun : w.i.running = true) (hstop : Stop r sc amb w = (none, w1)) :
    w1.i.running = false ∧ w1.i.leading = false ∧ w1.timers = (voidTimers w).timers := by
  have hs : resign r sc amb w = (none, w1) := by simpa [Stop, hrun] using hstop
  simp only [resign] at hs
  rcases hdel : atomicDelete r sc (voidTimers w).redis (voidTimers w).i.key (voidTimers w).i.id
    with ⟨wasOwner, _ | e, s1⟩
  · rw [hdel] at hs
    cases wasOwner <;> simp at hs <;> subst hs <;> exact ⟨rfl, rfl, rfl⟩
  · rw [hdel] at hs
    simp at hs

theorem voidTimers_cancels {σ : Type} (w : World σ) :
    (∀ c, w.i.cancelElectionRun = some c → c < w.timers.length →
      isCancelled (voidTimers w).timers c = true) ∧
    (∀ c, w.i.cancelElectionRun = none → w.i.cancelRenewRun = some c → c < w.timers.length →
      isCancelled (voidTimers w).timers c = true) := by
  constructor
  · intro c he hc
    simp only [voidTimers, he]
    exact isCancelled_callCanceller w.timers c hc
  · intro c he hr hc
    simp only [voidTimers, he, hr]
    exact isCancelled_callCanceller w.timers c hc

/-- C15, the code at the failing input. Let `Stop` succeed on a running engine. It has called
the canceller of the pending task, and the engine is neither running nor leading. Yet an
election attempt or a renewal that had already fired, and so runs after this resignation,
goes ahead, because neither `runElection` nor `renew` reads `running`: the attempt calls
`EvalSha` with the set script (Acquire) as its first store call and schedules a further task;
when Acquire answers `acquired = true` it sends a promotion, sets `leading` back to true and
schedules a renewal, all with `running = false`. A stale renewal calls `EvalSha` with the
renew script (Renew) and schedules a further task as well; it leaves `leading` false. -/
theorem election_after_Stop {σ : Type} (r : RedisCompatible σ) (sc : Scripts)
    (amb1 amb2 : Ambient) (w w1 : World (σ × List Call))
    (hrun : w.i.running = true)
    (hstop : Stop (traced r) sc amb1 w = (none, w1)) :
    w1.i.running = false ∧ w1.i.leading = false ∧
    (∀ c, w.i.cancelElectionRun = some c → c < w.timers.length →
      isCancelled w1.timers c = true) ∧
    (∀ c, w.i.cancelElectionRun = none → w.i.cancelRenewRun = some c → c < w.timers.length →
      isCancelled w1.timers c = true) ∧
    (∀ w2, runElection (traced r) sc amb2 w1 = some w2 →
      w2.i.running = false ∧
      w2.timers.length = w1.timers.length + 1 ∧
      (w2.i.cancelElectionRun = some w1.timers.length ∨
        w2.i.cancelRenewRun = some w1.timers.length) ∧
      ∃ rest, w2.redis.2 = w1.redis.2 ++ Call.evalSha (atomicSetSHA sc) [w1.i.key]
        [RedisArg.str w1.i.id, RedisArg.int64 (Milliseconds w1.i.ttl)] :: rest) ∧
    (∀ (s1 : σ × List Call) (j : Int),
      atomicSet (traced r) sc w1.redis w1.i.key w1.i.id w1.i.ttl = (true, none, s1) →
      randomJitter amb2.draw w1.i.jitter = some j →
      ∃ w2, runElection (traced r) sc amb2 w1 = some w2 ∧
        w2.i.running = false ∧
        w2.i.leading = true ∧
        w2.events = w1.events ++ [Event.promote amb2.now] ∧
        w2.i.cancelRenewRun = some w1.timers.length ∧
        w2.timers = w1.timers ++ [{ delay := renewDelay w1.i.ttl j, task := Task.renewal,
                                    cancelled := false }]) ∧
    (∀ w2, renew (traced r) sc amb2 w1 = some w2 →
      w2.i.running = false ∧
      w2.i.leading = false ∧
      w2.timers.length = w1.timers.length + 1 ∧
      (w2.i.cancelElectionRun = some w1.timers.length ∨
        w2.i.cancelRenewRun = some w1.timers.length) ∧
      ∃ rest, w2.redis.2 = w1.redis.2 ++ Call.evalSha (atomicRenewSHA sc) [w1.i.key]
        [RedisArg.str w1.i.id, RedisArg.int64 (Milliseconds w1.i.ttl)] :: rest) := by
  obtain ⟨hr, hl, ht⟩ := Stop_succeeded (traced r) sc amb1 w w1 hrun hstop
  obtain ⟨hc1, hc2⟩ := voidTimers_cancels w
  refine ⟨hr, hl, ?_, ?_, ?_, ?_, ?_⟩
  · intro c he hc
    rw [ht]
    exact hc1 c he hc
  · intro c he hrn hc
    rw [ht]
    exact hc2 c he hrn hc
  · intro w2 h2
    obtain ⟨h1, h3, h4, h5⟩ := runElection_calls_store r sc amb2 w1 w2 h2
    exact ⟨by rw [h1, hr], h3, h4, h5⟩
  · intro s1 j hset hj
    simp only [runElection, hset, hj, runAfter]
    exact ⟨_, rfl, hr, rfl, rfl, rfl, rfl⟩
  · intro w2 h2
    obtain ⟨h1, h3, h4, h5, h6⟩ := renew_calls_store r sc amb2 w1 w2 h2
    exact ⟨by rw [h1, hr], h3 hl, h4, h5, h6⟩

/-- Witness for C15: the candidate `staleCandidate` is stopped with success (its retry, timer
0, is cancelled); the retry had already fired and runs after the resignation. -/
theorem election_after_Stop_witness :
    isCancelled staleStopped.timers 0 = true ∧
    ∃ w2, runElection (traced replayStore) demoScripts { now := 3, draw := 7 } staleStopped
        = some w2 ∧
      w2.i.running = false ∧
      w2.i.leading = true ∧
      w2.events = staleStopped.events ++ [Event.promote 3] ∧
      w2.i.cancelRenewRun = some staleStopped.timers.length ∧
      w2.timers = staleStopped.timers ++
        [{ delay := renewDelay staleStopped.i.ttl 7000000, task := Task.renewal,
           cancelled := false }] :=
  ⟨(election_after_Stop replayStore demoScripts { now := 2, draw := 0 } { now := 3, draw := 7 }
      staleCandidate staleStopped rfl
      (by simp only [Stop, resign, atomicDelete, recoverScriptFlush_unroll]; rfl)).2.2.1
      0 rfl (by decide),
   (election_after_Stop replayStore demoScripts { now := 2, draw := 0 } { now := 3, draw := 7 }
      staleCandidate staleStopped rfl
      (by simp only [Stop, resign, atomicDelete, recoverScriptFlush_unroll]; rfl)).2.2.2.2.2.1
      ({ evals := [], loads := [], loaded := [] },
        [Call.evalSha (atomicSetSHA demoScripts) ["leader:test1"]
           [RedisArg.str "me", RedisArg.int64 1000],
         Call.evalSha (atomicDeleteSHA demoScripts) ["leader:test1"] [RedisArg.str "me"],
         Call.evalSha (atomicSetSHA demoScripts) ["leader:test1"]
           [RedisArg.str "me", RedisArg.int64 1000]])
      7000000
      (by rw [atomicSet, recoverScriptFlush_unroll]; rfl)
      (by decide)⟩

/-- The failing input of C15 run through: an engine is started, loses its first election (a
retry is scheduled) and is stopped with success, which cancels the retry; the retry had
already fired and runs after the resignation: it calls `atomicSet`, gets `acquired = true`,
sends a promotion, sets `leading` back to true and schedules a renewal, all with
`running = false`. -/
theorem stale_election_reacquires :
    runElection (traced replayStore) demoScripts { now := 1, draw := 0 }
      (Start (demoTraced { demoImpl with running := false }
        [.ok (.int64 0), .ok (.int64 0), .ok (.int64 1)])) = some staleCandidate ∧
    Stop (traced replayStore) demoScripts { now := 2, draw := 0 } staleCandidate
      = (none, staleStopped) ∧
    staleStopped.i.running = false ∧
    staleStopped.i.leading = false ∧
    isCancelled staleStopped.timers 0 = true ∧
    (runElection (traced replayStore) demoScripts { now := 3, draw := 7 } staleStopped).map
        (fun w => (w.i.running, w.i.leading, w.events, w.i.cancelRenewRun, w.timers, w.redis.2))
      = some (false, true, [Event.promote 3], some 1,
          [{ delay := 2000000000, task := Task.election, cancelled := true },
           { delay := 507000000, task := Task.renewal, cancelled := false }],
          [Call.evalSha (atomicSetSHA demoScripts) ["leader:test1"]
             [RedisArg.str "me", RedisArg.int64 1000],
           Call.evalSha (atomicDeleteSHA demoScripts) ["leader:test1"] [RedisArg.str "me"],
           Call.evalSha (atomicSetSHA demoScripts) ["leader:test1"]
             [RedisArg.str "me", RedisArg.int64 1000]]) := by
  refine ⟨?_, ?_, rfl, rfl, rfl, ?_⟩
  · simp only [runElection, atomicSet, recoverScriptFlush_unroll]; rfl
  · simp only [Stop, resign, atomicDelete, recoverScriptFlush_unroll]; rfl
  · simp only [runElection, atomicSet, recoverScriptFlush_unroll]; rfl

/-! ## Cancelling on resignation -/

theorem resign_tasks {σ : Type} (r : RedisCompatible σ) (sc : Scripts) (amb : Ambient)
    (w : World σ) :
    (resign r sc amb w).2.timers = (voidTimers w).timers ∧
    (resign r sc amb w).2.i.cancelElectionRun = (voidTimers w).i.cancelElectionRun ∧
    (resign r sc amb w).2.i.cancelRenewRun = (voidTimers w).i.cancelRenewRun ∧
    (resign r sc amb w).2.goroutines = (voidTimers w).goroutines := by
  simp only [resign]
  rcases atomicDelete r sc (voidTimers w).redis (voidTimers w).i.key (voidTimers w).i.id
    with ⟨wasOwner, _ | e, s1⟩
  · cases wasOwner <;> simp
  · simp

/-- C18, the code at the failing input: when `cancelElectionRun` is set, `Stop` on a running
engine calls the election canceller and no other, and leaves `cancelElectionRun` set; it is
`cancelRenewRun` that comes out nil, so a renewal canceller that was set is dropped without
being called. -/
theorem Stop_leaves_election_reference {σ : Type} (r : RedisCompatible σ) (sc : Scripts)
    (amb : Ambient) (w : World σ) (c : Nat)
    (hrun : w.i.running = true) (hset : w.i.cancelElectionRun = some c) :
    (Stop r sc amb w).2.i.cancelElectionRun = some c ∧
    (Stop r sc amb w).2.i.cancelRenewRun = none ∧
    (Stop r sc amb w).2.timers = callCanceller w.timers c := by
  obtain ⟨h1, h2, h3, -⟩ := resign_tasks r sc amb w
  have hs : Stop r sc amb w = resign r sc amb w := by simp [Stop, hrun]
  rw [hs, h1, h2, h3]
  simp [voidTimers, hset]

/-- Witness for C18: an engine that holds both references is stopped: the election task
(timer 1) is cancelled and its reference stays, the renewal task (timer 0) is not cancelled. -/
theorem Stop_leaves_election_reference_witness :
    ((Stop replayStore demoScripts { now := 2, draw := 0 }
        { demoWorld { demoImpl with cancelElectionRun := some 1, cancelRenewRun := some 0 }
            [.ok (.int64 1)] with
          timers := [{ delay := 500000000, task := Task.renewal, cancelled := false },
                     { delay := 2000000000, task := Task.election, cancelled := false }] }
        ).2.i.cancelElectionRun = some 1 ∧
     (Stop replayStore demoScripts { now := 2, draw := 0 }
        { demoWorld { demoImpl with cancelElectionRun := some 1, cancelRenewRun := some 0 }
            [.ok (.int64 1)] with
          timers := [{ delay := 500000000, task := Task.renewal, cancelled := false },
                     { delay := 2000000000, task := Task.election, cancelled := false }] }
        ).2.i.cancelRenewRun = none ∧
     (Stop replayStore demoScripts { now := 2, draw := 0 }
        { demoWorld { demoImpl with cancelElectionRun := some 1, cancelRenewRun := some 0 }
            [.ok (.int64 1)] with
          timers := [{ delay := 500000000, task := Task.renewal, cancelled := false },
                     { delay := 2000000000, task := Task.election, cancelled := false }] }
        ).2.timers
      = callCanceller
          [{ delay := 500000000, task := Task.renewal, cancelled := false },
           { delay := 2000000000, task := Task.election, cancelled := false }] 1) ∧
    callCanceller
        [{ delay := 500000000, task := Task.renewal, cancelled := false },
         { delay := 2000000000, task := Task.election, cancelled := false }] 1
      = [{ delay := 500000000, task := Task.renewal, cancelled := false },
         { delay := 2000000000, task := Task.election, cancelled := true }] :=
  ⟨Stop_leaves_election_reference replayStore demoScripts { now := 2, draw := 0 }
      { demoWorld { demoImpl with cancelElectionRun := some 1, cancelRenewRun := some 0 }
          [.ok (.int64 1)] with
        timers := [{ delay := 500000000, task := Task.renewal, cancelled := false },
                   { delay := 2000000000, task := Task.election, cancelled := false }] }
      1 rfl rfl,
    rfl⟩

/-- The failing input of C18 run through: the candidate `staleCandidate` (election retry
pending, no renewal pending) is stopped with success and still holds its election
reference. -/
theorem Stop_candidate_keeps_reference :
    staleCandidate.i.cancelElectionRun = some 0 ∧
    staleCandidate.i.cancelRenewRun = none ∧
    (Stop (traced replayStore) demoScripts { now := 2, draw := 0 } staleCandidate).1 = none ∧
    (Stop (traced replayStore) demoScripts { now := 2, draw := 0 }
      staleCandidate).2.i.cancelElectionRun = some 0 := by
  refine ⟨rfl, rfl, ?_, ?_⟩ <;>
    (simp only [Stop, resign, atomicDelete, recoverScriptFlush_unroll]; rfl)

/-! ## Invariants of reachable states -/

theorem runElection_effect {σ : Type} (r : RedisCompatible σ) (sc : Scripts) (amb : Ambient)
    (w w1 : World σ) (h : runElection r sc amb w = some w1) :
    (w1.i.cancelElectionRun ≠ none ∧ w1.i.cancelRenewRun = w.i.cancelRenewRun ∧
      w1.i.leading = w.i.leading ∧ promotions w1.events = promotions w.events ∧
      demotions w1.events = demotions w.events) ∨
    (w1.i.cancelElectionRun = none ∧ w1.i.cancelRenewRun ≠ none ∧
      w1.i.leading = true ∧ promotions w1.events = promotions w.events + 1 ∧
      demotions w1.events = demotions w.events) ∨
    (w1.i.cancelElectionRun ≠ none ∧ w1.i.cancelRenewRun = none ∧
      w1.i.leading = false ∧ promotions w1.events = promotions w.events ∧
      demotions w1.events = demotions w.events + (if w.i.leading then 1 else 0)) := by
  simp only [runElection] at h
  rcases hset : atomicSet r sc w.redis w.i.key w.i.id w.i.ttl with ⟨set, _ | e, s1⟩
  · rw [hset] at h
    cases set
    · right; right
      rcases hl : w.i.leading <;> rcases hc : w.i.cancelRenewRun with _ | c <;>
        simp [hl, hc, runAfter] at h <;> subst h <;>
        simp [promotions, demotions, List.countP_append, Event.isPromote, Event.isDemote]
    · right; left
      simp only [if_true] at h
      rcases hj : randomJitter amb.draw w.i.jitter with _ | j
      · simp [hj] at h
      · simp [hj, runAfter] at h
        subst h
        simp [promotions, demotions, List.countP_append, Event.isPromote, Event.isDemote]
  · rw [hset] at h
    left
    simp [runAfter] at h
    subst h
    simp [promotions, demotions, List.countP_append, Event.isPromote, Event.isDemote]

theorem renew_effect {σ : Type} (r : RedisCompatible σ) (sc : Scripts) (amb : Ambient)
    (w w1 : World σ) (h : renew r sc amb w = some w1) :
    (w1.i.cancelElectionRun ≠ none ∧ w1.i.cancelRenewRun = none ∧
      w1.i.leading = false ∧ promotions w1.events = promotions w.events ∧
      demotions w1.events = demotions w.events + (if w.i.leading then 1 else 0)) ∨
    (w1.i.cancelElectionRun = w.i.cancelElectionRun ∧ w1.i.cancelRenewRun ≠ none ∧
      w1.i.leading = w.i.leading ∧ promotions w1.events = promotions w.events ∧
      demotions w1.events = demotions w.events) := by
  simp only [renew] at h
  rcases hren : atomicRenew r sc w.redis w.i.key w.i.id w.i.ttl with ⟨still, _ | e, s1⟩
  · rw [hren] at h
    cases still
    · left
      rcases hl : w.i.leading <;> simp [hl, runAfter] at h <;> subst h <;>
        simp [promotions, demotions, List.countP_append, Event.isPromote, Event.isDemote]
    · right
      simp only [if_true] at h
      rcases hj : randomJitter amb.draw w.i.jitter with _ | j
      · simp [hj] at h
      · simp [hj, runAfter] at h
        subst h
        simp
  · rw [hren] at h
    left
    rcases hl : w.i.leading <;> simp [hl, runAfter] at h <;> subst h <;>
      simp [promotions, demotions, List.countP_append, Event.isPromote, Event.isDemote]

theorem voidTimers_references {σ : Type} (w : World σ) :
    (voidTimers w).i.cancelRenewRun = none ∧
    (voidTimers w).i.cancelElectionRun = w.i.cancelElectionRun := by
  unfold voidTimers
  rcases he : w.i.cancelElectionRun with _ | c <;>
    rcases h : w.i.cancelRenewRun with _ | c2 <;> simp [h, he]

theorem Stop_effect {σ : Type} (r : RedisCompatible σ) (sc : Scripts) (amb : Ambient)
    (w : World σ) :
    (w.i.running = false ∧ (Stop r sc amb w).2 = w) ∨
    (w.i.running = true ∧
      (Stop r sc amb w).2.i.cancelRenewRun = none ∧
      (Stop r sc amb w).2.i.cancelElectionRun = w.i.cancelElectionRun ∧
      promotions (Stop r sc amb w).2.events = promotions w.events ∧
      (((atomicDelete r sc w.redis w.i.key w.i.id).2.1 ≠ none ∧
          (Stop r sc amb w).2.i.leading = w.i.leading ∧
          demotions (Stop r sc amb w).2.events = demotions w.events) ∨
        ((atomicDelete r sc w.redis w.i.key w.i.id).2.1 = none ∧
          (Stop r sc amb w).2.i.leading = false ∧
          demotions (Stop r sc amb w).2.events = demotions w.events +
            (if (atomicDelete r sc w.redis w.i.key w.i.id).1 then 1 else 0)))) := by
  rcases hrun : w.i.running
  · left
    exact ⟨rfl, by simp [Stop, hrun]⟩
  · right
    have hs : Stop r sc amb w = resign r sc amb w := by simp [Stop, hrun]
    obtain ⟨-, h2, h3, -⟩ := resign_tasks r sc amb w
    obtain ⟨hv1, hv2⟩ := voidTimers_references w
    rw [hs]
    refine ⟨rfl, by rw [h3, hv1], by rw [h2, hv2], ?_⟩
    rcases hdel : atomicDelete r sc w.redis w.i.key w.i.id with ⟨wasOwner, _ | e, s1⟩
    · obtain ⟨-, he, hl, -, -⟩ := resign_released r sc amb w wasOwner s1 hdel
      rw [he, hl]
      cases wasOwner <;>
        simp [promotions, demotions, List.countP_append, Event.isPromote, Event.isDemote]
    · obtain ⟨-, he, hl, -, -⟩ := resign_failed r sc amb w wasOwner e s1 hdel
      rw [he, hl]
      simp

theorem Start_running {σ : Type} (w : World σ) (h : w.i.running = true) : Start w = w := by
  simp [Start, h]

theorem reach_invariant {σ : Type} (r : RedisCompatible σ) (sc : Scripts)
    (okStop : World σ → Prop) (ph : Phase) (w : World σ) (h : Reach r sc okStop ph w) :
    TasksExclusive w ∧
    (ph = Phase.fresh → w.i.running = false) ∧
    (ph ≠ Phase.started →
      w.i.leading = false ∧ w.i.cancelRenewRun = none ∧ w.i.cancelElectionRun = none) := by
  induction h with
  | init opts randomBytes s w hnew =>
    simp only [NewLeader] at hnew
    by_cases h1 : opts.TTL = 0
    · simp [h1] at hnew
    · by_cases h2 : opts.Wait = 0
      · simp [h1, h2] at hnew
      · simp [h1, h2] at hnew
        subst hnew
        simp [TasksExclusive]
  | start w _ ih =>
    obtain ⟨-, hrun, hq⟩ := ih
    obtain ⟨hl, hr, he⟩ := hq (by decide)
    have hrun := hrun rfl
    simp [Start, hrun, TasksExclusive, hl, hr, he]
  | startAgain ph w _ hrun ih =>
    rw [Start_running w hrun]
    exact ih
  | firstElection amb w w1 _ hstep ih =>
    obtain ⟨-, -, hq⟩ := ih
    obtain ⟨hl, hr, he⟩ := hq (by decide)
    refine ⟨?_, by simp, by simp⟩
    rcases runElection_effect r sc amb w w1 hstep with
      ⟨h1, h2, h3, -, -⟩ | ⟨h1, h2, h3, -, -⟩ | ⟨h1, h2, h3, -, -⟩
    · exact ⟨Or.inr (by rw [h2, hr]), by simp [h2, hr], fun _ => by rw [h3, hl]⟩
    · exact ⟨Or.inl h1, fun _ => h3, fun hne => absurd h1 hne⟩
    · exact ⟨Or.inr h2, fun hne => absurd h2 hne, fun _ => h3⟩
  | election ph amb c w w1 _ hset hstep ih =>
    obtain ⟨⟨hex, -, hel⟩, hfresh, hq⟩ := ih
    have hne : w.i.cancelElectionRun ≠ none := by simp [hset]
    have hl : w.i.leading = false := hel hne
    have hr : w.i.cancelRenewRun = none := by
      rcases hex with h | h
      · exact absurd h hne
      · exact h
    have hph : ph = Phase.started := by
      by_contra hc
      exact hne (hq hc).2.2
    subst hph
    refine ⟨?_, by simp, by simp⟩
    rcases runElection_effect r sc amb w w1 hstep with
      ⟨h1, h2, h3, -, -⟩ | ⟨h1, h2, h3, -, -⟩ | ⟨h1, h2, h3, -, -⟩
    · exact ⟨Or.inr (by rw [h2, hr]), by simp [h2, hr], fun _ => by rw [h3, hl]⟩
    · exact ⟨Or.inl h1, fun _ => h3, fun hne => absurd h1 hne⟩
    · exact ⟨Or.inr h2, fun hne => absurd h2 hne, fun _ => h3⟩
  | renewal ph amb c w w1 _ hset hstep ih =>
    obtain ⟨⟨hex, hrl, -⟩, hfresh, hq⟩ := ih
    have hne : w.i.cancelRenewRun ≠ none := by simp [hset]
    have hl : w.i.leading = true := hrl hne
    have he : w.i.cancelElectionRun = none := by
      rcases hex with h | h
      · exact h
      · exact absurd h hne
    have hph : ph = Phase.started := by
      by_contra hc
      exact hne (hq hc).2.1
    subst hph
    refine ⟨?_, by simp, by simp⟩
    rcases renew_effect r sc amb w w1 hstep with
      ⟨h1, h2, h3, -, -⟩ | ⟨h1, h2, h3, -, -⟩
    · exact ⟨Or.inr h2, fun hne => absurd h2 hne, fun _ => h3⟩
    · exact ⟨Or.inl (by rw [h1, he]), fun _ => by rw [h3, hl], by simp [h1, he]⟩
  | stop ph amb w _ _ ih =>
    obtain ⟨⟨hex, hrl, hel⟩, hfresh, hq⟩ := ih
    rcases Stop_effect r sc amb w with ⟨-, hsame⟩ | ⟨hrun, h1, h2, h3, hcase⟩
    · rw [hsame]
      exact ⟨⟨hex, hrl, hel⟩, hfresh, hq⟩
    · have hlead : (Stop r sc amb w).2.i.cancelElectionRun ≠ none →
          (Stop r sc amb w).2.i.leading = false := by
        intro hne
        rw [h2] at hne
        rcases hcase with ⟨-, hl, -⟩ | ⟨-, hl, -⟩
        · rw [hl]; exact hel hne
        · exact hl
      refine ⟨⟨Or.inr h1, fun hne => absurd h1 hne, hlead⟩, ?_, ?_⟩
      · intro hph
        rw [hfresh hph] at hrun
        exact absurd hrun (by decide)
      · intro hph
        obtain ⟨hl, hr, he⟩ := hq hph
        refine ⟨?_, h1, by rw [h2, he]⟩
        rcases hcase with ⟨-, hl2, -⟩ | ⟨-, hl2, -⟩
        · rw [hl2, hl]
        · exact hl2

theorem reach_alternates {σ : Type} (r : RedisCompatible σ) (sc : Scripts) (ph : Phase)
    (w : World σ) (h : Reach r sc (ReleaseAgrees r sc) ph w) : Alternates w := by
  induction h with
  | init opts randomBytes s w hnew =>
    simp only [NewLeader] at hnew
    by_cases h1 : opts.TTL = 0
    · simp [h1] at hnew
    · by_cases h2 : opts.Wait = 0
      · simp [h1, h2] at hnew
      · simp [h1, h2] at hnew
        subst hnew
        simp [Alternates, promotions, demotions]
  | start w hw ih =>
    have hrun := (reach_invariant r sc _ _ w hw).2.1 rfl
    simpa [Alternates, Start, hrun] using ih
  | startAgain ph w _ hrun ih =>
    rw [Start_running w hrun]
    exact ih
  | firstElection amb w w1 hw hstep ih =>
    have hl : w.i.leading = false := ((reach_invariant r sc _ _ w hw).2.2 (by decide)).1
    simp only [Alternates, hl] at ih
    rcases runElection_effect r sc amb w w1 hstep with
      ⟨-, -, h3, hp, hd⟩ | ⟨-, -, h3, hp, hd⟩ | ⟨-, -, h3, hp, hd⟩
    · simp [Alternates, h3, hl, hp, hd, ih]
    · simp [Alternates, h3, hp, hd, ih]
    · simp [Alternates, h3, hl, hp, hd, ih]
  | election ph amb c w w1 hw hset hstep ih =>
    have hl : w.i.leading = false :=
      (reach_invariant r sc _ _ w hw).1.2.2 (by simp [hset])
    simp only [Alternates, hl] at ih
    rcases runElection_effect r sc amb w w1 hstep with
      ⟨-, -, h3, hp, hd⟩ | ⟨-, -, h3, hp, hd⟩ | ⟨-, -, h3, hp, hd⟩
    · simp [Alternates, h3, hl, hp, hd, ih]
    · simp [Alternates, h3, hp, hd, ih]
    · simp [Alternates, h3, hl, hp, hd, ih]
  | renewal ph amb c w w1 hw hset hstep ih =>
    have hl : w.i.leading = true :=
      (reach_invariant r sc _ _ w hw).1.2.1 (by simp [hset])
    simp only [Alternates, hl] at ih
    rcases renew_effect r sc amb w w1 hstep with
      ⟨-, -, h3, hp, hd⟩ | ⟨-, -, h3, hp, hd⟩
    · simp [Alternates, h3, hl, hp, hd, ih]
    · simp [Alternates, h3, hl, hp, hd, ih]
  | stop ph amb w _ hok ih =>
    rcases Stop_effect r sc amb w with ⟨-, hsame⟩ | ⟨hrun, -, -, hp, hcase⟩
    · rw [hsame]
      exact ih
    · rcases hcase with ⟨-, hl, hd⟩ | ⟨hnil, hl, hd⟩
      · simpa [Alternates, hl, hp, hd] using ih
      · have hagree := hok hrun hnil
        rw [hagree] at hd
        simp only [Alternates] at ih
        simp [Alternates, hl, hp, hd, ih]

theorem clientID_demo :
    clientID [0, 1, 2, 3, 4, 5, 6, 7, 8, 9, 10, 11, 12, 13, 14, 15]
      = "AAAQEAYEAUDAOCAJBIFQYDIOB4======" := by
  rfl

theorem demoFresh_constructed (evals : List (Except GoError RedisValue)) :
    NewLeader demoOpts [0, 1, 2, 3, 4, 5, 6, 7, 8, 9, 10, 11, 12, 13, 14, 15]
        ({ evals := evals, loads := [], loaded := [] } : Replay)
      = some (demoFresh evals) := by
  have hkey : makeKey demoOpts.Key = "leader:WRCKYBTBH7ENMN4VX2NNBPVPKUARSNVM" :=
    makeKey_test1
  unfold NewLeader
  rw [if_neg (by decide), if_neg (by decide), hkey, clientID_demo]
  rfl

theorem demoElected_reached :
    runElection replayStore demoScripts { now := 1, draw := 7 }
        (Start (demoFresh [.ok (.int64 1)])) = some (demoElected []) ∧
    runElection replayStore demoScripts { now := 1, draw := 7 }
        (Start (demoFresh [.ok (.int64 1), .ok (.int64 1)]))
      = some (demoElected [.ok (.int64 1)]) ∧
    runElection replayStore demoScripts { now := 1, draw := 7 }
        (Start (demoFresh [.ok (.int64 1), .ok (.int64 0)]))
      = some (demoElected [.ok (.int64 0)]) ∧
    runElection replayStore demoScripts { now := 1, draw := 7 }
        (Start (demoFresh [.ok (.int64 1), .error (.new "faulty client is faulty"),
          .ok (.int64 1)]))
      = some (demoElected [.error (.new "faulty client is faulty"), .ok (.int64 1)]) := by
  refine ⟨?_, ?_, ?_, ?_⟩ <;> (rw [runElection, atomicSet, recoverScriptFlush_unroll]; rfl)

/-- C17 (amended): in every state of an engine that is used once (`Start` takes effect on the
fresh engine only), reached from `NewLeader` by `Start`, election attempts, renewals and
`Stop` for arbitrary store outcomes, each scheduled task running only while its reference is
set: at most one of the two task references is set, a renewal reference is set only while
`leading` is true and an election reference only while `leading` is false. -/
theorem task_references_exclusive {σ : Type} (r : RedisCompatible σ) (sc : Scripts)
    (ph : Phase) (w : World σ) (h : Reach r sc (fun _ => True) ph w) :
    (w.i.cancelElectionRun = none ∨ w.i.cancelRenewRun = none) ∧
    (w.i.cancelRenewRun ≠ none → w.i.leading = true) ∧
    (w.i.cancelElectionRun ≠ none → w.i.leading = false) :=
  (reach_invariant r sc (fun _ => True) ph w h).1

/-- Witness for C17: the test's engine after `Start` and a first election that acquired the
lease. -/
theorem task_references_exclusive_witness :
    ((demoElected []).i.cancelElectionRun = none ∨ (demoElected []).i.cancelRenewRun = none) ∧
    ((demoElected []).i.cancelRenewRun ≠ none → (demoElected []).i.leading = true) ∧
    ((demoElected []).i.cancelElectionRun ≠ none → (demoElected []).i.leading = false) :=
  task_references_exclusive replayStore demoScripts Phase.started (demoElected [])
    (Reach.firstElection { now := 1, draw := 7 } (Start (demoFresh [.ok (.int64 1)]))
      (demoElected [])
      (Reach.start (demoFresh [.ok (.int64 1)])
        (Reach.init demoOpts [0, 1, 2, 3, 4, 5, 6, 7, 8, 9, 10, 11, 12, 13, 14, 15]
          { evals := [.ok (.int64 1)], loads := [], loaded := [] }
          (demoFresh [.ok (.int64 1)]) (demoFresh_constructed _)))
      demoElected_reached.1)

/-- Counterexample to C17 as stated: the engine is started and stopped before the attempt
launched by `Start` has run; that attempt then runs and acquires the lease (`leading` true,
renewal scheduled); the engine is started again, and the attempt launched by this second
`Start` meets a store error: it schedules a retry and leaves `leading` and the renewal
reference alone. Both references are now set, and an election is pending while `leading` is
true. -/
theorem restart_sets_both_references :
    (Stop replayStore demoScripts { now := 1, draw := 0 }
      (Start (demoFresh [.ok (.int64 0), .ok (.int64 1),
        .error (.new "faulty client is faulty")]))).1 = none ∧
    (Stop replayStore demoScripts { now := 1, draw := 0 }
      (Start (demoFresh [.ok (.int64 0), .ok (.int64 1),
        .error (.new "faulty client is faulty")]))).2.i.running = false ∧
    ((runElection replayStore demoScripts { now := 2, draw := 7 }
        (Stop replayStore demoScripts { now := 1, draw := 0 }
          (Start (demoFresh [.ok (.int64 0), .ok (.int64 1),
            .error (.new "faulty client is faulty")]))).2).bind
      (fun w3 => runElection replayStore demoScripts { now := 3, draw := 0 } (Start w3))).map
        (fun w => (w.i.cancelElectionRun, w.i.cancelRenewRun, w.i.leading))
      = some (some 1, some 0, true) := by
  refine ⟨?_, ?_, ?_⟩ <;>
    (simp only [Stop, resign, atomicDelete, runElection, atomicSet, recoverScriptFlush_unroll]
     rfl)

/-- C20 (amended): in every state of an engine that is used once, reached from `NewLeader` by
`Start`, election attempts, renewals, and `Stop` calls whose `atomicDelete` fails or reports
`wasOwner` equal to the `leading` flag: the promotions sent so far are the demotions sent so
far plus one when `leading` is true, and exactly the demotions when `leading` is false. -/
theorem promotions_and_demotions_alternate {σ : Type} (r : RedisCompatible σ) (sc : Scripts)
    (ph : Phase) (w : World σ) (h : Reach r sc (ReleaseAgrees r sc) ph w) :
    promotions w.events = demotions w.events + (if w.i.leading then 1 else 0) ∧
    (w.i.leading = true → promotions w.events = demotions w.events + 1) ∧
    (w.i.leading = false → promotions w.events = demotions w.events) := by
  have hal : promotions w.events = demotions w.events + (if w.i.leading then 1 else 0) :=
    reach_alternates r sc ph w h
  refine ⟨hal, fun hl => ?_, fun hl => ?_⟩
  · rw [hal, hl]; rfl
  · rw [hal, hl]; rfl

/-- Witness for C20: the test's engine is started, wins its first election and is stopped
while the store still holds its lease: one promotion, one demotion, `leading` false. -/
theorem promotions_and_demotions_alternate_witness :
    promotions (Stop replayStore demoScripts { now := 4, draw := 0 }
        (demoElected [.ok (.int64 1)])).2.events
      = demotions (Stop replayStore demoScripts { now := 4, draw := 0 }
          (demoElected [.ok (.int64 1)])).2.events
        + (if (Stop replayStore demoScripts { now := 4, draw := 0 }
            (demoElected [.ok (.int64 1)])).2.i.leading then 1 else 0) ∧
    ((Stop replayStore demoScripts { now := 4, draw := 0 }
        (demoElected [.ok (.int64 1)])).2.i.leading = true →
      promotions (Stop replayStore demoScripts { now := 4, draw := 0 }
          (demoElected [.ok (.int64 1)])).2.events
        = demotions (Stop replayStore demoScripts { now := 4, draw := 0 }
            (demoElected [.ok (.int64 1)])).2.events + 1) ∧
    ((Stop replayStore demoScripts { now := 4, draw := 0 }
        (demoElected [.ok (.int64 1)])).2.i.leading = false →
      promotions (Stop replayStore demoScripts { now := 4, draw := 0 }
          (demoElected [.ok (.int64 1)])).2.events
        = demotions (Stop replayStore demoScripts { now := 4, draw := 0 }
            (demoElected [.ok (.int64 1)])).2.events) :=
  promotions_and_demotions_alternate replayStore demoScripts Phase.started
    (Stop replayStore demoScripts { now := 4, draw := 0 } (demoElected [.ok (.int64 1)])).2
    (Reach.stop Phase.started { now := 4, draw := 0 } (demoElected [.ok (.int64 1)])
      (Reach.firstElection { now := 1, draw := 7 }
        (Start (demoFresh [.ok (.int64 1), .ok (.int64 1)]))
        (demoElected [.ok (.int64 1)])
        (Reach.start (demoFresh [.ok (.int64 1), .ok (.int64 1)])
          (Reach.init demoOpts [0, 1, 2, 3, 4, 5, 6, 7, 8, 9, 10, 11, 12, 13, 14, 15]
            { evals := [.ok (.int64 1), .ok (.int64 1)], loads := [], loaded := [] }
            (demoFresh [.ok (.int64 1), .ok (.int64 1)]) (demoFresh_constructed _)))
        demoElected_reached.2.1)
      (by
        intro _ _
        rw [atomicDelete, recoverScriptFlush_unroll]
        rfl))

/-- Counterexample to C20 as stated; `demoElected` is the test's engine after `Start` and a
first election that acquired the lease. First run: the engine is started, wins its first
election, and is stopped after its lease has gone from the store (`wasOwner = false`): one
promotion, no demotion, `leading` false. Second run: it wins its first election, a renewal
fails with a store error (demotion), and it is stopped while its record is still stored
(`wasOwner = true`): one promotion, two demotions. -/
theorem Stop_breaks_alternation :
    runElection replayStore demoScripts { now := 1, draw := 7 }
        (Start (demoFresh [.ok (.int64 1), .ok (.int64 0)]))
      = some (demoElected [.ok (.int64 0)]) ∧
    runElection replayStore demoScripts { now := 1, draw := 7 }
        (Start (demoFresh [.ok (.int64 1), .error (.new "faulty client is faulty"),
          .ok (.int64 1)]))
      = some (demoElected [.error (.new "faulty client is faulty"), .ok (.int64 1)]) ∧
    (promotions (Stop replayStore demoScripts { now := 4, draw := 0 }
        (demoElected [.ok (.int64 0)])).2.events,
     demotions (Stop replayStore demoScripts { now := 4, draw := 0 }
        (demoElected [.ok (.int64 0)])).2.events,
     (Stop replayStore demoScripts { now := 4, draw := 0 }
        (demoElected [.ok (.int64 0)])).2.i.leading) = (1, 0, false) ∧
    (renew replayStore demoScripts { now := 2, draw := 0 }
        (demoElected [.error (.new "faulty client is faulty"), .ok (.int64 1)])).map
      (fun w =>
        (promotions (Stop replayStore demoScripts { now := 4, draw := 0 } w).2.events,
         demotions (Stop replayStore demoScripts { now := 4, draw := 0 } w).2.events,
         (Stop replayStore demoScripts { now := 4, draw := 0 } w).2.i.leading))
      = some (1, 2, false) := by
  refine ⟨demoElected_reached.2.2.1, demoElected_reached.2.2.2, ?_, ?_⟩ <;>
    (simp only [Stop, resign, atomicDelete, renew, atomicRenew, recoverScriptFlush_unroll]
     rfl)

/-! ## Jitter and renewal delays -/

theorem randomJitter_whole_milliseconds (draw k : Nat) (hk : k ≤ 9223372036854) :
    ∃ d, randomJitter draw ((k : Int) * 1000000) = some d ∧
      (k = 0 → d = 0) ∧ (0 < k → 0 ≤ d ∧ d < (k : Int) * 1000000) ∧
      0 ≤ d ∧ d ≤ (k : Int) * 1000000 := by
  rcases Nat.eq_zero_or_pos k with h0 | hpos
  · subst h0
    exact ⟨0, by simp [randomJitter], fun _ => rfl, fun h => absurd h (by decide),
      le_refl _, by simp⟩
  · have hk1 : (1 : Int) ≤ (k : Int) := by exact_mod_cast hpos
    have hk2 : (k : Int) ≤ 9223372036854 := by exact_mod_cast hk
    have hne : (k : Int) * 1000000 ≠ 0 := by omega
    have hms : Milliseconds ((k : Int) * 1000000) = (k : Int) := by
      unfold Milliseconds
      rw [Int.tdiv_eq_ediv (by omega) (by norm_num)]
      omega
    have hmod0 : 0 ≤ (draw : Int) % (k : Int) := Int.emod_nonneg _ (by omega)
    have hmodlt : (draw : Int) % (k : Int) < (k : Int) := Int.emod_lt_of_pos _ (by omega)
    have hfit : wrapInt64 ((draw : Int) % (k : Int) * Millisecond)
        = (draw : Int) % (k : Int) * 1000000 := by
      have : Millisecond = 1000000 := rfl
      rw [this]
      exact wrapInt64_of_fits _ (by omega) (by omega)
    refine ⟨(draw : Int) % (k : Int) * 1000000, ?_, fun h => by omega, fun _ => ?_, ?_, ?_⟩
    · unfold randomJitter randIntn
      rw [hms]
      have hnle : ¬ (k : Int) ≤ 0 := by omega
      simp [hne, hnle, hfit]
    · constructor <;> omega
    · omega
    · omega

theorem renewDelay_bounds (ttl d bound : Int) (hlo : -2 ^ 63 ≤ ttl) (h0 : 0 ≤ d)
    (hd : d ≤ bound) (hsum : Int.tdiv ttl 2 + bound < 2 ^ 63) :
    Int.tdiv ttl 2 ≤ renewDelay ttl d ∧ renewDelay ttl d ≤ Int.tdiv ttl 2 + bound := by
  have hhalf : -2 ^ 63 ≤ Int.tdiv ttl 2 := by
    by_cases hn : 0 ≤ ttl
    · have := Int.tdiv_nonneg hn (show (0 : Int) ≤ 2 by norm_num)
      omega
    · have h1 : ttl = -(-ttl) := by omega
      rw [h1, Int.neg_tdiv, Int.tdiv_eq_ediv (by omega) (by norm_num)]
      omega
  have hw : renewDelay ttl d = Int.tdiv ttl 2 + d := by
    unfold renewDelay
    exact wrapInt64_of_fits _ (by omega) (by omega)
  rw [hw]
  constructor <;> omega

theorem runElection_schedules {σ : Type} (r : RedisCompatible σ) (sc : Scripts)
    (amb : Ambient) (w w1 : World σ) (h : runElection r sc amb w = some w1) :
    ∃ t, w1.timers.getLast? = some t ∧
      (t.task = Task.election ∨
        ∃ j, randomJitter amb.draw w.i.jitter = some j ∧ t.delay = renewDelay w.i.ttl j) := by
  simp only [runElection] at h
  rcases hset : atomicSet r sc w.redis w.i.key w.i.id w.i.ttl with ⟨set, _ | e, s1⟩
  · rw [hset] at h
    cases set
    · rcases hl : w.i.leading <;> rcases hc : w.i.cancelRenewRun with _ | c <;>
        simp [hl, hc, runAfter] at h <;> subst h <;> simp
    · simp only [if_true] at h
      rcases hj : randomJitter amb.draw w.i.jitter with _ | j
      · simp [hj] at h
      · simp [hj, runAfter] at h
        subst h
        simp
  · rw [hset] at h
    simp [runAfter] at h
    subst h
    simp

theorem renew_schedules {σ : Type} (r : RedisCompatible σ) (sc : Scripts)
    (amb : Ambient) (w w1 : World σ) (h : renew r sc amb w = some w1) :
    ∃ t, w1.timers.getLast? = some t ∧
      (t.task = Task.election ∨
        ∃ j, randomJitter amb.draw w.i.jitter = some j ∧ t.delay = renewDelay w.i.ttl j) := by
  simp only [renew] at h
  rcases hren : atomicRenew r sc w.redis w.i.key w.i.id w.i.ttl with ⟨still, _ | e, s1⟩
  · rw [hren] at h
    cases still
    · rcases hl : w.i.leading <;> simp [hl, runAfter] at h <;> subst h <;> simp
    · simp only [if_true] at h
      rcases hj : randomJitter amb.draw w.i.jitter with _ | j
      · simp [hj] at h
      · simp [hj, runAfter] at h
        subst h
        simp
  · rw [hren] at h
    rcases hl : w.i.leading <;> simp [hl, runAfter] at h <;> subst h <;> simp

/-- C19 (amended): let the jitter bound be `k` milliseconds with `0 ≤ k ≤ 9223372036854`, that
is, a non-negative whole number of milliseconds that fits in a `Duration`; it is the bound
`NewLeader` stores for `JitterMS = k`. For every outcome of the random source `randomJitter`
does not panic and returns `d` with `d = 0` when the bound is 0 and `0 ≤ d < bound` when it
is positive. Hence, when `ttl/2 + bound` does not overflow `int64`, every renewal that
`runElection` or `renew` schedules has its delay in `[ttl/2, ttl/2 + bound]`. -/
theorem renewal_delay_in_range {σ : Type} (r : RedisCompatible σ) (sc : Scripts)
    (k : Nat) (ttl : Int) (hk : k ≤ 9223372036854) :
    wrapInt64 ((k : Int) * Millisecond) = (k : Int) * 1000000 ∧
    (∀ draw : Nat, ∃ d, randomJitter draw ((k : Int) * 1000000) = some d ∧
      (k = 0 → d = 0) ∧ (0 < k → 0 ≤ d ∧ d < (k : Int) * 1000000)) ∧
    (-2 ^ 63 ≤ ttl → Int.tdiv ttl 2 + (k : Int) * 1000000 < 2 ^ 63 →
      ∀ (amb : Ambient) (w w1 : World σ) (t : Timer),
        w.i.ttl = ttl → w.i.jitter = (k : Int) * 1000000 →
        (runElection r sc amb w = some w1 ∨ renew r sc amb w = some w1) →
        w1.timers.getLast? = some t → t.task = Task.renewal →
        Int.tdiv ttl 2 ≤ t.delay ∧ t.delay ≤ Int.tdiv ttl 2 + (k : Int) * 1000000) := by
  have hk2 : (k : Int) ≤ 9223372036854 := by exact_mod_cast hk
  have hk0 : (0 : Int) ≤ (k : Int) := Int.natCast_nonneg k
  refine ⟨?_, fun draw => ?_, ?_⟩
  · have : Millisecond = 1000000 := rfl
    rw [this]
    exact wrapInt64_of_fits _ (by omega) (by omega)
  · obtain ⟨d, h1, h2, h3, -, -⟩ := randomJitter_whole_milliseconds draw k hk
    exact ⟨d, h1, h2, h3⟩
  · intro hlo hsum amb w w1 t httl hjit hstep hlast htask
    have hsched : ∃ t0, w1.timers.getLast? = some t0 ∧
        (t0.task = Task.election ∨
          ∃ j, randomJitter amb.draw w.i.jitter = some j ∧
            t0.delay = renewDelay w.i.ttl j) := by
      rcases hstep with hstep | hstep
      · exact runElection_schedules r sc amb w w1 hstep
      · exact renew_schedules r sc amb w w1 hstep
    obtain ⟨t0, hl0, hcase⟩ := hsched
    rw [hlast] at hl0
    have ht : t = t0 := Option.some.inj hl0
    subst ht
    rcases hcase with hel | ⟨j, hj, hdelay⟩
    · rw [htask] at hel
      exact absurd hel (by decide)
    · obtain ⟨d, hd, -, -, hd0, hdle⟩ := randomJitter_whole_milliseconds amb.draw k hk
      rw [hjit, hd] at hj
      have hjd : d = j := Option.some.inj hj
      subst hjd
      rw [hdelay, httl]
      exact renewDelay_bounds ttl d _ hlo hd0 hdle hsum

/-- Witness for C19: the test's engine (`TTL = 1s`, `JitterMS = 50`) wins an election with
draw 7: the renewal is scheduled after 507ms, within `[500ms, 550ms]`. -/
theorem renewal_delay_in_range_witness :
    Int.tdiv 1000000000 2 ≤ (507000000 : Int) ∧
    (507000000 : Int) ≤ Int.tdiv 1000000000 2 + ((50 : Nat) : Int) * 1000000 :=
  (renewal_delay_in_range replayStore demoScripts 50 1000000000 (by decide)).2.2
    (by decide) (by decide) { now := 1, draw := 7 }
    (Start (demoFresh [.ok (.int64 1)])) (demoElected [])
    { delay := 507000000, task := Task.renewal, cancelled := false }
    rfl rfl (Or.inl demoElected_reached.1) rfl rfl

/-- Counterexample to C19 as stated. With `TTL = 2s` and the jitter bound of
`JitterMS = 9223372036854` (non-negative, whole milliseconds), the draw 9223372036853 gives a
jitter of 9223372036853000000ns and the sum `ttl/2 + jitter` overflows `int64`: the renewal is
scheduled with a negative delay, below `ttl/2`. And `JitterMS = 9223372036855`, which
`NewLeader` accepts, overflows to a negative jitter bound, on which `randomJitter` panics. -/
theorem renewal_delay_overflows :
    randomJitter 9223372036853 (wrapInt64 (9223372036854 * Millisecond))
      = some 9223372036853000000 ∧
    renewDelay 2000000000 9223372036853000000 = -9223372035856551616 ∧
    (runElection replayStore demoScripts { now := 1, draw := 9223372036853 }
        (demoWorld { demoImpl with ttl := 2000000000,
                                   jitter := wrapInt64 (9223372036854 * Millisecond) }
          [.ok (.int64 1)])).map (fun w => w.timers)
      = some [{ delay := -9223372035856551616, task := Task.renewal, cancelled := false }] ∧
    (NewLeader { demoOpts with JitterMS := 9223372036855 } [] ()).map (fun w => w.i.jitter)
      = some (-9223372036854551616) ∧
    randomJitter 7 (-9223372036854551616) = none := by
  refine ⟨by decide, by decide, ?_, by decide, by decide⟩
  rw [runElection, atomicSet, recoverScriptFlush_unroll]; rfl

/-! ## Mutual exclusion -/

theorem installScriptsLoop_held {σ : Type} (r : RedisCompatible σ) (sc : Scripts)
    (held : σ → String → Prop) (gate : AcquireGate r sc held) (key : String)
    (bodies : List String) (s : σ) (h : held s key) :
    held (installScriptsLoop r bodies s).2 key := by
  induction bodies generalizing s with
  | nil => exact h
  | cons b bs ih =>
    have hload := gate.loaded s key b h
    rcases hl : r.ScriptLoad s b with ⟨_ | _, s1⟩
    · rw [hl] at hload
      simpa [installScriptsLoop, hl] using hload
    · rw [hl] at hload
      simpa [installScriptsLoop, hl] using ih s1 hload

theorem evalShaStatus_gate {σ : Type} (r : RedisCompatible σ) (sc : Scripts)
    (held : σ → String → Prop) (gate : AcquireGate r sc held) (s : σ) (key : String)
    (args : List RedisArg) :
    (held s key → (evalShaStatus r (atomicSetSHA sc) [key] args s false).2.2 = false ∧
      held (evalShaStatus r (atomicSetSHA sc) [key] args s false).2.1 key) ∧
    ((evalShaStatus r (atomicSetSHA sc) [key] args s false).2.2 = true →
      held (evalShaStatus r (atomicSetSHA sc) [key] args s false).2.1 key) ∧
    ((evalShaStatus r (atomicSetSHA sc) [key] args s false).1 ≠ none →
      (evalShaStatus r (atomicSetSHA sc) [key] args s false).2.2 = false) := by
  have htaken := gate.taken s key args
  have hcreated := gate.created s key args
  unfold evalShaStatus
  rcases hev : r.EvalSha s (atomicSetSHA sc) [key] args with ⟨e | v, s1⟩
  · rw [hev] at htaken
    exact ⟨fun h => ⟨rfl, (htaken h).2⟩, fun h => by simp at h, fun _ => rfl⟩
  · rw [hev] at htaken hcreated
    cases v with
    | int64 n =>
      refine ⟨fun h => ⟨?_, (htaken h).2⟩, fun h => ?_, fun h => absurd rfl h⟩
      · have hne : n ≠ 1 := by
          intro hn
          subst hn
          exact (htaken h).1 rfl
        simpa using hne
      · have hn : n = 1 := by simpa using h
        subst hn
        exact hcreated rfl
    | str v =>
      exact ⟨fun h => ⟨rfl, (htaken h).2⟩, fun h => by simp at h, fun _ => rfl⟩
    | null =>
      exact ⟨fun h => ⟨rfl, (htaken h).2⟩, fun h => by simp at h, fun _ => rfl⟩

theorem atomicSet_gate {σ : Type} (r : RedisCompatible σ) (sc : Scripts)
    (held : σ → String → Prop) (gate : AcquireGate r sc held) (s : σ) (key id : String)
    (timeout : Int) :
    (held s key → (atomicSet r sc s key id timeout).1 = false ∧
      held (atomicSet r sc s key id timeout).2.2 key) ∧
    ((atomicSet r sc s key id timeout).1 = true →
      held (atomicSet r sc s key id timeout).2.2 key) := by
  have hrun := AtomicOp.run_eq r sc s key id timeout AtomicOp.set
  have heq : AtomicOp.run r sc s key id timeout AtomicOp.set
      = atomicSet r sc s key id timeout := rfl
  rw [heq] at hrun
  simp only [AtomicOp.sha, AtomicOp.args] at hrun
  rw [hrun, recoverScriptFlush_unroll]
  obtain ⟨hA, hB, hC⟩ := evalShaStatus_gate r sc held gate s key
    [RedisArg.str id, RedisArg.int64 (Milliseconds timeout)]
  rcases h1 : evalShaStatus r (atomicSetSHA sc) [key]
      [RedisArg.str id, RedisArg.int64 (Milliseconds timeout)] s false with ⟨_ | err, s1, a1⟩
  · rw [h1] at hA hB
    exact ⟨hA, hB⟩
  · rw [h1] at hA hB hC
    have ha1 : a1 = false := hC (by simp)
    subst ha1
    by_cases hp : hasPrefix err "NOSCRIPT" = true
    · simp only [hp, if_true]
      rcases h2 : installScripts r sc s1 with ⟨_ | installErr, s2⟩
      · obtain ⟨hA2, hB2, -⟩ := evalShaStatus_gate r sc held gate s2 key
          [RedisArg.str id, RedisArg.int64 (Milliseconds timeout)]
        have hinst : held s1 key → held s2 key := by
          intro h
          have := installScriptsLoop_held r sc held gate key
            [sc.atomicSetScript, sc.atomicRenewScript, sc.atomicDeleteScript] s1 h
          rw [installScripts] at h2
          rw [h2] at this
          exact this
        exact ⟨fun h => hA2 (hinst (hA h).2), hB2⟩
      · have hinst : held s1 key → held s2 key := by
          intro h
          have := installScriptsLoop_held r sc held gate key
            [sc.atomicSetScript, sc.atomicRenewScript, sc.atomicDeleteScript] s1 h
          rw [installScripts] at h2
          rw [h2] at this
          exact this
        exact ⟨fun h => ⟨rfl, hinst (hA h).2⟩, fun h => by simp at h⟩
    · simp only [hp]
      exact ⟨fun h => ⟨rfl, (hA h).2⟩, fun h => by simp at h⟩

theorem leaseStore_gate (sc : Scripts) :
    AcquireGate (leaseStore sc) sc LeaseStore.held where
  taken := by
    intro s key args h
    by_cases hc : s.scripts.contains (atomicSetSHA sc) = true
    · rcases args with _ | ⟨a, rest⟩
      · simp only [leaseStore, hc, if_true]
        exact ⟨by simp, h⟩
      · cases a with
        | str id =>
          rcases hl : s.leases.lookup key with _ | owner
          · simp [LeaseStore.held, hl] at h
          · simp only [leaseStore, hc, if_true, hl]
            exact ⟨by simp, h⟩
        | int64 n =>
          simp only [leaseStore, hc, if_true]
          exact ⟨by simp, h⟩
    · simp only [leaseStore, hc]
      exact ⟨by simp, h⟩
  created := by
    intro s key args h
    by_cases hc : s.scripts.contains (atomicSetSHA sc) = true
    · rcases args with _ | ⟨a, rest⟩
      · simp only [leaseStore, hc, if_true] at h
        simp at h
      · cases a with
        | str id =>
          rcases hl : s.leases.lookup key with _ | owner
          · simp only [leaseStore, hc, if_true, hl, LeaseStore.held]
            simp [List.lookup]
          · simp only [leaseStore, hc, if_true, hl] at h
            simp at h
        | int64 n =>
          simp only [leaseStore, hc, if_true] at h
          simp at h
    · simp only [leaseStore, hc] at h
      simp at h
  loaded := by
    intro s key body h
    exact h

theorem runElection_store {σ : Type} (r : RedisCompatible σ) (sc : Scripts) (amb : Ambient)
    (w w1 : World σ) (h : runElection r sc amb w = some w1) :
    w1.redis = (atomicSet r sc w.redis w.i.key w.i.id w.i.ttl).2.2 ∧
    (promotions w1.events = promotions w.events + 1 →
      (atomicSet r sc w.redis w.i.key w.i.id w.i.ttl).1 = true) := by
  simp only [runElection] at h
  rcases hset : atomicSet r sc w.redis w.i.key w.i.id w.i.ttl with ⟨set, _ | e, s1⟩
  · rw [hset] at h
    cases set
    · rcases hl : w.i.leading <;> rcases hc : w.i.cancelRenewRun with _ | c <;>
        simp [hl, hc, runAfter] at h <;> subst h <;>
        simp [promotions, List.countP_append, Event.isPromote]
    · simp only [if_true] at h
      rcases hj : randomJitter amb.draw w.i.jitter with _ | j
      · simp [hj] at h
      · simp [hj, runAfter] at h
        subst h
        simp
  · rw [hset] at h
    simp [runAfter] at h
    subst h
    simp [promotions, List.countP_append, Event.isPromote]

theorem runElection_promotes_once {σ : Type} (r : RedisCompatible σ) (sc : Scripts)
    (amb : Ambient) (w w1 : World σ) (h : runElection r sc amb w = some w1) :
    promotions w1.events = promotions w.events ∨
    promotions w1.events = promotions w.events + 1 := by
  rcases runElection_effect r sc amb w w1 h with
    ⟨-, -, -, hp, -⟩ | ⟨-, -, -, hp, -⟩ | ⟨-, -, -, hp, -⟩
  · exact Or.inl hp
  · exact Or.inr hp
  · exact Or.inl hp

/-- Two election attempts in sequence, the second on the store as the first left it, on a
store with `AcquireGate`: not both send a promotion. -/
theorem elections_in_sequence_exclusive {σ : Type} (r : RedisCompatible σ) (sc : Scripts)
    (held : σ → String → Prop) (gate : AcquireGate r sc held) (ambA ambB : Ambient)
    (wA wB wA1 wB1 : World σ)
    (hkey : wA.i.key = wB.i.key)
    (hA : runElection r sc ambA wA = some wA1)
    (hshared : wB.redis = wA1.redis)
    (hB : runElection r sc ambB wB = some wB1) :
    ¬ (promotions wA1.events = promotions wA.events + 1 ∧
       promotions wB1.events = promotions wB.events + 1) ∧
    (promotions wA1.events = promotions wA.events + 1 →
      promotions wB1.events = promotions wB.events) ∧
    ∀ (s : σ) (key idA idB : String) (ttlA ttlB : Int),
      ¬ ((atomicSet r sc s key idA ttlA).1 = true ∧
         (atomicSet r sc (atomicSet r sc s key idA ttlA).2.2 key idB ttlB).1 = true) := by
  have hcalls : ∀ (s : σ) (key idA idB : String) (ttlA ttlB : Int),
      ¬ ((atomicSet r sc s key idA ttlA).1 = true ∧
         (atomicSet r sc (atomicSet r sc s key idA ttlA).2.2 key idB ttlB).1 = true) := by
    intro s key idA idB ttlA ttlB hboth
    have hheld := (atomicSet_gate r sc held gate s key idA ttlA).2 hboth.1
    have hfalse := ((atomicSet_gate r sc held gate _ key idB ttlB).1 hheld).1
    rw [hfalse] at hboth
    exact absurd hboth.2 (by decide)
  obtain ⟨hstoreA, hpromA⟩ := runElection_store r sc ambA wA wA1 hA
  obtain ⟨-, hpromB⟩ := runElection_store r sc ambB wB wB1 hB
  have hnot : ¬ (promotions wA1.events = promotions wA.events + 1 ∧
      promotions wB1.events = promotions wB.events + 1) := by
    intro hboth
    have hsetA := hpromA hboth.1
    have hsetB := hpromB hboth.2
    rw [hshared, hstoreA, ← hkey] at hsetB
    exact hcalls wA.redis wA.i.key wA.i.id wB.i.id wA.i.ttl wB.i.ttl ⟨hsetA, hsetB⟩
  refine ⟨hnot, fun hpa => ?_, hcalls⟩
  rcases runElection_promotes_once r sc ambB wB wB1 hB with h | h
  · exact h
  · exact absurd ⟨hpa, h⟩ hnot

theorem runElection_given {σ : Type} (r : RedisCompatible σ) (sc : Scripts) (amb : Ambient)
    (w : World σ) :
    runElection r sc amb w
      = runElectionGiven amb w (atomicSet r sc w.redis w.i.key w.i.id w.i.ttl).1
          (atomicSet r sc w.redis w.i.key w.i.id w.i.ttl).2.1
          (atomicSet r sc w.redis w.i.key w.i.id w.i.ttl).2.2 := by
  rfl

theorem runElectionGiven_promotion {σ : Type} (amb : Ambient) (w w1 : World σ) (set : Bool)
    (err : Option GoError) (s1 : σ) (h : runElectionGiven amb w set err s1 = some w1) :
    (promotions w1.events = promotions w.events ∨
      promotions w1.events = promotions w.events + 1) ∧
    (promotions w1.events = promotions w.events + 1 → set = true ∧ err = none) ∧
    (set = true → err = none → promotions w1.events = promotions w.events + 1) := by
  simp only [runElectionGiven] at h
  rcases err with _ | e
  · cases set
    · rcases hl : w.i.leading <;> rcases hc : w.i.cancelRenewRun with _ | c <;>
        simp [hl, hc, runAfter] at h <;> subst h <;>
        simp [promotions, List.countP_append, Event.isPromote]
    · simp only [if_true] at h
      rcases hj : randomJitter amb.draw w.i.jitter with _ | j
      · simp [hj] at h
      · simp [hj, runAfter] at h
        subst h
        simp [promotions, List.countP_append, Event.isPromote]
  · simp [runAfter] at h
    subst h
    simp [promotions, List.countP_append, Event.isPromote]

theorem atomicSetStep_gate {σ : Type} (r : RedisCompatible σ) (sc : Scripts)
    (held : σ → String → Prop) (gate : AcquireGate r sc held) (key id : String)
    (timeout : Int) (s : σ) (pc : SetPc) :
    (held s key → held (atomicSetStep r sc key id timeout s pc).1 key) ∧
    ((atomicSetStep r sc key id timeout s pc).2.status = true → pc.status = false →
      ¬ held s key ∧ held (atomicSetStep r sc key id timeout s pc).1 key) := by
  cases pc with
  | evalSha retry status =>
    have ht := gate.taken s key [RedisArg.str id, RedisArg.int64 (Milliseconds timeout)]
    have hc := gate.created s key [RedisArg.str id, RedisArg.int64 (Milliseconds timeout)]
    rcases h1 : r.EvalSha s (atomicSetSHA sc) [key]
        [RedisArg.str id, RedisArg.int64 (Milliseconds timeout)] with ⟨e | v, s1⟩
    · rw [h1] at ht hc
      by_cases hp : hasPrefix e "NOSCRIPT" = true ∧ retry = true
      · simp only [atomicSetStep, h1, hp, and_self, if_true, SetPc.status]
        exact ⟨fun hh => (ht hh).2, fun hst hfalse => by rw [hfalse] at hst; simp at hst⟩
      · simp only [atomicSetStep, h1, hp, if_false, SetPc.status]
        exact ⟨fun hh => (ht hh).2, fun hst hfalse => by rw [hfalse] at hst; simp at hst⟩
    · rw [h1] at ht hc
      cases v with
      | int64 i =>
        simp only [atomicSetStep, h1, SetPc.status]
        refine ⟨fun hh => (ht hh).2, ?_⟩
        intro hst _
        have hi : i = 1 := by simpa using hst
        subst hi
        exact ⟨fun hh => (ht hh).1 rfl, hc rfl⟩
      | str x =>
        simp only [atomicSetStep, h1, SetPc.status]
        exact ⟨fun hh => (ht hh).2, fun hst hfalse => by rw [hfalse] at hst; simp at hst⟩
      | null =>
        simp only [atomicSetStep, h1, SetPc.status]
        exact ⟨fun hh => (ht hh).2, fun hst hfalse => by rw [hfalse] at hst; simp at hst⟩
  | scriptLoad rest status =>
    cases rest with
    | nil =>
      simp only [atomicSetStep, SetPc.status]
      exact ⟨fun hh => hh, fun hst hfalse => by rw [hfalse] at hst; simp at hst⟩
    | cons script rest =>
      have hl := gate.loaded s key script
      rcases h1 : r.ScriptLoad s script with ⟨e | v, s1⟩
      · rw [h1] at hl
        simp only [atomicSetStep, h1, SetPc.status]
        exact ⟨hl, fun hst hfalse => by rw [hfalse] at hst; simp at hst⟩
      · rw [h1] at hl
        simp only [atomicSetStep, h1, SetPc.status]
        exact ⟨hl, fun hst hfalse => by rw [hfalse] at hst; simp at hst⟩
  | returned status err =>
    simp only [atomicSetStep, SetPc.status]
    exact ⟨fun hh => hh, fun hst hfalse => by rw [hfalse] at hst; simp at hst⟩

theorem atomicSetStep_remaining {σ : Type} (r : RedisCompatible σ) (sc : Scripts)
    (key id : String) (timeout : Int) (s : σ) (pc : SetPc) :
    (atomicSetStep r sc key id timeout s pc).2.remaining ≤ pc.remaining - 1 := by
  cases pc with
  | evalSha retry status =>
    rcases h1 : r.EvalSha s (atomicSetSHA sc) [key]
        [RedisArg.str id, RedisArg.int64 (Milliseconds timeout)] with ⟨e | v, s1⟩
    · cases retry <;> by_cases hp : hasPrefix e "NOSCRIPT" = true <;>
        simp [atomicSetStep, h1, hp, SetPc.remaining]
    · cases retry <;> cases v <;> simp [atomicSetStep, h1, SetPc.remaining]
  | scriptLoad rest status =>
    cases rest with
    | nil => simp [atomicSetStep, SetPc.remaining]
    | cons script rest =>
      rcases h1 : r.ScriptLoad s script with ⟨e | v, s1⟩ <;>
        simp [atomicSetStep, h1, SetPc.remaining]
  | returned status err => simp [atomicSetStep, SetPc.remaining]

theorem remaining_zero (pc : SetPc) (h : pc.remaining = 0) :
    ∃ set err, pc = SetPc.returned set err := by
  cases pc with
  | evalSha retry status => cases retry <;> simp [SetPc.remaining] at h
  | scriptLoad rest status => simp [SetPc.remaining] at h
  | returned status err => exact ⟨status, err, rfl⟩

theorem raceFrom_remaining {σ : Type} (r : RedisCompatible σ) (sc : Scripts) (iA iB : Impl)
    (ρ : Race σ) (sched : List Bool) :
    (raceFrom r sc iA iB ρ sched).a.remaining ≤ ρ.a.remaining - sched.count true ∧
    (raceFrom r sc iA iB ρ sched).b.remaining ≤ ρ.b.remaining - sched.count false := by
  induction sched generalizing ρ with
  | nil => simp [raceFrom]
  | cons turn rest ih =>
    obtain ⟨ha, hb⟩ := ih (raceStep r sc iA iB ρ turn)
    have hsa := atomicSetStep_remaining r sc iA.key iA.id iA.ttl ρ.store ρ.a
    have hsb := atomicSetStep_remaining r sc iB.key iB.id iB.ttl ρ.store ρ.b
    cases turn
    · have hc1 : List.count true (false :: rest) = List.count true rest := by
        simp [List.count_cons]
      have hc2 : List.count false (false :: rest) = List.count false rest + 1 := by
        simp [List.count_cons]
      simp only [raceFrom, raceStep, Bool.false_eq_true, if_false] at ha hb ⊢
      rw [hc1, hc2]
      constructor <;> omega
    · have hc1 : List.count true (true :: rest) = List.count true rest + 1 := by
        simp [List.count_cons]
      have hc2 : List.count false (true :: rest) = List.count false rest := by
        simp [List.count_cons]
      simp only [raceFrom, raceStep, if_true] at ha hb ⊢
      rw [hc1, hc2]
      constructor <;> omega

/-- While the race runs, a `status` that is true means the lease exists, and the `status` of
the two instances are never both true. -/
theorem raceFrom_exclusive {σ : Type} (r : RedisCompatible σ) (sc : Scripts)
    (held : σ → String → Prop) (gate : AcquireGate r sc held) (iA iB : Impl)
    (hkey : iA.key = iB.key) (ρ : Race σ) (sched : List Bool)
    (ha : ρ.a.status = true → held ρ.store iA.key)
    (hb : ρ.b.status = true → held ρ.store iA.key)
    (hab : ¬ (ρ.a.status = true ∧ ρ.b.status = true)) :
    ¬ ((raceFrom r sc iA iB ρ sched).a.status = true ∧
       (raceFrom r sc iA iB ρ sched).b.status = true) := by
  induction sched generalizing ρ with
  | nil => exact hab
  | cons turn rest ih =>
    cases turn
    · have hstep : raceStep r sc iA iB ρ false
          = { ρ with store := (atomicSetStep r sc iA.key iB.id iB.ttl ρ.store ρ.b).1,
                     b := (atomicSetStep r sc iA.key iB.id iB.ttl ρ.store ρ.b).2 } := by
        simp [raceStep, hkey]
      obtain ⟨h1, h2⟩ := atomicSetStep_gate r sc held gate iA.key iB.id iB.ttl ρ.store ρ.b
      rw [raceFrom, hstep]
      refine ih _ ?_ ?_ ?_
      · intro h
        exact h1 (ha h)
      · intro h
        rcases hst : ρ.b.status
        · exact (h2 h hst).2
        · exact h1 (hb hst)
      · rintro ⟨hA, hB⟩
        rcases hst : ρ.b.status
        · exact (h2 hB hst).1 (ha hA)
        · exact hab ⟨hA, hst⟩
    · have hstep : raceStep r sc iA iB ρ true
          = { ρ with store := (atomicSetStep r sc iA.key iA.id iA.ttl ρ.store ρ.a).1,
                     a := (atomicSetStep r sc iA.key iA.id iA.ttl ρ.store ρ.a).2 } := by
        simp [raceStep]
      obtain ⟨h1, h2⟩ := atomicSetStep_gate r sc held gate iA.key iA.id iA.ttl ρ.store ρ.a
      rw [raceFrom, hstep]
      refine ih _ ?_ ?_ ?_
      · intro h
        rcases hst : ρ.a.status
        · exact (h2 h hst).2
        · exact h1 (ha hst)
      · intro h
        exact h1 (hb h)
      · rintro ⟨hA, hB⟩
        rcases hst : ρ.a.status
        · exact (h2 hA hst).1 (hb hB)
        · exact hab ⟨hst, hB⟩

theorem race_alone_a {σ : Type} (r : RedisCompatible σ) (sc : Scripts) (iA iB : Impl)
    (s : σ) (pcB : SetPc) :
    raceFrom r sc iA iB { store := s, a := SetPc.evalSha true false, b := pcB }
        (List.replicate 6 true)
      = { store := (atomicSet r sc s iA.key iA.id iA.ttl).2.2,
          a := SetPc.returned (atomicSet r sc s iA.key iA.id iA.ttl).1
                 (atomicSet r sc s iA.key iA.id iA.ttl).2.1,
          b := pcB } := by
  rw [atomicSet, recoverScriptFlush_unroll]
  rcases h1 : r.EvalSha s (atomicSetSHA sc) [iA.key]
      [RedisArg.str iA.id, RedisArg.int64 (Milliseconds iA.ttl)] with ⟨e | v, s1⟩
  · by_cases hp : hasPrefix e "NOSCRIPT" = true
    · rcases hA : r.ScriptLoad s1 sc.atomicSetScript with ⟨la | _, s2⟩
      · simp [List.replicate, raceFrom, raceStep, atomicSetStep, h1, hp, hA, installScripts,
          installScriptsLoop]
      · rcases hB : r.ScriptLoad s2 sc.atomicRenewScript with ⟨lb | _, s3⟩
        · simp [List.replicate, raceFrom, raceStep, atomicSetStep, h1, hp, hA, hB,
            installScripts, installScriptsLoop]
        · rcases hC : r.ScriptLoad s3 sc.atomicDeleteScript with ⟨lc | _, s4⟩
          · simp [List.replicate, raceFrom, raceStep, atomicSetStep, h1, hp, hA, hB, hC,
              installScripts, installScriptsLoop]
          · rcases h3 : r.EvalSha s4 (atomicSetSHA sc) [iA.key]
                [RedisArg.str iA.id, RedisArg.int64 (Milliseconds iA.ttl)] with ⟨e2 | v2, s5⟩
            · simp [List.replicate, raceFrom, raceStep, atomicSetStep, h1, hp, hA, hB, hC, h3,
                installScripts, installScriptsLoop]
            · cases v2 <;>
                simp [List.replicate, raceFrom, raceStep, atomicSetStep, h1, hp, hA, hB, hC,
                  h3, installScripts, installScriptsLoop]
    · simp [List.replicate, raceFrom, raceStep, atomicSetStep, h1, hp]
  · cases v <;> simp [List.replicate, raceFrom, raceStep, atomicSetStep, h1]

theorem race_alone_b {σ : Type} (r : RedisCompatible σ) (sc : Scripts) (iA iB : Impl)
    (s : σ) (pcA : SetPc) :
    raceFrom r sc iA iB { store := s, a := pcA, b := SetPc.evalSha true false }
        (List.replicate 6 false)
      = { store := (atomicSet r sc s iB.key iB.id iB.ttl).2.2,
          a := pcA,
          b := SetPc.returned (atomicSet r sc s iB.key iB.id iB.ttl).1
                 (atomicSet r sc s iB.key iB.id iB.ttl).2.1 } := by
  rw [atomicSet, recoverScriptFlush_unroll]
  rcases h1 : r.EvalSha s (atomicSetSHA sc) [iB.key]
      [RedisArg.str iB.id, RedisArg.int64 (Milliseconds iB.ttl)] with ⟨e | v, s1⟩
  · by_cases hp : hasPrefix e "NOSCRIPT" = true
    · rcases hA : r.ScriptLoad s1 sc.atomicSetScript with ⟨la | _, s2⟩
      · simp [List.replicate, raceFrom, raceStep, atomicSetStep, h1, hp, hA, installScripts,
          installScriptsLoop]
      · rcases hB : r.ScriptLoad s2 sc.atomicRenewScript with ⟨lb | _, s3⟩
        · simp [List.replicate, raceFrom, raceStep, atomicSetStep, h1, hp, hA, hB,
            installScripts, installScriptsLoop]
        · rcases hC : r.ScriptLoad s3 sc.atomicDeleteScript with ⟨lc | _, s4⟩
          · simp [List.replicate, raceFrom, raceStep, atomicSetStep, h1, hp, hA, hB, hC,
              installScripts, installScriptsLoop]
          · rcases h3 : r.EvalSha s4 (atomicSetSHA sc) [iB.key]
                [RedisArg.str iB.id, RedisArg.int64 (Milliseconds iB.ttl)] with ⟨e2 | v2, s5⟩
            · simp [List.replicate, raceFrom, raceStep, atomicSetStep, h1, hp, hA, hB, hC, h3,
                installScripts, installScriptsLoop]
            · cases v2 <;>
                simp [List.replicate, raceFrom, raceStep, atomicSetStep, h1, hp, hA, hB, hC,
                  h3, installScripts, installScriptsLoop]
    · simp [List.replicate, raceFrom, raceStep, atomicSetStep, h1, hp]
  · cases v <;> simp [List.replicate, raceFrom, raceStep, atomicSetStep, h1]

theorem electionOutcome_promotion {σ : Type} (amb : Ambient) (w w1 : World σ) (s : σ)
    (pc : SetPc) (h : electionOutcome amb w s pc = some w1) :
    (promotions w1.events = promotions w.events ∨
      promotions w1.events = promotions w.events + 1) ∧
    (promotions w1.events = promotions w.events + 1 → pc.status = true) := by
  cases pc with
  | evalSha retry status => simp [electionOutcome] at h
  | scriptLoad rest status => simp [electionOutcome] at h
  | returned set err =>
    obtain ⟨h1, h2, -⟩ := runElectionGiven_promotion amb w w1 set err s h
    exact ⟨h1, fun hp => (h2 hp).1⟩

/-- C16: take a store whose Acquire creates the lease only when none exists (`AcquireGate`)
and two engine instances on the same key, each in its first election attempt, which is one
call of `atomicSet`: an `EvalSha` and, after `NOSCRIPT`, up to three `ScriptLoad` and a second
`EvalSha`. The store serves the commands of the two attempts one at a time, in any order
`sched`, and nothing else changes the store meanwhile. Then, whatever the order, not both
attempts send a promotion: if one does, the other sends none. Each attempt has returned once
the instance has had six turns. An attempt that runs with no command of the other instance in
between is `runElection`. -/
theorem first_elections_exclusive {σ : Type} (r : RedisCompatible σ) (sc : Scripts)
    (held : σ → String → Prop) (gate : AcquireGate r sc held) (ambA ambB : Ambient)
    (wA wB : World σ) (hkey : wA.i.key = wB.i.key) (s : σ) (sched : List Bool) :
    (∀ wA1 wB1 : World σ,
      electionOutcome ambA wA (race r sc wA.i wB.i s sched).store
        (race r sc wA.i wB.i s sched).a = some wA1 →
      electionOutcome ambB wB (race r sc wA.i wB.i s sched).store
        (race r sc wA.i wB.i s sched).b = some wB1 →
      ¬ (promotions wA1.events = promotions wA.events + 1 ∧
         promotions wB1.events = promotions wB.events + 1) ∧
      (promotions wA1.events = promotions wA.events + 1 →
        promotions wB1.events = promotions wB.events) ∧
      (promotions wB1.events = promotions wB.events + 1 →
        promotions wA1.events = promotions wA.events)) ∧
    (6 ≤ sched.count true →
      ∃ set err, (race r sc wA.i wB.i s sched).a = SetPc.returned set err) ∧
    (6 ≤ sched.count false →
      ∃ set err, (race r sc wA.i wB.i s sched).b = SetPc.returned set err) ∧
    electionOutcome ambA wA (race r sc wA.i wB.i wA.redis (List.replicate 6 true)).store
        (race r sc wA.i wB.i wA.redis (List.replicate 6 true)).a
      = runElection r sc ambA wA ∧
    electionOutcome ambB wB (race r sc wA.i wB.i wB.redis (List.replicate 6 false)).store
        (race r sc wA.i wB.i wB.redis (List.replicate 6 false)).b
      = runElection r sc ambB wB := by
  have hex := raceFrom_exclusive r sc held gate wA.i wB.i hkey
    { store := s, a := SetPc.evalSha true false, b := SetPc.evalSha true false } sched
    (fun h => by simp [SetPc.status] at h) (fun h => by simp [SetPc.status] at h)
    (fun h => by simp [SetPc.status] at h)
  obtain ⟨hra, hrb⟩ := raceFrom_remaining r sc wA.i wB.i
    { store := s, a := SetPc.evalSha true false, b := SetPc.evalSha true false } sched
  refine ⟨?_, ?_, ?_, ?_, ?_⟩
  · intro wA1 wB1 hA hB
    obtain ⟨hA1, hA2⟩ := electionOutcome_promotion ambA wA wA1 _ _ hA
    obtain ⟨hB1, hB2⟩ := electionOutcome_promotion ambB wB wB1 _ _ hB
    have hnot : ¬ (promotions wA1.events = promotions wA.events + 1 ∧
        promotions wB1.events = promotions wB.events + 1) :=
      fun hboth => hex ⟨hA2 hboth.1, hB2 hboth.2⟩
    refine ⟨hnot, fun hpa => ?_, fun hpb => ?_⟩
    · rcases hB1 with h | h
      · exact h
      · exact absurd ⟨hpa, h⟩ hnot
    · rcases hA1 with h | h
      · exact h
      · exact absurd ⟨h, hpb⟩ hnot
  · intro h6
    apply remaining_zero
    have : (SetPc.evalSha true false).remaining = 6 := rfl
    simp only [race]
    simp only [this] at hra
    omega
  · intro h6
    apply remaining_zero
    have : (SetPc.evalSha true false).remaining = 6 := rfl
    simp only [race]
    simp only [this] at hrb
    omega
  · rw [race, race_alone_a, runElection_given]
    rfl
  · rw [race, race_alone_b, runElection_given]
    rfl

/-- Witness for C16: two instances on the key of `"test1"` and an empty lease store without
scripts. Both attempts meet `NOSCRIPT` and both install the scripts, their commands
interleaved; B's second `EvalSha` comes first and creates the lease, A's finds it taken. -/
theorem first_elections_exclusive_witness :
    electionOutcome { now := 1, draw := 7 } racerA
        (race (leaseStore demoScripts) demoScripts racerA.i racerB.i
          { scripts := [], leases := [] } racerSchedule).store
        (race (leaseStore demoScripts) demoScripts racerA.i racerB.i
          { scripts := [], leases := [] } racerSchedule).a
      = some racerAWaiting ∧
    electionOutcome { now := 2, draw := 3 } racerB
        (race (leaseStore demoScripts) demoScripts racerA.i racerB.i
          { scripts := [], leases := [] } racerSchedule).store
        (race (leaseStore demoScripts) demoScripts racerA.i racerB.i
          { scripts := [], leases := [] } racerSchedule).b
      = some racerBElected ∧
    promotions racerBElected.events = promotions racerB.events + 1 ∧
    promotions racerAWaiting.events = promotions racerA.events :=
  ⟨rfl, rfl, rfl,
   ((first_elections_exclusive (leaseStore demoScripts) demoScripts LeaseStore.held
      (leaseStore_gate demoScripts) { now := 1, draw := 7 } { now := 2, draw := 3 }
      racerA racerB rfl { scripts := [], leases := [] } racerSchedule).1
      racerAWaiting racerBElected rfl rfl).2.2 rfl⟩

end Leader
